import Mathlib

/-!
# RideItem: staleness check and interval discovery

A shallow embedding of `RideItem::checkStale` and `RideItem::updateIntervals`
(src/src/RideItem.cpp).  C++ `double` values are embedded as exact rationals,
`int`/`long` values as integers, and every double-to-integer conversion is the
truncation toward zero that C++ performs.  The range of the 32-bit `int` is
embedded where the conversion of the quotient `tc` is itself the subject
(`toInt32`, `tteTc32`); elsewhere `tc` is an unbounded integer, which is the
value of the source for quotients below `2^31`.  Pointers into the sample
vector are embedded as indices into the sample list.
-/

namespace RideItem

/-! ## Numeric conversions -/

/-- Conversion of a `double` to `int`/`long`: truncation toward zero. -/
def truncToInt (q : ℚ) : Int :=
  if 0 ≤ q then ⌊q⌋ else ⌈q⌉

/-! ## Data model -/

/-- One sample of the activity (the fields of `RideFilePoint` the code reads). -/
structure RideFilePoint where
  secs : ℚ
  km : ℚ
  watts : ℚ
  alt : ℚ
deriving DecidableEq

/-- An interval stored in the activity file.  The fields `isPeak` and `isClimb`
are the results of the methods of the same name. -/
structure RideFileInterval where
  name : String
  start : ℚ
  stop : ℚ
  isPeak : Bool
  isClimb : Bool

/-- Calendar date and time of day, as held by a `QDateTime`. -/
structure QDateTime where
  date : Nat
  time : Nat
deriving DecidableEq

/-- The enumeration `RideFileInterval::intervaltype`, restricted to the kinds
that `updateIntervals` creates. -/
inductive IntervalType where
  | ALL
  | USER
  | PEAKPOWER
  | TTE
  | CLIMB
  | ROUTE
deriving DecidableEq

/-- Colour passed to the `IntervalItem` constructor. -/
inductive IntervalColor where
  | darkBlue
  | standardColor (count : Int)
  | gray
  | red
  | green
deriving DecidableEq

/-- The name given to a derived interval, kept as the data from which the
source formats the string: `tr("Entire Activity")`, the file interval's own
name, `"%1 (%2 watts)"` with the catalog entry and the integer average,
`"TTE of %1  (%2 watts)"` with the duration and `joules/t`, `"Climb %1"`, and
the route's name. -/
inductive IntervalName where
  | entireActivity
  | fileName (name : String)
  | peak (catalogIndex : Nat) (watts : Int)
  | tte (duration : Int) (watts : Int)
  | climb (hills : Int)
  | route (name : String)
deriving DecidableEq

/-- A derived interval (`IntervalItem`). -/
structure IntervalItem where
  name : IntervalName
  start : ℚ
  stop : ℚ
  startKM : ℚ
  stopKM : ℚ
  displaySequence : Int
  color : IntervalColor
  type : IntervalType
  metrics : List ℚ
deriving DecidableEq

/-- A result of `BestIntervalDialog::findBests`. -/
structure BestInterval where
  start : ℚ
  stop : ℚ
  avg : ℚ

/-- The activity file (`RideFile`), with the accessors `updateIntervals` calls. -/
structure RideFile where
  dataPoints : List RideFilePoint
  intervals : List RideFileInterval
  recIntSecs : ℚ
  isRun : Bool
  isSwim : Bool
  wattsPresent : Bool
  startTime : QDateTime
  timeToDistance : ℚ → ℚ
  tags : List (String × String)

/-- The power-zone table (`Zones`): the accessors the code calls. -/
structure Zones where
  whichRange : Nat → Int
  getCP : Int → ℚ
  getWprime : Int → ℚ
  getFingerprint : Nat → Nat

/-- One prior occurrence of a route (`RouteRide`). -/
structure RouteRide where
  startTime : QDateTime
  filename : String
  start : ℚ
  stop : ℚ

/-- A known route (`RouteSegment`). -/
structure RouteSegment where
  name : String
  rides : List RouteRide

/-- The record of an activity: the fields of `RideItem` that `checkStale`,
`getWeight` and `updateIntervals` read or write. -/
structure Item where
  isstale : Bool
  dbversion : Int
  weight : ℚ
  fingerprint : Nat
  crc : Nat
  timestamp : Nat
  metacrc : Nat
  samples : Bool
  fileName : String
  dateTime : QDateTime
  metadata_ : List (String × String)
  metrics_ : List ℚ
  intervals_ : List IntervalItem
deriving DecidableEq

/-- Everything reached through `context` and the other collaborators of the
source file.  `zones` is `none` for a null `context->athlete->zones()`. -/
structure Context where
  zones : Option Zones
  paceZonesFingerprint : Nat → Nat
  hrZonesFingerprint : Nat → Nat
  routes : List RouteSegment
  DBSchemaVersion : Int
  getWithingsWeight : Nat → ℚ
  settingsWeight : ℚ
  toDouble : String → ℚ
  toInt : String → Int
  lastModified : String → Nat
  computeFileCRC : String → Nat
  qChecksum : List (String × String) → Nat
  cacheCheckStale : Item → Bool
  findBests : RideFile → Int → List BestInterval
  intervalMetrics : RideFile → ℚ → ℚ → List ℚ
  computeMetrics : RideFile → List ℚ

/-! ## Metadata, body mass and the staleness check -/

/-- The member `getText(name, fallback)`: the metadata value, or the fallback. -/
def getText (item : Item) (name fallback : String) : String :=
  match item.metadata_.lookup name with
  | some v => v
  | none => fallback

/-- The member `metaCRC()`: the checksum of the metadata keys and values. -/
def metaCRC (ctx : Context) (item : Item) : Nat :=
  ctx.qChecksum item.metadata_

/-- The member `getWeight()`: resolves the body mass, stores it in `weight`
and returns it. -/
def getWeight (ctx : Context) (item : Item) : ℚ × Item :=
  let w0 := ctx.getWithingsWeight item.dateTime.date
  let w1 := if w0 = 0 then ctx.toDouble (getText item "Weight" "0.0") else w0
  let w2 := if w1 = 0 then ctx.settingsWeight else w1
  let w3 := if w2 ≤ 0 then 80 else w2
  (w3, { item with weight := w3 })

/-- The sum of the three zone fingerprints for a date, in `unsigned long`
arithmetic. -/
def rfingerprint (ctx : Context) (z : Zones) (date : Nat) : Nat :=
  (z.getFingerprint date + ctx.paceZonesFingerprint date + ctx.hrZonesFingerprint date) % 2 ^ 64

/-- The nested part of `checkStale` (schema version, body mass, fingerprint,
file content, missing intervals).  The result is `none` when the code
dereferences a null `zones()`.  The colour update is left out. -/
def checkStaleCore (ctx : Context) (item : Item) : Option Item :=
  if item.dbversion ≠ ctx.DBSchemaVersion then
    some { item with isstale := true }
  else
    let prior := truncToInt (1000 * item.weight)
    let item1 := (getWeight ctx item).2
    let now := truncToInt (1000 * (getWeight ctx item).1)
    if prior ≠ now then
      some { (getWeight ctx item1).2 with isstale := true }
    else
      match ctx.zones with
      | none => none
      | some z =>
        if item1.fingerprint ≠ rfingerprint ctx z item1.dateTime.date then
          some { item1 with isstale := true }
        else
          let item2 :=
            if item1.timestamp < ctx.lastModified item1.fileName then
              let fcrc := ctx.computeFileCRC item1.fileName
              if item1.crc = 0 ∨ item1.crc ≠ fcrc then
                { item1 with crc := fcrc, isstale := true }
              else item1
            else item1
          let item3 :=
            if item2.samples = true ∧ item2.intervals_.length = 0 then
              { item2 with isstale := true }
            else item2
          some item3

/-- The member `checkStale()`: the verdict and the record as the call leaves
it; `none` when the code dereferences a null `zones()`. -/
def checkStale (ctx : Context) (item : Item) : Option (Bool × Item) :=
  if item.isstale = true then some (true, item)
  else
    match checkStaleCore ctx item with
    | none => none
    | some it =>
      let it1 := if it.isstale = false then { it with isstale := ctx.cacheCheckStale it } else it
      let it2 := if it1.metacrc ≠ metaCRC ctx it1 then { it1 with isstale := true } else it1
      some (it2.isstale, it2)

/-! ## Maximal efforts: the integrated series -/

/-- The variables of the aggregation loop: `sample.secs`, `sample.watts`,
`time`, `lastT`, the cells of `integrated_series` below `pi`, the cell `*pi`,
and `secs`. -/
structure AggState where
  sampleSecs : ℚ
  sampleWatts : ℚ
  time : Int
  lastT : ℚ
  series : List Int
  cur : Int
  secs : Nat

/-- The variables before the first sample is read (`*pi = 0L`). -/
def AggState.init : AggState :=
  { sampleSecs := 0, sampleWatts := 0, time := 0, lastT := 0, series := [], cur := 0, secs := 0 }

/-- The loop `while (dt)` for one sample of power `watts`; `fuel` bounds the
number of iterations. -/
def aggregateSample (watts : ℚ) : Nat → Int → AggState → AggState
  | 0, _, st => st
  | fuel + 1, dt, st =>
    if dt = 0 then st
    else
      let need := truncToInt (1000 - st.sampleSecs)
      if dt < need then
        { st with sampleSecs := st.sampleSecs + dt, sampleWatts := st.sampleWatts + dt * watts }
      else
        let w := (st.sampleWatts + need * watts) / 1000
        let v := truncToInt (st.cur + w)
        aggregateSample watts fuel (dt - need)
          { st with
            time := st.time + 1
            sampleSecs := 0
            sampleWatts := 0
            series := st.series ++ [v]
            cur := v
            secs := st.secs + 1 }

/-- The body of `foreach(RideFilePoint *p, f->dataPoints())` in the
aggregation. -/
def aggregatePoint (st : AggState) (p : RideFilePoint) : AggState :=
  let dt := truncToInt (p.secs * 1000 - st.lastT * 1000)
  aggregateSample p.watts (dt.toNat + 1) dt { st with lastT := p.secs }

/-- The aggregation of the whole series. -/
def aggregate (points : List RideFilePoint) : AggState :=
  points.foldl aggregatePoint AggState.init

/-- The cells of `integrated_series` that have been written: indices `0` to
`secs`. -/
def AggState.integrated (st : AggState) : List Int :=
  st.series ++ [st.cur]

/-- The number of cells allocated for `integrated_series`. -/
def arraySize (f : RideFile) : Int :=
  match f.dataPoints.getLast? with
  | some p => truncToInt (p.secs + f.recIntSecs)
  | none => 0

/-! ## Maximal efforts: the search -/

/-- The quotient `((integrated_series[i+t]-integrated_series[i]) - WPRIME) / CP`
for the window that starts at second `i` and lasts `t` seconds, before its
conversion to `int`. -/
def tteQuotient (I : List Int) (WPRIME CP : ℚ) (i : Nat) (t : Int) : ℚ :=
  (((I.getD (i + t.toNat) 0 - I.getD i 0 : Int) : ℚ) - WPRIME) / CP

/-- The value `tc` computed for the window that starts at second `i` and
lasts `t` seconds, with `int` taken as an unbounded integer: the value of the
source whenever the quotient lies within the range of the 32-bit `int`. -/
def tteTc (I : List Int) (WPRIME CP : ℚ) (i : Nat) (t : Int) : Int :=
  truncToInt (tteQuotient I WPRIME CP i t)

/-- The loop `while (t > 120)` at start second `i`: the accepted duration, or
`none` when the start second is abandoned. -/
def tteInner (I : List Int) (WPRIME CP : ℚ) (i : Nat) : Nat → Int → Option Int
  | 0, _ => none
  | fuel + 1, t =>
    if 120 < t then
      if t ≤ tteTc I WPRIME CP i t then some t
      else tteInner I WPRIME CP i fuel (tteTc I WPRIME CP i t)
    else none

/-- The durations for which the loop `while (t > 120)` at start second `i`
computes `tc`, in the order it examines them. -/
def tteInnerExamined (I : List Int) (WPRIME CP : ℚ) (i : Nat) : Nat → Int → List Int
  | 0, _ => []
  | fuel + 1, t =>
    if 120 < t then
      t :: (if t ≤ tteTc I WPRIME CP i t then []
            else tteInnerExamined I WPRIME CP i fuel (tteTc I WPRIME CP i t))
    else []

/-- The first duration tried at start second `i`. -/
def tteFirst (secs i : Nat) : Int :=
  if ((secs : Int) - i) > 3600 then 3600 else (secs : Int) - i

/-- The loop `for (int i=0; i<secs; i++)`: the accepted windows (start second,
duration) in the order the loop emits them. -/
def tteOuter (I : List Int) (secs : Nat) (WPRIME CP : ℚ) : Nat → Nat → List (Nat × Int)
  | 0, _ => []
  | fuel + 1, i =>
    if i < secs then
      match tteInner I WPRIME CP i (tteFirst secs i).toNat (tteFirst secs i) with
      | some t => (i, t) :: tteOuter I secs WPRIME CP fuel (i + (t.toNat - 1) + 1)
      | none => tteOuter I secs WPRIME CP fuel (i + 1)
    else []

/-- The windows (start second, duration) for which the loop computes `tc`, in
the order it examines them. -/
def tteOuterExamined (I : List Int) (secs : Nat) (WPRIME CP : ℚ) : Nat → Nat → List (Nat × Int)
  | 0, _ => []
  | fuel + 1, i =>
    if i < secs then
      (tteInnerExamined I WPRIME CP i (tteFirst secs i).toNat (tteFirst secs i)).map (fun t => (i, t))
        ++ (match tteInner I WPRIME CP i (tteFirst secs i).toNat (tteFirst secs i) with
            | some t => tteOuterExamined I secs WPRIME CP fuel (i + (t.toNat - 1) + 1)
            | none => tteOuterExamined I secs WPRIME CP fuel (i + 1))
    else []

/-- The accepted windows of the maximal-effort search over a series. -/
def tteWindows (points : List RideFilePoint) (WPRIME CP : ℚ) : List (Nat × Int) :=
  let st := aggregate points
  tteOuter st.integrated st.secs WPRIME CP st.secs 0

/-- The windows examined by the maximal-effort search over a series. -/
def tteExamined (points : List RideFilePoint) (WPRIME CP : ℚ) : List (Nat × Int) :=
  let st := aggregate points
  tteOuterExamined st.integrated st.secs WPRIME CP st.secs 0

/-- A series sampled once per second at times `0, 1, ..., n` with the same
power in every sample. -/
def constantPower (n : Nat) (watts : ℚ) : List RideFilePoint :=
  (List.range (n + 1)).map
    (fun (k : Nat) => ({ secs := (k : ℚ), km := 0, watts := watts, alt := 0 } : RideFilePoint))

/-! ## Climbs -/

/-- The test `(p2->alt-last->alt) / (p2->km-last->km) < 20` on the altitude
difference `da` and the distance difference `dk`.  A division by zero yields
an infinity or a NaN in the source, and of these only the negative infinity
compares below 20. -/
def gradientBelow20 (da dk : ℚ) : Bool :=
  if dk = 0 then decide (da < 0) else decide (da / dk < 20)

/-- The loop `foreach(RideFilePoint *p2, milestones)`: `true` when the counter
`flatMilestones` reaches 10.  The arguments `lastAlt` and `lastKm` are the
fields of `last`. -/
def flatScan : List (Nat × RideFilePoint) → ℚ → ℚ → Int → Bool
  | [], _, _, _ => false
  | p2 :: rest, lastAlt, lastKm, flatMilestones =>
    if gradientBelow20 (p2.2.alt - lastAlt) (p2.2.km - lastKm) = true then
      (decide (10 ≤ flatMilestones + 1)) || flatScan rest p2.2.alt p2.2.km (flatMilestones + 1)
    else
      flatScan rest p2.2.alt p2.2.km 0

/-- The variables of the climb loop, the running `count`, and the climbs
emitted so far. -/
structure ClimbState where
  hills : Int
  start : ℚ
  startKm : ℚ
  stop : ℚ
  minAlt : ℚ
  maxAlt : ℚ
  lastAlt : ℚ
  milestones : List (Nat × RideFilePoint)
  count : Int
  climbs : List IntervalItem

/-- The variables before the climb loop. -/
def ClimbState.init (count : Int) : ClimbState :=
  { hills := 0, start := 0, startKm := 0, stop := 0, minAlt := -1000, maxAlt := -1000,
    lastAlt := -1000, milestones := [], count := count, climbs := [] }

/-- The first part of the loop body: the milestone window after the sample
(index and point) `ip`, the sample that `p` designates afterwards, and `flat`. -/
def milestoneStep (st : ClimbState) (ip : Nat × RideFilePoint) :
    List (Nat × RideFilePoint) × (Nat × RideFilePoint) × Bool :=
  let far : Bool :=
    match st.milestones.getLast? with
    | none => true
    | some m => decide (ip.2.km - m.2.km > 1 / 10)
  if far = true then
    let ms1 := st.milestones ++ [ip]
    if ms1.length > 10 then
      let ms2 := ms1.tail
      if flatScan ms2 st.minAlt st.startKm 0 = true then
        (ms2, ms2.headD ip, true)
      else (ms2, ip, false)
    else (ms1, ip, false)
  else (st.milestones, ip, false)

/-- The acceptance test of a closed segment: distance `d` covered and
altitude span `gain`. -/
def climbAccepted (d gain : ℚ) : Bool :=
  (decide (d ≥ 1 / 2) && decide (gain / d ≥ 60)) ||
  (decide (d ≥ 2) && decide (gain / d ≥ 40)) ||
  (decide (d ≥ 4) && decide (gain / d ≥ 20))

/-- The sample that `p` designates after the milestone part of the loop body. -/
def closingSample (st : ClimbState) (ip : Nat × RideFilePoint) : Nat × RideFilePoint :=
  (milestoneStep st ip).2.1

/-- The test `minAlt == -1000.0 || minAlt > p->alt` of the loop body. -/
def lowersMin (st : ClimbState) (p : Nat × RideFilePoint) : Bool :=
  decide (st.minAlt = -1000 ∨ st.minAlt > p.2.alt)

/-- The value of `minAlt` after the first `if` of the loop body. -/
def segmentMinAlt (st : ClimbState) (p : Nat × RideFilePoint) : ℚ :=
  if lowersMin st p = true then p.2.alt else st.minAlt

/-- The value of `start` after the first `if` of the loop body. -/
def segmentStart (st : ClimbState) (p : Nat × RideFilePoint) : ℚ :=
  if lowersMin st p = true then p.2.secs else st.start

/-- The value of `startKm` after the first `if` of the loop body. -/
def segmentStartKm (st : ClimbState) (p : Nat × RideFilePoint) : ℚ :=
  if lowersMin st p = true then p.2.km else st.startKm

/-- The body of the climb loop for the sample `ip` (index and point);
`lastIdx` is the index of `f->dataPoints().last()`. -/
def climbStep (f : RideFile) (metricsOf : ℚ → ℚ → List ℚ) (lastIdx : Nat)
    (st : ClimbState) (ip : Nat × RideFilePoint) : ClimbState :=
  let ms := (milestoneStep st ip).1
  let p := closingSample st ip
  let flat := (milestoneStep st ip).2.2
  let minAlt := segmentMinAlt st p
  let start := segmentStart st p
  let startKm := segmentStartKm st p
  if st.maxAlt = -1000 ∨ st.maxAlt < p.2.alt then
    { st with milestones := ms, minAlt := minAlt, start := start, startKm := startKm,
              maxAlt := p.2.alt }
  else if flat = true ∨ st.maxAlt > p.2.alt + 1 / 5 * (st.maxAlt - minAlt) ∨ p.1 = lastIdx then
    let emit := climbAccepted (p.2.km - startKm) (st.maxAlt - minAlt)
    { hills := if emit = true then st.hills + 1 else st.hills
      start := p.2.secs
      startKm := p.2.km
      stop := st.stop
      minAlt := -1000
      maxAlt := -1000
      lastAlt := p.2.alt
      milestones := [p]
      count := if emit = true then st.count + 1 else st.count
      climbs :=
        if emit = true then
          st.climbs ++ [{ name := IntervalName.climb (st.hills + 1), start := start, stop := st.stop,
                          startKM := f.timeToDistance start, stopKM := f.timeToDistance st.stop,
                          displaySequence := st.count, color := IntervalColor.green,
                          type := IntervalType.CLIMB, metrics := metricsOf start st.stop }]
        else st.climbs }
  else if st.lastAlt < p.2.alt then
    { st with milestones := ms, minAlt := minAlt, start := start, startKm := startKm,
              lastAlt := p.2.alt, stop := p.2.secs }
  else
    { st with milestones := ms, minAlt := minAlt, start := start, startKm := startKm }

/-- The samples paired with their index in the series. -/
def indexed (points : List RideFilePoint) : List (Nat × RideFilePoint) :=
  (List.range points.length).zip points

/-- The climb loop over the whole series, starting with the given `count`. -/
def climbSearch (f : RideFile) (metricsOf : ℚ → ℚ → List ℚ) (count : Int) : ClimbState :=
  (indexed f.dataPoints).foldl (climbStep f metricsOf (f.dataPoints.length - 1))
    (ClimbState.init count)

/-! ## The interval collection -/

/-- The capacity model resolved at the top of `updateIntervals`: the pair
`(CP, WPRIME)`. -/
def capacityModel (ctx : Context) (item : Item) : ℚ × ℚ :=
  match ctx.zones with
  | none => (250, 22000)
  | some z =>
    let zoneRange := z.whichRange item.dateTime.date
    let CP : ℚ := if zoneRange ≥ 0 then z.getCP zoneRange else 250
    let WPRIME : ℚ := if zoneRange ≥ 0 then z.getWprime zoneRange else 22000
    let oCP := ctx.toInt (getText item "CP" "0")
    (if oCP ≠ 0 then (oCP : ℚ) else CP, WPRIME)

/-- The interval `entire` built from the first and the last sample. -/
def entireInterval (f : RideFile) (item : Item) (first last : RideFilePoint) : IntervalItem :=
  { name := IntervalName.entireActivity, start := first.secs, stop := last.secs,
    startKM := f.timeToDistance first.secs, stopKM := f.timeToDistance last.secs,
    displaySequence := 0, color := IntervalColor.darkBlue, type := IntervalType.ALL,
    metrics := item.metrics_ }

/-- The tests of the loop over `f->intervals()` that end in `continue`. -/
def userSkipped (f : RideFile) (first last : RideFilePoint) (interval : RideFileInterval) : Bool :=
  interval.isPeak || interval.isClimb ||
  (decide (interval.start ≤ first.secs) && decide (interval.stop ≥ last.secs)) ||
  ((decide (interval.start - f.recIntSecs ≤ first.secs) &&
      decide (interval.stop - f.recIntSecs ≥ last.secs)) ||
    (decide (interval.start ≤ first.secs) &&
      decide (interval.stop + f.recIntSecs ≥ last.secs))) ||
  decide (interval.start ≥ interval.stop)

/-- The loop over `f->intervals()`: the USER intervals and the value of
`count` after the loop.  C++ leaves the order in which the constructor
arguments `count` and `standardColor(count++)` are evaluated to the compiler;
this follows the g++ build, which evaluates `standardColor(count++)` first, so
that the colour takes the value of `count` before the increment and the
sequence number the value after it. -/
def userIntervals (ctx : Context) (f : RideFile) (first last : RideFilePoint) :
    List RideFileInterval → Int → List IntervalItem × Int
  | [], count => ([], count)
  | interval :: rest, count =>
    if userSkipped f first last interval = true then
      userIntervals ctx f first last rest count
    else
      let made : IntervalItem :=
        { name := IntervalName.fileName interval.name, start := interval.start,
          stop := interval.stop, startKM := f.timeToDistance interval.start,
          stopKM := f.timeToDistance interval.stop, displaySequence := count + 1,
          color := IntervalColor.standardColor count, type := IntervalType.USER,
          metrics := ctx.intervalMetrics f interval.start interval.stop }
      let r := userIntervals ctx f first last rest (count + 1)
      (made :: r.1, r.2)

/-- The array `durations` without its terminating zero. -/
def durations : List Int :=
  [1, 5, 10, 15, 20, 30, 60, 300, 600, 1200, 1800, 2700, 3600]

/-- The loop over `durations`, from the catalog position `i` on: the
PEAKPOWER intervals and the value of `count` after the loop. -/
def peakIntervals (ctx : Context) (f : RideFile) : List Int → Nat → Int → List IntervalItem × Int
  | [], _, count => ([], count)
  | d :: rest, i, count =>
    match ctx.findBests f d with
    | [] => peakIntervals ctx f rest (i + 1) count
    | best :: _ =>
      if best.avg > 0 ∧ best.stop > 0 then
        let made : IntervalItem :=
          { name := IntervalName.peak i (truncToInt best.avg), start := best.start,
            stop := best.stop, startKM := f.timeToDistance best.start,
            stopKM := f.timeToDistance best.stop, displaySequence := count,
            color := IntervalColor.gray, type := IntervalType.PEAKPOWER,
            metrics := ctx.intervalMetrics f best.start best.stop }
        let r := peakIntervals ctx f rest (i + 1) (count + 1)
        (made :: r.1, r.2)
      else peakIntervals ctx f rest (i + 1) count

/-- The TTE interval created for the accepted window of start second `i` and
duration `t`, with sequence number `count`. -/
def tteInterval (ctx : Context) (f : RideFile) (I : List Int) (count : Int) (w : Nat × Int) :
    IntervalItem :=
  { name := IntervalName.tte w.2 (Int.tdiv (I.getD (w.1 + w.2.toNat) 0 - I.getD w.1 0) w.2),
    start := (w.1 : ℚ), stop := ((w.1 : Int) + w.2 : Int),
    startKM := f.timeToDistance (w.1 : ℚ), stopKM := f.timeToDistance ((w.1 : Int) + w.2 : Int),
    displaySequence := count, color := IntervalColor.red, type := IntervalType.TTE,
    metrics := ctx.intervalMetrics f (w.1 : ℚ) ((w.1 : Int) + w.2 : Int) }

/-- The TTE intervals created for the accepted windows, numbered from `count`. -/
def tteItems (ctx : Context) (f : RideFile) (I : List Int) :
    List (Nat × Int) → Int → List IntervalItem
  | [], _ => []
  | w :: rest, count => tteInterval ctx f I count w :: tteItems ctx f I rest (count + 1)

/-- The maximal-effort block: the TTE intervals, numbered from `count`. -/
def tteIntervals (ctx : Context) (f : RideFile) (WPRIME CP : ℚ) (count : Int) : List IntervalItem :=
  tteItems ctx f (aggregate f.dataPoints).integrated (tteWindows f.dataPoints WPRIME CP) count

/-- The loop over the occurrences of one route. -/
def routeRides (ctx : Context) (f : RideFile) (name : String) :
    List RouteRide → Int → List IntervalItem × Int
  | [], count => ([], count)
  | ride :: rest, count =>
    if f.startTime = ride.startTime then
      let made : IntervalItem :=
        { name := IntervalName.route name, start := ride.start, stop := ride.stop,
          startKM := f.timeToDistance ride.start, stopKM := f.timeToDistance ride.stop,
          displaySequence := count, color := IntervalColor.gray, type := IntervalType.ROUTE,
          metrics := ctx.intervalMetrics f ride.start ride.stop }
      let r := routeRides ctx f name rest (count + 1)
      (made :: r.1, r.2)
    else routeRides ctx f name rest count

/-- The loop over the route table. -/
def routeIntervals (ctx : Context) (f : RideFile) : List RouteSegment → Int → List IntervalItem × Int
  | [], count => ([], count)
  | route :: rest, count =>
    let here := routeRides ctx f route.name route.rides count
    let r := routeIntervals ctx f rest here.2
    (here.1 ++ r.1, r.2)

/-- The gate of the two power searches. -/
def powerSearches (f : RideFile) : Bool :=
  !f.isRun && !f.isSwim && f.wattsPresent

/-- The USER intervals and the value of `count` after the loop over
`f->intervals()`, which starts with `count = 1`. -/
def userPart (ctx : Context) (f : RideFile) (first last : RideFilePoint) : List IntervalItem × Int :=
  userIntervals ctx f first last f.intervals 1

/-- The PEAKPOWER intervals and the value of `count` after the peak block. -/
def peakPart (ctx : Context) (f : RideFile) (first last : RideFilePoint) : List IntervalItem × Int :=
  if powerSearches f = true then peakIntervals ctx f durations 0 (userPart ctx f first last).2
  else ([], (userPart ctx f first last).2)

/-- The TTE intervals of the maximal-effort block. -/
def ttePart (ctx : Context) (item : Item) (f : RideFile) (first last : RideFilePoint) :
    List IntervalItem :=
  if powerSearches f = true then
    tteIntervals ctx f (capacityModel ctx item).2 (capacityModel ctx item).1
      (peakPart ctx f first last).2
  else []

/-- The state of the climb loop after the series. -/
def climbPart (ctx : Context) (item : Item) (f : RideFile) (first last : RideFilePoint) : ClimbState :=
  climbSearch f (ctx.intervalMetrics f)
    ((peakPart ctx f first last).2 + (ttePart ctx item f first last).length)

/-- The ROUTE intervals and the final value of `count`. -/
def routePart (ctx : Context) (item : Item) (f : RideFile) (first last : RideFilePoint) :
    List IntervalItem × Int :=
  routeIntervals ctx f ctx.routes (climbPart ctx item f first last).count

/-- The member `updateIntervals()`, run on the open file `f`: the record with
its new interval collection.  The result is `none` when `samples` is set and
the series is empty, where the source calls `first()` on an empty vector. -/
def updateIntervals (ctx : Context) (item : Item) (f : RideFile) : Option Item :=
  if item.samples = false then some { item with intervals_ := [] }
  else
    match f.dataPoints.head?, f.dataPoints.getLast? with
    | some first, some last =>
      some { item with
        intervals_ :=
          entireInterval f item first last ::
            ((userPart ctx f first last).1 ++ (peakPart ctx f first last).1 ++
              ttePart ctx item f first last ++ (climbPart ctx item f first last).climbs ++
              (routePart ctx item f first last).1) }
    | _, _ => none

/-- The interval collection that `updateIntervals` leaves in the record; the
empty list where `updateIntervals` has no result. -/
def collection (ctx : Context) (item : Item) (f : RideFile) : List IntervalItem :=
  match updateIntervals ctx item f with
  | some item2 => item2.intervals_
  | none => []

/-- The TTE intervals of a collection. -/
def ttesOf (intervals : List IntervalItem) : List IntervalItem :=
  intervals.filter (fun iv => decide (iv.type = IntervalType.TTE))

/-- The CLIMB intervals of a collection. -/
def climbsOf (intervals : List IntervalItem) : List IntervalItem :=
  intervals.filter (fun iv => decide (iv.type = IntervalType.CLIMB))

/-! ## Refresh -/

/-- The body of `refresh()` for an open file `f`, run at time `now`: the
metadata, the body mass, `samples`, the metric table, the interval
collection, and the stored fingerprint, schema version, timestamp and
metadata checksum.  The result is `none` where the code dereferences a null
`zones()`.  The fields `isRun`, `isSwim`, `color` and `present` are left
out, and the metric table is the result of the external computation. -/
def refreshBody (ctx : Context) (now : Nat) (item : Item) (f : RideFile) : Option Item :=
  let item1 : Item := { item with metadata_ := f.tags }
  let item2 : Item := (getWeight ctx item1).2
  let item3 : Item := { item2 with samples := decide (f.dataPoints.length > 0) }
  let item4 : Item := { item3 with metrics_ := ctx.computeMetrics f }
  match updateIntervals ctx item4 f with
  | none => none
  | some item5 =>
    match ctx.zones with
    | none => none
    | some z =>
      let item6 : Item :=
        { item5 with
          isstale := false
          fingerprint := rfingerprint ctx z item5.dateTime.date
          dbversion := ctx.DBSchemaVersion
          timestamp := now }
      let item7 : Item := (getWeight ctx item6).2
      some { item7 with metacrc := metaCRC ctx item7 }

/-- The member `refresh()`.  The argument `opened` is the file that `ride()`
returns (`none` when it cannot be read) and `isOpen` tells whether it was open
before the call.  When it was not, `ride()` opens it and itself calls
`refresh()`, at time `nestedNow`, before the body runs at time `now`. -/
def refresh (ctx : Context) (nestedNow now : Nat) (item : Item) (isOpen : Bool)
    (opened : Option RideFile) : Option Item :=
  if item.isstale = false then some item
  else
    match opened with
    | none => some { item with isstale := false, samples := false }
    | some f =>
      if isOpen = true then refreshBody ctx now item f
      else
        match refreshBody ctx nestedNow item f with
        | none => none
        | some item1 => refreshBody ctx now item1 f

/-! ## Auxiliary definitions for the statements -/

/-- The record on which `refreshBody` runs `updateIntervals`. -/
def refreshInput (ctx : Context) (item : Item) (f : RideFile) : Item :=
  { (getWeight ctx { item with metadata_ := f.tags }).2 with
    samples := decide (f.dataPoints.length > 0), metrics_ := ctx.computeMetrics f }


/-- The intervals of one kind in a collection. -/
def ofType (k : IntervalType) (intervals : List IntervalItem) : List IntervalItem :=
  intervals.filter (fun iv => decide (iv.type = k))

/-- The sequence numbers of the list count up from `c` by one. -/
def NumberedFrom : Int → List IntervalItem → Prop
  | _, [] => True
  | c, iv :: rest => iv.displaySequence = c ∧ NumberedFrom (c + 1) rest

/-- The position of a kind in the order ALL, USER, PEAKPOWER, TTE, CLIMB,
ROUTE. -/
def kindRank : IntervalType → Nat
  | IntervalType.ALL => 0
  | IntervalType.USER => 1
  | IntervalType.PEAKPOWER => 2
  | IntervalType.TTE => 3
  | IntervalType.CLIMB => 4
  | IntervalType.ROUTE => 5

/-- The catalog position recorded in the name of a PEAKPOWER interval. -/
def catalogIndexOf (iv : IntervalItem) : Nat :=
  match iv.name with
  | IntervalName.peak i _ => i
  | _ => 0

/-- The name and the bounds of a derived interval. -/
def itemKey (iv : IntervalItem) : IntervalName × ℚ × ℚ :=
  (iv.name, iv.start, iv.stop)

/-- The name and the bounds that a file interval has as a USER interval. -/
def fileKey (x : RideFileInterval) : IntervalName × ℚ × ℚ :=
  (IntervalName.fileName x.name, x.start, x.stop)


/-- The conditions under which `checkStale` declares a record stale, as the
code tests them. -/
def staleConditions (ctx : Context) (z : Zones) (item : Item) : Prop :=
  item.isstale = true ∨ item.dbversion ≠ ctx.DBSchemaVersion ∨
    truncToInt (1000 * item.weight) ≠ truncToInt (1000 * (getWeight ctx item).1) ∨
    item.fingerprint ≠ rfingerprint ctx z item.dateTime.date ∨
    (item.timestamp < ctx.lastModified item.fileName ∧
      (item.crc = 0 ∨ item.crc ≠ ctx.computeFileCRC item.fileName)) ∨
    (item.samples = true ∧ item.intervals_.length = 0) ∨
    ctx.cacheCheckStale (getWeight ctx item).2 = true ∨
    item.metacrc ≠ metaCRC ctx item

/-- The configuration `ctx` with its three zone tables replaced. -/
def withZoneTables (ctx : Context) (z : Zones) (pace hr : Nat → Nat) : Context :=
  { ctx with zones := some z, paceZonesFingerprint := pace, hrZonesFingerprint := hr }

/-- The variables of the aggregation loop after the series `constantPower n P`. -/
def constantState (n : Nat) (P : ℚ) : AggState :=
  { sampleSecs := 0, sampleWatts := 0, time := n, lastT := n,
    series := (List.range n).map (fun (k : Nat) => ((k : Int) + 1) * ⌊P⌋), cur := (n : Int) * ⌊P⌋,
    secs := n }

/-- The facts that hold throughout the climb loop over a series whose samples
lie within a span shorter than half a kilometre. -/
def ShortSpanInv (points : List RideFilePoint) (st : ClimbState) : Prop :=
  st.climbs = [] ∧ (st.minAlt = -1000 ∨ ∃ q ∈ points, st.startKm = q.km) ∧
    ∀ m ∈ st.milestones, m.2 ∈ points

/-! ## Concrete inputs -/

/-- A power-zone table with a single range and the same checksum for every
date. -/
def sampleZones : Zones :=
  { whichRange := fun _ => 0, getCP := fun _ => 250, getWprime := fun _ => 22000,
    getFingerprint := fun _ => 7 }

/-- A power-zone table whose checksum differs from that of `sampleZones` on
every date except day 100. -/
def otherZones : Zones :=
  { whichRange := fun _ => 0, getCP := fun _ => 250, getWprime := fun _ => 22000,
    getFingerprint := fun d => if d = 100 then 7 else 9 }

/-- A pace-zone checksum table that agrees with that of `sampleContext` on
day 100 only. -/
def otherPace : Nat → Nat :=
  fun d => if d = 100 then 11 else 0

/-- A heart-rate-zone checksum table that agrees with that of `sampleContext`
on day 100 only. -/
def otherHr : Nat → Nat :=
  fun d => if d = 100 then 13 else 1

/-- A configuration: schema version 5, body mass 75 from the settings, a file
last modified at time 50 with content checksum 0, metadata checksum 3, a
cache that reports not stale. -/
def sampleContext : Context :=
  { zones := some sampleZones
    paceZonesFingerprint := fun _ => 11
    hrZonesFingerprint := fun _ => 13
    routes := []
    DBSchemaVersion := 5
    getWithingsWeight := fun _ => 0
    settingsWeight := 75
    toDouble := fun _ => 0
    toInt := fun _ => 0
    lastModified := fun _ => 50
    computeFileCRC := fun _ => 0
    qChecksum := fun _ => 3
    cacheCheckStale := fun _ => false
    findBests := fun _ _ => []
    intervalMetrics := fun _ _ _ => []
    computeMetrics := fun _ => [] }

/-- A record of day 100 that matches `sampleContext` in every stored field and
was refreshed at time 60, after the file was last modified. -/
def cleanItem : Item :=
  { isstale := false, dbversion := 5, weight := 75, fingerprint := 31, crc := 0, timestamp := 60,
    metacrc := 3, samples := false, fileName := "ride.json", dateTime := { date := 100, time := 0 },
    metadata_ := [], metrics_ := [], intervals_ := [] }

/-- The record `cleanItem` refreshed at time 40, before the file was last
modified. -/
def touchedItem : Item :=
  { cleanItem with timestamp := 40 }

/-- The record `cleanItem` as stored under schema version 4. -/
def staleSchemaItem : Item :=
  { cleanItem with dbversion := 4 }

/-- The record `cleanItem` of an activity that has samples. -/
def sampledItem : Item :=
  { cleanItem with samples := true }

/-- A ride with power data over the given samples, recorded once per second,
without file intervals. -/
def powerRide (points : List RideFilePoint) : RideFile :=
  { dataPoints := points, intervals := [], recIntSecs := 1, isRun := false, isSwim := false,
    wattsPresent := true, startTime := { date := 100, time := 0 }, timeToDistance := fun _ => 0,
    tags := [] }

/-- A ride without power data over the given samples, without file intervals. -/
def altitudeRide (points : List RideFilePoint) : RideFile :=
  { dataPoints := points, intervals := [], recIntSecs := 1, isRun := false, isSwim := false,
    wattsPresent := false, startTime := { date := 100, time := 0 }, timeToDistance := fun _ => 0,
    tags := [] }

/-- A ride with power data and one file interval from second 10 to second 20. -/
def lapRide : RideFile :=
  { dataPoints := constantPower 30 100
    intervals := [{ name := "lap", start := 10, stop := 20, isPeak := false, isClimb := false }]
    recIntSecs := 1, isRun := false, isSwim := false, wattsPresent := true,
    startTime := { date := 100, time := 0 }, timeToDistance := fun _ => 0,
    tags := [] }

/-- A series of one sample. -/
def singleSample : List RideFilePoint :=
  [{ secs := 0, km := 0, watts := 0, alt := 0 }]

/-- A monotonic ascent of 2.5 km with 150 m of gain: six samples one minute
and half a kilometre apart, each 30 m above the previous one. -/
def steadyAscent : List RideFilePoint :=
  [{ secs := 0, km := 0, watts := 0, alt := 0 },
   { secs := 60, km := 1 / 2, watts := 0, alt := 30 },
   { secs := 120, km := 1, watts := 0, alt := 60 },
   { secs := 180, km := 3 / 2, watts := 0, alt := 90 },
   { secs := 240, km := 2, watts := 0, alt := 120 },
   { secs := 300, km := 5 / 2, watts := 0, alt := 150 }]

/-- A climb of 100 m over half a kilometre followed by a descent of 50 m. -/
def ascentThenDrop : List RideFilePoint :=
  [{ secs := 10, km := 0, watts := 0, alt := 0 },
   { secs := 60, km := 1 / 2, watts := 0, alt := 100 },
   { secs := 120, km := 1, watts := 0, alt := 50 }]

/-- A monotonic ascent of 0.3 km with 100 m of gain, followed by a last sample
at the same place and a lower altitude. -/
def shortAscent : List RideFilePoint :=
  [{ secs := 0, km := 0, watts := 0, alt := 0 },
   { secs := 30, km := 1 / 10, watts := 0, alt := 33 },
   { secs := 60, km := 1 / 5, watts := 0, alt := 66 },
   { secs := 90, km := 3 / 10, watts := 0, alt := 100 },
   { secs := 120, km := 3 / 10, watts := 0, alt := 60 }]

/-- The record `cleanItem` marked stale. -/
def staleItem : Item :=
  { cleanItem with isstale := true }

/-- The record that `refresh()` leaves for `staleItem` and the open file
`lapRide` at time 60. -/
def refreshedItem : Item :=
  (refresh sampleContext 60 60 staleItem true (some lapRide)).getD staleItem

/-- A ride with power data and one file interval that starts one recording
interval after the first sample and stops at the last sample. -/
def nearRide : RideFile :=
  { dataPoints := constantPower 30 100
    intervals := [{ name := "near", start := 1, stop := 30, isPeak := false, isClimb := false }]
    recIntSecs := 1, isRun := false, isSwim := false, wattsPresent := true,
    startTime := { date := 100, time := 0 }, timeToDistance := fun _ => 0,
    tags := [] }

/-- The ride `powerRide (constantPower 130 500)` flagged as a run. -/
def runRide : RideFile :=
  { powerRide (constantPower 130 500) with isRun := true }

/-- The configuration `sampleContext`, reading the text "300" as the integer
300. -/
def overrideContext : Context :=
  { sampleContext with toInt := fun s => if s = "300" then 300 else 0 }

/-- The record `cleanItem` with the metadata entry `CP = 300`. -/
def overrideItem : Item :=
  { cleanItem with metadata_ := [("CP", "300")] }

/-! ## Maximal efforts: the descent of the specification, buckets and loop runs -/

/-- Conversion of a `double` to the 32-bit `int`: the truncation toward zero
when that lies within the range of `int`.  Outside that range the conversion
is undefined in C++; this follows the x86-64 build, which yields `INT_MIN`. -/
def toInt32 (q : ℚ) : Int :=
  if -2147483648 ≤ truncToInt q ∧ truncToInt q ≤ 2147483647 then truncToInt q else -2147483648

/-- The value of `int tc` for the window that starts at second `i` and lasts
`t` seconds, with the range of the 32-bit `int`. -/
def tteTc32 (I : List Int) (WPRIME CP : ℚ) (i : Nat) (t : Int) : Int :=
  toInt32 (tteQuotient I WPRIME CP i t)

/-- The loop `while (t > 120)` at start second `i` with the 32-bit `tc`: the
accepted duration, or `none` when the start second is abandoned. -/
def tteInner32 (I : List Int) (WPRIME CP : ℚ) (i : Nat) : Nat → Int → Option Int
  | 0, _ => none
  | fuel + 1, t =>
    if 120 < t then
      if t ≤ tteTc32 I WPRIME CP i t then some t
      else tteInner32 I WPRIME CP i fuel (tteTc32 I WPRIME CP i t)
    else none

/-- The durations for which the loop `while (t > 120)` at start second `i`
computes the 32-bit `tc`, in the order it examines them. -/
def tteInnerExamined32 (I : List Int) (WPRIME CP : ℚ) (i : Nat) : Nat → Int → List Int
  | 0, _ => []
  | fuel + 1, t =>
    if 120 < t then
      t :: (if t ≤ tteTc32 I WPRIME CP i t then []
            else tteInnerExamined32 I WPRIME CP i fuel (tteTc32 I WPRIME CP i t))
    else []

/-- The loop `for (int i=0; i<secs; i++)` with the 32-bit `tc`: the accepted
windows (start second, duration) in the order the loop emits them. -/
def tteOuter32 (I : List Int) (secs : Nat) (WPRIME CP : ℚ) : Nat → Nat → List (Nat × Int)
  | 0, _ => []
  | fuel + 1, i =>
    if i < secs then
      match tteInner32 I WPRIME CP i (tteFirst secs i).toNat (tteFirst secs i) with
      | some t => (i, t) :: tteOuter32 I secs WPRIME CP fuel (i + (t.toNat - 1) + 1)
      | none => tteOuter32 I secs WPRIME CP fuel (i + 1)
    else []

/-- The windows (start second, duration) for which the loop computes the
32-bit `tc`, in the order it examines them. -/
def tteOuterExamined32 (I : List Int) (secs : Nat) (WPRIME CP : ℚ) : Nat → Nat → List (Nat × Int)
  | 0, _ => []
  | fuel + 1, i =>
    if i < secs then
      (tteInnerExamined32 I WPRIME CP i (tteFirst secs i).toNat (tteFirst secs i)).map (fun t => (i, t))
        ++ (match tteInner32 I WPRIME CP i (tteFirst secs i).toNat (tteFirst secs i) with
            | some t => tteOuterExamined32 I secs WPRIME CP fuel (i + (t.toNat - 1) + 1)
            | none => tteOuterExamined32 I secs WPRIME CP fuel (i + 1))
    else []

/-- The accepted windows of the maximal-effort search over a series, with the
32-bit `tc`. -/
def tteWindows32 (points : List RideFilePoint) (WPRIME CP : ℚ) : List (Nat × Int) :=
  let st := aggregate points
  tteOuter32 st.integrated st.secs WPRIME CP st.secs 0

/-- The windows examined by the maximal-effort search over a series, with the
32-bit `tc`. -/
def tteExamined32 (points : List RideFilePoint) (WPRIME CP : ℚ) : List (Nat × Int) :=
  let st := aggregate points
  tteOuterExamined32 st.integrated st.secs WPRIME CP st.secs 0

/-- The test that every gradient of the milestone window is below 20: the
first taken from the reference point (`lastAlt`, `lastKm`) and each further
one from the milestone before. -/
def allGradientsBelow20 : List (Nat × RideFilePoint) → ℚ → ℚ → Bool
  | [], _, _ => true
  | p2 :: rest, lastAlt, lastKm =>
    gradientBelow20 (p2.2.alt - lastAlt) (p2.2.km - lastKm) &&
      allGradientsBelow20 rest p2.2.alt p2.2.km

/-- The values of `sample.watts` that the loop `while (dt)` adds to the
integrated series for one sample: one value for every completed one-second
bucket. -/
def bucketsOfSample (watts : ℚ) : Nat → Int → AggState → List ℚ
  | 0, _, _ => []
  | fuel + 1, dt, st =>
    if dt = 0 then []
    else
      let need := truncToInt (1000 - st.sampleSecs)
      if dt < need then []
      else
        let w := (st.sampleWatts + need * watts) / 1000
        let v := truncToInt (st.cur + w)
        w :: bucketsOfSample watts fuel (dt - need)
          { st with
            time := st.time + 1
            sampleSecs := 0
            sampleWatts := 0
            series := st.series ++ [v]
            cur := v
            secs := st.secs + 1 }

/-- The bucket values completed while the sample `p` is read. -/
def bucketsOfPoint (st : AggState) (p : RideFilePoint) : List ℚ :=
  let dt := truncToInt (p.secs * 1000 - st.lastT * 1000)
  bucketsOfSample p.watts (dt.toNat + 1) dt { st with lastT := p.secs }

/-- The bucket values completed while the samples are read from the state
`st` on. -/
def bucketsFrom : AggState → List RideFilePoint → List ℚ
  | _, [] => []
  | st, p :: ps => bucketsOfPoint st p ++ bucketsFrom (aggregatePoint st p) ps

/-- The one-second bucket values of a series, bucket 0 first. -/
def buckets (points : List RideFilePoint) : List ℚ :=
  bucketsFrom AggState.init points

/-- The work of the buckets of seconds `i, i+1, ..., i+t-1`. -/
def windowWork (points : List RideFilePoint) (i t : Nat) : ℚ :=
  (((buckets points).drop i).take t).sum

/-- The work value the search uses for the window that starts at second `i`
and lasts `t` seconds: `integrated_series[i+t] - integrated_series[i]`. -/
def searchWork (points : List RideFilePoint) (i t : Nat) : Int :=
  (aggregate points).integrated.getD (i + t) 0 - (aggregate points).integrated.getD i 0

/-- The indices of `integrated_series` that the aggregation writes: index 0
(`*pi = 0L`) and, for every completed bucket, the index of `pi` and that of
`pi+1`. -/
def writtenIndices (st : AggState) : List Nat :=
  0 :: (List.range st.secs).flatMap (fun (k : Nat) => [k, k + 1])

/-- The indices of `integrated_series` that the search reads: `i+t` and `i`
for every window it examines. -/
def readIndices (st : AggState) (WPRIME CP : ℚ) : List Nat :=
  (tteOuterExamined st.integrated st.secs WPRIME CP st.secs 0).flatMap
    (fun (w : Nat × Int) => [w.1 + w.2.toNat, w.1])

/-- The loop `while (dt)` for one sample, with `none` when the loop has not
ended within `fuel` iterations. -/
def aggregateSampleRun (watts : ℚ) : Nat → Int → AggState → Option AggState
  | 0, dt, st => if dt = 0 then some st else none
  | fuel + 1, dt, st =>
    if dt = 0 then some st
    else
      let need := truncToInt (1000 - st.sampleSecs)
      if dt < need then
        some { st with sampleSecs := st.sampleSecs + dt, sampleWatts := st.sampleWatts + dt * watts }
      else
        let w := (st.sampleWatts + need * watts) / 1000
        let v := truncToInt (st.cur + w)
        aggregateSampleRun watts fuel (dt - need)
          { st with
            time := st.time + 1
            sampleSecs := 0
            sampleWatts := 0
            series := st.series ++ [v]
            cur := v
            secs := st.secs + 1 }

/-- The body of the aggregation loop for the sample `p`, with `none` when its
loop `while (dt)` has not ended within the iterations allowed. -/
def aggregatePointRun (st : AggState) (p : RideFilePoint) : Option AggState :=
  let dt := truncToInt (p.secs * 1000 - st.lastT * 1000)
  aggregateSampleRun p.watts (dt.toNat + 1) dt { st with lastT := p.secs }

/-- The aggregation of the samples from the state `st` on, with `none` when
one of its loops has not ended within the iterations allowed. -/
def aggregateRun : AggState → List RideFilePoint → Option AggState
  | st, [] => some st
  | st, p :: ps =>
    match aggregatePointRun st p with
    | none => none
    | some st1 => aggregateRun st1 ps

/-- The loop `while (t > 120)` at start second `i`, with `none` when the loop
has not ended within `fuel` iterations. -/
def tteInnerRun (I : List Int) (WPRIME CP : ℚ) (i : Nat) : Nat → Int → Option (Option Int)
  | 0, t => if 120 < t then none else some none
  | fuel + 1, t =>
    if 120 < t then
      if t ≤ tteTc I WPRIME CP i t then some (some t)
      else tteInnerRun I WPRIME CP i fuel (tteTc I WPRIME CP i t)
    else some none

/-- The loop `for (int i=0; i<secs; i++)`, with `none` when this loop or one
of its inner loops has not ended within the iterations allowed. -/
def tteOuterRun (I : List Int) (secs : Nat) (WPRIME CP : ℚ) : Nat → Nat → Option (List (Nat × Int))
  | 0, i => if i < secs then none else some []
  | fuel + 1, i =>
    if i < secs then
      match tteInnerRun I WPRIME CP i (tteFirst secs i).toNat (tteFirst secs i) with
      | none => none
      | some (some t) =>
        (tteOuterRun I secs WPRIME CP fuel (i + (t.toNat - 1) + 1)).map (fun l => (i, t) :: l)
      | some none => tteOuterRun I secs WPRIME CP fuel (i + 1)
    else some []

/-- The maximal-effort routine over a series (aggregation, then search), with
`none` when one of its loops has not ended within the iterations allowed. -/
def tteWindowsRun (points : List RideFilePoint) (WPRIME CP : ℚ) : Option (List (Nat × Int)) :=
  match aggregateRun AggState.init points with
  | none => none
  | some st => tteOuterRun st.integrated st.secs WPRIME CP st.secs 0

/-- A series sampled once per second from time `j` on, with a power that is a
non-negative whole number in every sample. -/
def OneHzFrom : Nat → List RideFilePoint → Prop
  | _, [] => True
  | j, p :: ps => p.secs = (j : ℚ) ∧ (∃ n : Nat, p.watts = (n : ℚ)) ∧ OneHzFrom (j + 1) ps

/-- The running sums of a list of integers, starting from `c`. -/
def runningSums : Int → List Int → List Int
  | _, [] => []
  | c, w :: ws => (c + w) :: runningSums (c + w) ws

/-- Facts that hold for the variables of the aggregation after every sample:
`sample.secs` holds a whole number of milliseconds below 1000 and one cell of
the series has been left behind `pi` for every completed bucket. -/
def AggInv (st : AggState) : Prop :=
  (∃ s : Int, st.sampleSecs = (s : ℚ) ∧ s ≤ 999) ∧ st.series.length = st.secs

/-- Facts that hold throughout the climb loop over a series without the
altitude -1000: `maxAlt` is at least the altitude of every milestone behind
the first of the window, `maxAlt` is set once the window holds two milestones,
no milestone has the altitude -1000, and the window holds at most 10
milestones. -/
def MilestoneInv (st : ClimbState) : Prop :=
  (∀ m ∈ st.milestones.tail, m.2.alt ≤ st.maxAlt) ∧
    (st.milestones.tail ≠ [] → st.maxAlt ≠ -1000) ∧
    (∀ m ∈ st.milestones, m.2.alt ≠ -1000) ∧
    st.milestones.length ≤ 10

/-! ## Further concrete inputs -/

/-- A ride with power data sampled twice per second: samples at 0 s, 0.5 s and
1 s, recording interval 0.5 s. -/
def halfSecondRide : RideFile :=
  { dataPoints := [{ secs := 0, km := 0, watts := 100, alt := 0 },
                   { secs := 1 / 2, km := 0, watts := 100, alt := 0 },
                   { secs := 1, km := 0, watts := 100, alt := 0 }]
    intervals := [], recIntSecs := 1 / 2, isRun := false, isSwim := false, wattsPresent := true,
    startTime := { date := 100, time := 0 }, timeToDistance := fun _ => 0,
    tags := [] }

/-- A series sampled once per second at times `0, 1, ..., 200`: 1000 W in the
sample at time 1 and 100 W in every other sample. -/
def spikeSeries : List RideFilePoint :=
  (List.range 201).map
    (fun (k : Nat) =>
      ({ secs := (k : ℚ), km := 0, watts := if k = 1 then 1000 else 100, alt := 0 } : RideFilePoint))

/-- An ascent of 150 m over 1.5 km with a dip of 5 m after the first half
kilometre, followed by a descent of 50 m. -/
def dippedAscent : List RideFilePoint :=
  [{ secs := 0, km := 0, watts := 0, alt := 0 },
   { secs := 60, km := 1 / 2, watts := 0, alt := 100 },
   { secs := 120, km := 1, watts := 0, alt := 95 },
   { secs := 180, km := 3 / 2, watts := 0, alt := 150 },
   { secs := 240, km := 2, watts := 0, alt := 100 }]

/-- A gentle rise: twelve samples one minute and 0.2 km apart, each 1 m above
the previous one, from the altitude 10 on. -/
def gentleRise : List RideFilePoint :=
  (List.range 12).map
    (fun (k : Nat) =>
      ({ secs := 60 * (k : ℚ), km := (k : ℚ) / 5, watts := 0, alt := 10 + (k : ℚ) } : RideFilePoint))

/-- A ride of 130 seconds at 500 W with two file intervals, from second 10 to
second 20 and from second 30 to second 40. -/
def twoLapRide : RideFile :=
  { dataPoints := constantPower 130 500
    intervals := [{ name := "lap 1", start := 10, stop := 20, isPeak := false, isClimb := false },
                  { name := "lap 2", start := 30, stop := 40, isPeak := false, isClimb := false }]
    recIntSecs := 1, isRun := false, isSwim := false, wattsPresent := true,
    startTime := { date := 100, time := 0 }, timeToDistance := fun _ => 0,
    tags := [] }

/-! ## Lemmas and theorems -/


/-! ## Truncation -/

theorem le_truncToInt_iff (t : Int) (ht : 0 < t) (q : ℚ) : t ≤ truncToInt q ↔ (t : ℚ) ≤ q := by
  unfold truncToInt
  split_ifs with h
  · exact Int.le_floor
  · have hq : q < 0 := not_le.mp h
    have hc : ⌈q⌉ ≤ 0 := Int.ceil_le.mpr (by exact_mod_cast hq.le)
    have ht' : (0 : ℚ) < t := by exact_mod_cast ht
    constructor
    · intro h1
      omega
    · intro h1
      linarith

/-! ## The inner loop of the search -/

theorem tteInner_eq_some (I : List Int) (WPRIME CP : ℚ) (i : Nat) (fuel : Nat) (t r : Int)
    (h : tteInner I WPRIME CP i fuel t = some r) :
    120 < r ∧ r ≤ t ∧ r ≤ tteTc I WPRIME CP i r ∧ r ∈ tteInnerExamined I WPRIME CP i fuel t := by
  induction fuel generalizing t with
  | zero => simp [tteInner] at h
  | succ n ih =>
    unfold tteInner at h
    unfold tteInnerExamined
    split_ifs at h with h1 h2
    · have hr : t = r := by simpa using h
      subst hr
      simp [h1, h2]
    · obtain ⟨a, b, c, d⟩ := ih _ h
      have hlt : tteTc I WPRIME CP i t < t := not_le.mp h2
      refine ⟨a, by omega, c, ?_⟩
      simp [h1, h2, d]

theorem tteInner_of_examined (I : List Int) (WPRIME CP : ℚ) (i : Nat) (fuel : Nat) (t r : Int)
    (hr : r ∈ tteInnerExamined I WPRIME CP i fuel t) (hacc : r ≤ tteTc I WPRIME CP i r) :
    tteInner I WPRIME CP i fuel t = some r := by
  induction fuel generalizing t with
  | zero => simp [tteInnerExamined] at hr
  | succ n ih =>
    unfold tteInnerExamined at hr
    unfold tteInner
    split_ifs at hr with h1 h2
    · have : r = t := by simpa using hr
      subst this
      simp [h1, h2]
    · simp only [List.mem_cons] at hr
      rcases hr with hr | hr
      · subst hr
        exact absurd hacc h2
      · simp [h1, h2, ih _ hr]
    · simp at hr

theorem tteInnerExamined_bounds (I : List Int) (WPRIME CP : ℚ) (i : Nat) (fuel : Nat) (t r : Int)
    (hr : r ∈ tteInnerExamined I WPRIME CP i fuel t) : 120 < r ∧ r ≤ t := by
  induction fuel generalizing t with
  | zero => simp [tteInnerExamined] at hr
  | succ n ih =>
    unfold tteInnerExamined at hr
    split_ifs at hr with h1 h2
    · have : r = t := by simpa using hr
      subst this
      exact ⟨h1, le_refl _⟩
    · simp only [List.mem_cons] at hr
      rcases hr with hr | hr
      · subst hr
        exact ⟨h1, le_refl _⟩
      · have := ih _ hr
        have hlt : tteTc I WPRIME CP i t < t := not_le.mp h2
        exact ⟨this.1, by omega⟩
    · simp at hr

theorem tteFirst_le (secs i : Nat) : tteFirst secs i ≤ 3600 ∧ tteFirst secs i ≤ (secs : Int) - i := by
  unfold tteFirst
  split_ifs <;> omega

/-! ## The outer loop of the search -/

theorem tteOuter_mem (I : List Int) (secs : Nat) (WPRIME CP : ℚ) (fuel i0 : Nat) (w : Nat × Int)
    (h : w ∈ tteOuter I secs WPRIME CP fuel i0) :
    i0 ≤ w.1 ∧ 120 < w.2 ∧ w.2 ≤ 3600 ∧ (w.1 : Int) + w.2 ≤ secs ∧
      w.2 ≤ tteTc I WPRIME CP w.1 w.2 ∧ w ∈ tteOuterExamined I secs WPRIME CP fuel i0 := by
  induction fuel generalizing i0 with
  | zero => simp [tteOuter] at h
  | succ n ih =>
    unfold tteOuter at h
    unfold tteOuterExamined
    split_ifs at h with h1
    · cases hin : tteInner I WPRIME CP i0 (tteFirst secs i0).toNat (tteFirst secs i0) with
      | none =>
        rw [hin] at h
        obtain ⟨a, b, c, d, e, f⟩ := ih _ h
        refine ⟨by omega, b, c, d, e, ?_⟩
        simp only [h1, if_true, hin, List.mem_append]
        exact Or.inr f
      | some t =>
        rw [hin] at h
        obtain ⟨a, b, c, d⟩ := tteInner_eq_some _ _ _ _ _ _ _ hin
        have hf := tteFirst_le secs i0
        simp only [List.mem_cons] at h
        rcases h with h | h
        · subst h
          refine ⟨le_refl _, a, by omega, by simp only; omega, c, ?_⟩
          simp only [h1, if_true, List.mem_append, List.mem_map]
          exact Or.inl ⟨t, d, rfl⟩
        · obtain ⟨a', b', c', d', e', f'⟩ := ih _ h
          refine ⟨by omega, b', c', d', e', ?_⟩
          simp only [h1, if_true, hin, List.mem_append]
          exact Or.inr f'
    · simp at h

theorem tteOuterExamined_mem (I : List Int) (secs : Nat) (WPRIME CP : ℚ) (fuel i0 : Nat)
    (w : Nat × Int) (h : w ∈ tteOuterExamined I secs WPRIME CP fuel i0) :
    i0 ≤ w.1 ∧ w.1 < secs ∧ 120 < w.2 ∧ w.2 ≤ 3600 ∧ (w.1 : Int) + w.2 ≤ secs := by
  induction fuel generalizing i0 with
  | zero => simp [tteOuterExamined] at h
  | succ n ih =>
    unfold tteOuterExamined at h
    split_ifs at h with h1
    · simp only [List.mem_append, List.mem_map] at h
      rcases h with ⟨t, ht, rfl⟩ | h
      · have hb := tteInnerExamined_bounds _ _ _ _ _ _ _ ht
        have hf := tteFirst_le secs i0
        exact ⟨le_refl _, h1, hb.1, by simp only; omega, by simp only; omega⟩
      · cases hin : tteInner I WPRIME CP i0 (tteFirst secs i0).toNat (tteFirst secs i0) with
        | none =>
          rw [hin] at h
          obtain ⟨a, b⟩ := ih _ h
          exact ⟨by omega, b⟩
        | some t =>
          rw [hin] at h
          obtain ⟨a, b⟩ := ih _ h
          exact ⟨by omega, b⟩
    · simp at h

theorem tteOuter_of_examined (I : List Int) (secs : Nat) (WPRIME CP : ℚ) (fuel i0 : Nat)
    (w : Nat × Int) (h : w ∈ tteOuterExamined I secs WPRIME CP fuel i0)
    (hacc : w.2 ≤ tteTc I WPRIME CP w.1 w.2) : w ∈ tteOuter I secs WPRIME CP fuel i0 := by
  induction fuel generalizing i0 with
  | zero => simp [tteOuterExamined] at h
  | succ n ih =>
    unfold tteOuterExamined at h
    unfold tteOuter
    split_ifs at h with h1
    · simp only [h1, if_true]
      simp only [List.mem_append, List.mem_map] at h
      rcases h with ⟨t, ht, rfl⟩ | h
      · rw [tteInner_of_examined _ _ _ _ _ _ _ ht hacc]
        exact List.mem_cons_self _ _
      · cases hin : tteInner I WPRIME CP i0 (tteFirst secs i0).toNat (tteFirst secs i0) with
        | none =>
          rw [hin] at h
          exact ih _ h
        | some t =>
          rw [hin] at h
          exact List.mem_cons_of_mem _ (ih _ h)
    · simp at h

theorem tteOuter_pairwise (I : List Int) (secs : Nat) (WPRIME CP : ℚ) (fuel i0 : Nat) :
    (tteOuter I secs WPRIME CP fuel i0).Pairwise (fun a b => (a.1 : Int) + a.2 ≤ b.1) := by
  induction fuel generalizing i0 with
  | zero => simp [tteOuter]
  | succ n ih =>
    unfold tteOuter
    split_ifs with h1
    · cases hin : tteInner I WPRIME CP i0 (tteFirst secs i0).toNat (tteFirst secs i0) with
      | none => exact ih _
      | some t =>
        obtain ⟨a, b, c, d⟩ := tteInner_eq_some _ _ _ _ _ _ _ hin
        refine List.Pairwise.cons ?_ (ih _)
        intro w hw
        have := (tteOuter_mem _ _ _ _ _ _ _ hw).1
        simp only
        omega
    · exact List.Pairwise.nil


/-! ## The fuel of the search loops is sufficient -/

theorem tteInner_fuel_succ (I : List Int) (WPRIME CP : ℚ) (i fuel : Nat) (t : Int)
    (h : t ≤ (fuel : Int) + 120) :
    tteInner I WPRIME CP i (fuel + 1) t = tteInner I WPRIME CP i fuel t := by
  induction fuel generalizing t with
  | zero =>
    have : ¬ 120 < t := by omega
    simp [tteInner, this]
  | succ n ih =>
    rw [tteInner, tteInner.eq_def I WPRIME CP i (n + 1) t]
    simp only
    split_ifs with h1 h2
    · rfl
    · apply ih
      have : tteTc I WPRIME CP i t < t := not_le.mp h2
      push_cast at h
      omega
    · rfl

theorem tteOuter_fuel_succ (I : List Int) (secs : Nat) (WPRIME CP : ℚ) (fuel i : Nat)
    (h : secs ≤ i + fuel) :
    tteOuter I secs WPRIME CP (fuel + 1) i = tteOuter I secs WPRIME CP fuel i := by
  induction fuel generalizing i with
  | zero =>
    have : ¬ i < secs := by omega
    simp [tteOuter, this]
  | succ n ih =>
    rw [tteOuter, tteOuter.eq_def I secs WPRIME CP (n + 1) i]
    simp only
    split_ifs with h1
    · cases hin : tteInner I WPRIME CP i (tteFirst secs i).toNat (tteFirst secs i) with
      | none =>
        simp only
        exact ih _ (by omega)
      | some t =>
        simp only
        rw [ih _ (by omega)]
    · rfl


theorem truncToInt_intCast (z : Int) : truncToInt (z : ℚ) = z := by
  unfold truncToInt
  split_ifs <;> simp

theorem truncToInt_add_nonneg (c : Int) (P : ℚ) (hc : 0 ≤ c) (hP : 0 ≤ P) :
    truncToInt ((c : ℚ) + P) = c + ⌊P⌋ := by
  unfold truncToInt
  have : (0 : ℚ) ≤ (c : ℚ) + P := add_nonneg (by exact_mod_cast hc) hP
  rw [if_pos this, Int.floor_int_add]

theorem aggregateSample_zero (watts : ℚ) (fuel : Nat) (st : AggState) :
    aggregateSample watts fuel 0 st = st := by
  cases fuel <;> simp [aggregateSample]

theorem truncToInt_thousand : truncToInt 1000 = 1000 := by
  have : (1000 : ℚ) = ((1000 : Int) : ℚ) := by norm_num
  rw [this, truncToInt_intCast]

theorem aggregateSample_full (watts : ℚ) (fuel : Nat) (st : AggState) (hs : st.sampleSecs = 0)
    (hw : st.sampleWatts = 0) (hc : 0 ≤ st.cur) (hP : 0 ≤ watts) :
    aggregateSample watts (fuel + 1) 1000 st =
      { st with time := st.time + 1, series := st.series ++ [st.cur + ⌊watts⌋],
                cur := st.cur + ⌊watts⌋, secs := st.secs + 1 } := by
  rw [aggregateSample]
  have hv : truncToInt ((st.cur : ℚ) + ((1000 : Int) : ℚ) * watts / 1000) = st.cur + ⌊watts⌋ := by
    have e : ((1000 : Int) : ℚ) * watts / 1000 = watts := by
      push_cast
      field_simp
    rw [e, truncToInt_add_nonneg _ _ hc hP]
  simp only [hs, hw, sub_zero, zero_add, truncToInt_thousand, lt_irrefl, if_false, hv, sub_self,
    aggregateSample_zero]
  simp


theorem constantPower_succ (n : Nat) (P : ℚ) :
    constantPower (n + 1) P =
      constantPower n P ++ [{ secs := ((n + 1 : Nat) : ℚ), km := 0, watts := P, alt := 0 }] := by
  unfold constantPower
  rw [List.range_succ, List.map_append]
  simp

theorem foldl_single (st : AggState) (p : RideFilePoint) :
    List.foldl aggregatePoint st [p] = aggregatePoint st p := rfl

theorem aggregatePoint_eq (st : AggState) (p : RideFilePoint) :
    aggregatePoint st p = aggregateSample p.watts
      ((truncToInt (p.secs * 1000 - st.lastT * 1000)).toNat + 1)
      (truncToInt (p.secs * 1000 - st.lastT * 1000)) { st with lastT := p.secs } := rfl

theorem aggregate_constantPower_zero (P : ℚ) :
    aggregate (constantPower 0 P) = constantState 0 P := by
    have h1 : constantPower 0 P =
        [{ secs := ((0 : Nat) : ℚ), km := 0, watts := P, alt := 0 }] := by
      simp [constantPower, List.range_succ]
    rw [aggregate, h1, foldl_single, aggregatePoint_eq]
    have hdt : truncToInt (((0 : Nat) : ℚ) * 1000 - AggState.init.lastT * 1000) = 0 := by
      have : ((0 : Nat) : ℚ) * 1000 - AggState.init.lastT * 1000 = ((0 : Int) : ℚ) := by
        simp [AggState.init]
      rw [this, truncToInt_intCast]
    rw [hdt, aggregateSample_zero]
    simp only [constantState, AggState.init, List.range_zero, List.map_nil, Nat.cast_zero, zero_mul]

theorem aggregate_constantPower (n : Nat) (P : ℚ) (hP : 0 ≤ P) :
    aggregate (constantPower n P) = constantState n P := by
  induction n with
  | zero => exact aggregate_constantPower_zero P
  | succ n ih =>
    unfold aggregate at ih ⊢
    rw [constantPower_succ, List.foldl_append, ih, foldl_single, aggregatePoint_eq]
    have hdt : truncToInt (((n + 1 : Nat) : ℚ) * 1000 - (constantState n P).lastT * 1000) = 1000 := by
      have : ((n + 1 : Nat) : ℚ) * 1000 - (constantState n P).lastT * 1000 = ((1000 : Int) : ℚ) := by
        simp only [constantState]
        push_cast
        ring
      rw [this, truncToInt_intCast]
    have hf : (0 : Int) ≤ ⌊P⌋ := Int.floor_nonneg.mpr hP
    have hc : (0 : Int) ≤ (constantState n P).cur := by
      simp only [constantState]
      positivity
    rw [hdt, aggregateSample_full P _ { constantState n P with lastT := ((n + 1 : Nat) : ℚ) }
      rfl rfl hc hP]
    simp only [constantState, List.range_succ, List.map_append, List.map_cons, List.map_nil]
    have e1 : (n : Int) * ⌊P⌋ + ⌊P⌋ = ((n : Int) + 1) * ⌊P⌋ := by ring
    have e2 : ((n : Int) + 1 : Int) = ((n + 1 : Nat) : Int) := by push_cast; ring
    rw [e1, e2]

theorem constantState_getD (n : Nat) (P : ℚ) (k : Nat) (hk : k ≤ n) :
    (constantState n P).integrated.getD k 0 =
      if k < n then ((k : Int) + 1) * ⌊P⌋ else (n : Int) * ⌊P⌋ := by
  unfold AggState.integrated constantState
  simp only
  split_ifs with h
  · rw [List.getD_append _ _ _ _ (by simpa using h)]
    rw [List.getD_eq_getElem _ _ (by simpa using h)]
    simp
  · have hkn : k = n := by omega
    subst hkn
    rw [List.getD_append_right _ _ _ _ (by simp)]
    simp



theorem tteInner_none_of_rejected (I : List Int) (WPRIME CP : ℚ) (i fuel : Nat) (t : Int)
    (h : ∀ r : Int, 120 < r → r ≤ t → tteTc I WPRIME CP i r < r) :
    tteInner I WPRIME CP i fuel t = none := by
  induction fuel generalizing t with
  | zero => rfl
  | succ n ih =>
    unfold tteInner
    split_ifs with h1 h2
    · exact absurd h2 (not_le.mpr (h t h1 (le_refl _)))
    · apply ih
      intro r hr hle
      have := h t h1 (le_refl _)
      exact h r hr (by omega)
    · rfl

theorem tteOuter_nil_of_rejected (I : List Int) (secs : Nat) (WPRIME CP : ℚ) (fuel i0 : Nat)
    (h : ∀ (i : Nat) (r : Int), i < secs → 120 < r → r ≤ tteFirst secs i →
      tteTc I WPRIME CP i r < r) :
    tteOuter I secs WPRIME CP fuel i0 = [] := by
  induction fuel generalizing i0 with
  | zero => rfl
  | succ n ih =>
    unfold tteOuter
    split_ifs with h1
    · rw [tteInner_none_of_rejected _ _ _ _ _ _ (fun r hr hle => h i0 r h1 hr hle)]
      exact ih _
    · rfl

theorem tteTc_lt_of (I : List Int) (WPRIME CP : ℚ) (i : Nat) (t : Int) (hCP : 0 < CP)
    (ht : 0 < t)
    (h : ((I.getD (i + t.toNat) 0 - I.getD i 0 : Int) : ℚ) - WPRIME < t * CP) :
    tteTc I WPRIME CP i t < t := by
  rw [← not_le]
  unfold tteTc
  rw [le_truncToInt_iff _ ht, not_le]
  unfold tteQuotient
  rw [div_lt_iff₀ hCP]
  exact h

theorem le_tteTc_of (I : List Int) (WPRIME CP : ℚ) (i : Nat) (t : Int) (hCP : 0 < CP)
    (ht : 0 < t)
    (h : (t : ℚ) * CP ≤ ((I.getD (i + t.toNat) 0 - I.getD i 0 : Int) : ℚ) - WPRIME) :
    t ≤ tteTc I WPRIME CP i t := by
  unfold tteTc
  rw [le_truncToInt_iff _ ht]
  unfold tteQuotient
  rw [le_div_iff₀ hCP]
  exact h

theorem constant_window (n : Nat) (P : ℚ) (i : Nat) (t : Int) (hi : i < n) (ht : 0 < t)
    (hle : (i : Int) + t ≤ n) :
    (constantState n P).integrated.getD (i + t.toNat) 0 - (constantState n P).integrated.getD i 0 =
      if (i : Int) + t < n then t * ⌊P⌋ else (t - 1) * ⌊P⌋ := by
  have h1 : i + t.toNat ≤ n := by omega
  rw [constantState_getD n P _ h1, constantState_getD n P i (le_of_lt hi)]
  have ht' : ((t.toNat : Nat) : Int) = t := Int.toNat_of_nonneg (le_of_lt ht)
  simp only [hi, if_true]
  split_ifs with a b b
  · push_cast
    rw [ht']
    ring
  · exfalso; omega
  · exfalso; omega
  · have : (n : Int) = i + t := by omega
    rw [this]
    ring

theorem constant_rejected (n : Nat) (P WPRIME CP : ℚ) (hP : 0 ≤ P) (hCP : 0 < CP)
    (hW : 0 < WPRIME) (hlow : 3600 * ((⌊P⌋ : ℚ) - CP) < WPRIME) (i : Nat) (r : Int)
    (hi : i < n) (hr : 120 < r) (hle : r ≤ tteFirst n i) :
    tteTc (constantState n P).integrated WPRIME CP i r < r := by
  have hf := tteFirst_le n i
  apply tteTc_lt_of _ _ _ _ _ hCP (by omega)
  rw [constant_window n P i r hi (by omega) (by omega)]
  have hfl : (0 : ℚ) ≤ (⌊P⌋ : ℚ) := by exact_mod_cast Int.floor_nonneg.mpr hP
  have hr0 : (0 : ℚ) < (r : ℚ) := by exact_mod_cast (by omega : (0 : Int) < r)
  have hr1 : (r : ℚ) ≤ 3600 := by exact_mod_cast (by omega : r ≤ 3600)
  have key : (r : ℚ) * ((⌊P⌋ : ℚ) - CP) < WPRIME := by
    by_cases hc : (⌊P⌋ : ℚ) - CP ≤ 0
    · have : (r : ℚ) * ((⌊P⌋ : ℚ) - CP) ≤ 0 := mul_nonpos_of_nonneg_of_nonpos hr0.le hc
      linarith
    · have hc' : 0 < (⌊P⌋ : ℚ) - CP := not_le.mp hc
      have : (r : ℚ) * ((⌊P⌋ : ℚ) - CP) ≤ 3600 * ((⌊P⌋ : ℚ) - CP) :=
        mul_le_mul_of_nonneg_right hr1 hc'.le
      linarith
  split_ifs
  · push_cast
    linarith
  · push_cast
    nlinarith

theorem tteWindows_constant_nil (n : Nat) (P WPRIME CP : ℚ) (hP : 0 ≤ P) (hCP : 0 < CP)
    (hW : 0 < WPRIME) (hlow : 3600 * ((⌊P⌋ : ℚ) - CP) < WPRIME) :
    tteWindows (constantPower n P) WPRIME CP = [] := by
  unfold tteWindows
  simp only [aggregate_constantPower n P hP]
  exact tteOuter_nil_of_rejected _ _ _ _ _ _
    (fun i r hi hr hle => constant_rejected n P WPRIME CP hP hCP hW hlow i r hi hr hle)



theorem tteInner_accept_first (I : List Int) (WPRIME CP : ℚ) (i fuel : Nat) (t : Int)
    (h1 : 120 < t) (h2 : t ≤ tteTc I WPRIME CP i t) :
    tteInner I WPRIME CP i (fuel + 1) t = some t := by
  unfold tteInner
  simp [h1, h2]

theorem tteOuter_accept (I : List Int) (secs : Nat) (WPRIME CP : ℚ) (fuel i : Nat) (t : Int)
    (hi : i < secs)
    (h : tteInner I WPRIME CP i (tteFirst secs i).toNat (tteFirst secs i) = some t) :
    tteOuter I secs WPRIME CP (fuel + 1) i =
      (i, t) :: tteOuter I secs WPRIME CP fuel (i + (t.toNat - 1) + 1) := by
  rw [tteOuter]
  simp only [hi, if_true, h]

theorem tteOuter_nil_of_short (I : List Int) (secs : Nat) (WPRIME CP : ℚ) (fuel i0 : Nat)
    (h : secs ≤ i0 + 120) : tteOuter I secs WPRIME CP fuel i0 = [] := by
  induction fuel generalizing i0 with
  | zero => rfl
  | succ n ih =>
    unfold tteOuter
    split_ifs with h1
    · have hf := tteFirst_le secs i0
      rw [tteInner_none_of_rejected _ _ _ _ _ _ (fun r hr hle => by omega)]
      exact ih _ (by omega)
    · rfl

theorem tteWindows_constant_3721 :
    tteWindows (constantPower 3721 500) 22000 250 = [(0, 3600), (3600, 121)] := by
  unfold tteWindows
  simp only [aggregate_constantPower 3721 500 (by norm_num)]
  have hsecs : (constantState 3721 500).secs = 3719 + 1 + 1 := rfl
  have hfl : ⌊(500 : ℚ)⌋ = 500 := by
    have : (500 : ℚ) = ((500 : Int) : ℚ) := by norm_num
    rw [this, Int.floor_intCast]
  have hfirst0 : tteFirst (3719 + 1 + 1) 0 = 3600 := by decide
  have hfirst1 : tteFirst (3719 + 1 + 1) 3600 = 121 := by decide
  have hacc0 : (3600 : Int) ≤ tteTc (constantState 3721 500).integrated 22000 250 0 3600 := by
    apply le_tteTc_of _ _ _ _ _ (by norm_num) (by norm_num)
    rw [constant_window 3721 500 0 3600 (by norm_num) (by norm_num) (by norm_num)]
    rw [if_pos (by norm_num), hfl]
    norm_num
  have hacc1 : (121 : Int) ≤ tteTc (constantState 3721 500).integrated 22000 250 3600 121 := by
    apply le_tteTc_of _ _ _ _ _ (by norm_num) (by norm_num)
    rw [constant_window 3721 500 3600 121 (by norm_num) (by norm_num) (by norm_num)]
    rw [if_neg (by norm_num), hfl]
    norm_num
  have hin0 : tteInner (constantState 3721 500).integrated 22000 250 0
      (tteFirst (3719 + 1 + 1) 0).toNat (tteFirst (3719 + 1 + 1) 0) = some 3600 := by
    rw [hfirst0]
    exact tteInner_accept_first _ _ _ _ 3599 _ (by norm_num) hacc0
  have hin1 : tteInner (constantState 3721 500).integrated 22000 250 3600
      (tteFirst (3719 + 1 + 1) 3600).toNat (tteFirst (3719 + 1 + 1) 3600) = some 121 := by
    rw [hfirst1]
    exact tteInner_accept_first _ _ _ _ 120 _ (by norm_num) hacc1
  rw [hsecs, tteOuter_accept _ _ _ _ _ _ _ (by norm_num) hin0]
  have e : 0 + ((3600 : Int).toNat - 1) + 1 = 3600 := by decide
  rw [e, tteOuter_accept _ _ _ _ _ _ _ (by norm_num) hin1]
  rw [tteOuter_nil_of_short _ _ _ _ _ _ (by decide)]



/-! ## The parts of the interval collection -/

theorem userIntervals_mem (ctx : Context) (f : RideFile) (first last : RideFilePoint)
    (l : List RideFileInterval) (count : Int) (iv : IntervalItem)
    (h : iv ∈ (userIntervals ctx f first last l count).1) :
    iv.type = IntervalType.USER ∧ iv.start < iv.stop := by
  induction l generalizing count with
  | nil => simp [userIntervals] at h
  | cons a rest ih =>
    unfold userIntervals at h
    split_ifs at h with hsk
    · exact ih _ h
    · simp only [List.mem_cons] at h
      rcases h with h | h
      · subst h
        refine ⟨rfl, ?_⟩
        simp only [userSkipped, Bool.or_eq_true, decide_eq_true_eq, not_or] at hsk
        exact not_le.mp hsk.2
      · exact ih _ h

theorem peakIntervals_mem (ctx : Context) (f : RideFile) (l : List Int) (i : Nat) (count : Int)
    (iv : IntervalItem) (h : iv ∈ (peakIntervals ctx f l i count).1) :
    iv.type = IntervalType.PEAKPOWER ∧
      ∃ d best rest, ctx.findBests f d = best :: rest ∧ iv.start = best.start ∧
        iv.stop = best.stop := by
  induction l generalizing i count with
  | nil => simp [peakIntervals] at h
  | cons d rest ih =>
    unfold peakIntervals at h
    cases hb : ctx.findBests f d with
    | nil =>
      rw [hb] at h
      exact ih _ _ h
    | cons best tl =>
      rw [hb] at h
      simp only at h
      split_ifs at h with hc
      · simp only [List.mem_cons] at h
        rcases h with h | h
        · subst h
          exact ⟨rfl, d, best, tl, hb, rfl, rfl⟩
        · exact ih _ _ h
      · exact ih _ _ h

theorem tteItems_mem (ctx : Context) (f : RideFile) (I : List Int) (ws : List (Nat × Int))
    (count : Int) (iv : IntervalItem) (h : iv ∈ tteItems ctx f I ws count) :
    ∃ w ∈ ws, ∃ c, iv = tteInterval ctx f I c w := by
  induction ws generalizing count with
  | nil => simp [tteItems] at h
  | cons a rest ih =>
    unfold tteItems at h
    simp only [List.mem_cons] at h
    rcases h with h | h
    · exact ⟨a, List.mem_cons_self _ _, count, h⟩
    · obtain ⟨w, hw, c, hc⟩ := ih _ h
      exact ⟨w, List.mem_cons_of_mem _ hw, c, hc⟩

theorem tteItems_of_mem (ctx : Context) (f : RideFile) (I : List Int) (ws : List (Nat × Int))
    (count : Int) (w : Nat × Int) (h : w ∈ ws) :
    ∃ c, tteInterval ctx f I c w ∈ tteItems ctx f I ws count := by
  induction ws generalizing count with
  | nil => simp at h
  | cons a rest ih =>
    unfold tteItems
    simp only [List.mem_cons] at h
    rcases h with h | h
    · subst h
      exact ⟨count, List.mem_cons_self _ _⟩
    · obtain ⟨c, hc⟩ := ih (count + 1) h
      exact ⟨c, List.mem_cons_of_mem _ hc⟩

theorem tteIntervals_mem (ctx : Context) (f : RideFile) (WPRIME CP : ℚ) (count : Int)
    (iv : IntervalItem) (h : iv ∈ tteIntervals ctx f WPRIME CP count) :
    iv.type = IntervalType.TTE ∧
      ∃ w ∈ tteWindows f.dataPoints WPRIME CP, iv.start = (w.1 : ℚ) ∧
        iv.stop = (((w.1 : Int) + w.2 : Int) : ℚ) := by
  obtain ⟨w, hw, c, hc⟩ := tteItems_mem _ _ _ _ _ _ h
  subst hc
  exact ⟨rfl, w, hw, rfl, rfl⟩

theorem routeRides_mem (ctx : Context) (f : RideFile) (name : String) (l : List RouteRide)
    (count : Int) (iv : IntervalItem) (h : iv ∈ (routeRides ctx f name l count).1) :
    iv.type = IntervalType.ROUTE ∧ ∃ ride ∈ l, iv.start = ride.start ∧ iv.stop = ride.stop := by
  induction l generalizing count with
  | nil => simp [routeRides] at h
  | cons a rest ih =>
    unfold routeRides at h
    split_ifs at h with hc
    · simp only [List.mem_cons] at h
      rcases h with h | h
      · subst h
        exact ⟨rfl, a, List.mem_cons_self _ _, rfl, rfl⟩
      · obtain ⟨h1, r, hr, h2⟩ := ih _ h
        exact ⟨h1, r, List.mem_cons_of_mem _ hr, h2⟩
    · obtain ⟨h1, r, hr, h2⟩ := ih _ h
      exact ⟨h1, r, List.mem_cons_of_mem _ hr, h2⟩

theorem routeIntervals_mem (ctx : Context) (f : RideFile) (l : List RouteSegment) (count : Int)
    (iv : IntervalItem) (h : iv ∈ (routeIntervals ctx f l count).1) :
    iv.type = IntervalType.ROUTE ∧
      ∃ route ∈ l, ∃ ride ∈ route.rides, iv.start = ride.start ∧ iv.stop = ride.stop := by
  induction l generalizing count with
  | nil => simp [routeIntervals] at h
  | cons a rest ih =>
    unfold routeIntervals at h
    simp only [List.mem_append] at h
    rcases h with h | h
    · obtain ⟨h1, r, hr, h2⟩ := routeRides_mem _ _ _ _ _ _ h
      exact ⟨h1, a, List.mem_cons_self _ _, r, hr, h2⟩
    · obtain ⟨h1, rt, hrt, h2⟩ := ih _ h
      exact ⟨h1, rt, List.mem_cons_of_mem _ hrt, h2⟩

theorem climbStep_types (f : RideFile) (metricsOf : ℚ → ℚ → List ℚ) (lastIdx : Nat)
    (st : ClimbState) (ip : Nat × RideFilePoint)
    (h : ∀ iv ∈ st.climbs, iv.type = IntervalType.CLIMB) :
    ∀ iv ∈ (climbStep f metricsOf lastIdx st ip).climbs, iv.type = IntervalType.CLIMB := by
  unfold climbStep
  simp only
  split_ifs <;> simp only [List.mem_append, List.mem_singleton] <;> intro iv hiv
  all_goals first
    | exact h iv hiv
    | (rcases hiv with hiv | hiv
       · exact h iv hiv
       · subst hiv; rfl)

theorem foldl_climbStep_types (f : RideFile) (metricsOf : ℚ → ℚ → List ℚ) (lastIdx : Nat)
    (l : List (Nat × RideFilePoint)) (st : ClimbState)
    (h : ∀ iv ∈ st.climbs, iv.type = IntervalType.CLIMB) :
    ∀ iv ∈ (l.foldl (climbStep f metricsOf lastIdx) st).climbs, iv.type = IntervalType.CLIMB := by
  induction l generalizing st with
  | nil => exact h
  | cons a rest ih =>
    rw [List.foldl_cons]
    exact ih _ (climbStep_types f metricsOf lastIdx st a h)

theorem climbSearch_types (f : RideFile) (metricsOf : ℚ → ℚ → List ℚ) (count : Int) :
    ∀ iv ∈ (climbSearch f metricsOf count).climbs, iv.type = IntervalType.CLIMB := by
  unfold climbSearch
  apply foldl_climbStep_types
  intro iv hiv
  simp [ClimbState.init] at hiv



theorem filter_type_nil (k k2 : IntervalType) (l : List IntervalItem)
    (h : ∀ iv ∈ l, iv.type = k2) (hne : k2 ≠ k) :
    l.filter (fun iv => decide (iv.type = k)) = [] := by
  induction l with
  | nil => rfl
  | cons a rest ih =>
    have ha := h a (List.mem_cons_self _ _)
    have : ¬ a.type = k := by rw [ha]; exact hne
    rw [List.filter_cons_of_neg (by simpa using this)]
    exact ih (fun iv hiv => h iv (List.mem_cons_of_mem _ hiv))

theorem filter_type_self (k : IntervalType) (l : List IntervalItem)
    (h : ∀ iv ∈ l, iv.type = k) :
    l.filter (fun iv => decide (iv.type = k)) = l := by
  induction l with
  | nil => rfl
  | cons a rest ih =>
    have ha := h a (List.mem_cons_self _ _)
    rw [List.filter_cons_of_pos (by simpa using ha)]
    rw [ih (fun iv hiv => h iv (List.mem_cons_of_mem _ hiv))]

theorem updateIntervals_some (ctx : Context) (item item2 : Item) (f : RideFile)
    (hs : item.samples = true) (h : updateIntervals ctx item f = some item2) :
    ∃ first last, f.dataPoints.head? = some first ∧ f.dataPoints.getLast? = some last ∧
      item2.intervals_ = entireInterval f item first last ::
        ((userPart ctx f first last).1 ++ (peakPart ctx f first last).1 ++
          ttePart ctx item f first last ++ (climbPart ctx item f first last).climbs ++
          (routePart ctx item f first last).1) := by
  unfold updateIntervals at h
  have hs2 : ¬ item.samples = false := by simp [hs]
  simp only [hs2, if_false] at h
  cases hh : f.dataPoints.head? with
  | none => simp [hh] at h
  | some first =>
    cases hl : f.dataPoints.getLast? with
    | none => simp [hh, hl] at h
    | some last =>
      simp only [hh, hl] at h
      rw [if_neg (by simp)] at h
      injection h with h
      exact ⟨first, last, rfl, rfl, by rw [← h]⟩

theorem updateIntervals_isSome (ctx : Context) (item : Item) (f : RideFile)
    (hne : f.dataPoints ≠ []) : ∃ item2, updateIntervals ctx item f = some item2 := by
  unfold updateIntervals
  split_ifs
  · exact ⟨_, rfl⟩
  · cases hd : f.dataPoints with
    | nil => exact absurd hd hne
    | cons a rest =>
      have hl : (a :: rest).getLast? = some ((a :: rest).getLast (by simp)) :=
        List.getLast?_eq_getLast _ _
      simp only [List.head?_cons, hl]
      exact ⟨_, rfl⟩

theorem peakPart_types (ctx : Context) (f : RideFile) (first last : RideFilePoint) :
    ∀ iv ∈ (peakPart ctx f first last).1, iv.type = IntervalType.PEAKPOWER := by
  intro iv hiv
  unfold peakPart at hiv
  split_ifs at hiv
  · exact (peakIntervals_mem _ _ _ _ _ _ hiv).1
  · simp at hiv

theorem ttePart_types (ctx : Context) (item : Item) (f : RideFile) (first last : RideFilePoint) :
    ∀ iv ∈ ttePart ctx item f first last, iv.type = IntervalType.TTE := by
  intro iv hiv
  unfold ttePart at hiv
  split_ifs at hiv
  · exact (tteIntervals_mem _ _ _ _ _ _ hiv).1
  · simp at hiv

theorem userPart_types (ctx : Context) (f : RideFile) (first last : RideFilePoint) :
    ∀ iv ∈ (userPart ctx f first last).1, iv.type = IntervalType.USER :=
  fun _ hiv => (userIntervals_mem _ _ _ _ _ _ _ hiv).1

theorem climbPart_types (ctx : Context) (item : Item) (f : RideFile)
    (first last : RideFilePoint) :
    ∀ iv ∈ (climbPart ctx item f first last).climbs, iv.type = IntervalType.CLIMB :=
  climbSearch_types _ _ _

theorem routePart_types (ctx : Context) (item : Item) (f : RideFile)
    (first last : RideFilePoint) :
    ∀ iv ∈ (routePart ctx item f first last).1, iv.type = IntervalType.ROUTE :=
  fun _ hiv => (routeIntervals_mem _ _ _ _ _ hiv).1

theorem ttesOf_collection (ctx : Context) (item : Item) (f : RideFile)
    (first last : RideFilePoint) :
    ttesOf (entireInterval f item first last ::
        ((userPart ctx f first last).1 ++ (peakPart ctx f first last).1 ++
          ttePart ctx item f first last ++ (climbPart ctx item f first last).climbs ++
          (routePart ctx item f first last).1)) = ttePart ctx item f first last := by
  unfold ttesOf
  rw [List.filter_cons_of_neg (by simp [entireInterval])]
  simp only [List.filter_append]
  rw [filter_type_nil _ IntervalType.USER _ (userPart_types ctx f first last) (by decide),
    filter_type_nil _ IntervalType.PEAKPOWER _ (peakPart_types ctx f first last) (by decide),
    filter_type_self _ _ (ttePart_types ctx item f first last),
    filter_type_nil _ IntervalType.CLIMB _ (climbPart_types ctx item f first last) (by decide),
    filter_type_nil _ IntervalType.ROUTE _ (routePart_types ctx item f first last) (by decide)]
  simp

theorem climbsOf_collection (ctx : Context) (item : Item) (f : RideFile)
    (first last : RideFilePoint) :
    climbsOf (entireInterval f item first last ::
        ((userPart ctx f first last).1 ++ (peakPart ctx f first last).1 ++
          ttePart ctx item f first last ++ (climbPart ctx item f first last).climbs ++
          (routePart ctx item f first last).1)) = (climbPart ctx item f first last).climbs := by
  unfold climbsOf
  rw [List.filter_cons_of_neg (by simp [entireInterval])]
  simp only [List.filter_append]
  rw [filter_type_nil _ IntervalType.USER _ (userPart_types ctx f first last) (by decide),
    filter_type_nil _ IntervalType.PEAKPOWER _ (peakPart_types ctx f first last) (by decide),
    filter_type_nil _ IntervalType.TTE _ (ttePart_types ctx item f first last) (by decide),
    filter_type_self _ _ (climbPart_types ctx item f first last),
    filter_type_nil _ IntervalType.ROUTE _ (routePart_types ctx item f first last) (by decide)]
  simp



theorem collection_of_samples (ctx : Context) (item : Item) (f : RideFile)
    (hs : item.samples = true) (hne : f.dataPoints ≠ []) :
    ∃ first last, f.dataPoints.head? = some first ∧ f.dataPoints.getLast? = some last ∧
      collection ctx item f = entireInterval f item first last ::
        ((userPart ctx f first last).1 ++ (peakPart ctx f first last).1 ++
          ttePart ctx item f first last ++ (climbPart ctx item f first last).climbs ++
          (routePart ctx item f first last).1) := by
  obtain ⟨item2, h2⟩ := updateIntervals_isSome ctx item f hne
  obtain ⟨first, last, a, b, c⟩ := updateIntervals_some ctx item item2 f hs h2
  refine ⟨first, last, a, b, ?_⟩
  unfold collection
  rw [h2]
  exact c

theorem collection_cases (ctx : Context) (item : Item) (f : RideFile) :
    collection ctx item f = [] ∨
    ∃ first last, f.dataPoints.head? = some first ∧ f.dataPoints.getLast? = some last ∧
      collection ctx item f = entireInterval f item first last ::
        ((userPart ctx f first last).1 ++ (peakPart ctx f first last).1 ++
          ttePart ctx item f first last ++ (climbPart ctx item f first last).climbs ++
          (routePart ctx item f first last).1) := by
  by_cases hs : item.samples = true
  · by_cases hne : f.dataPoints = []
    · left
      unfold collection updateIntervals
      simp [hs, hne]
    · exact Or.inr (collection_of_samples ctx item f hs hne)
  · left
    have : item.samples = false := by simpa using hs
    unfold collection updateIntervals
    simp [this]

theorem ttesOf_collection_cases (ctx : Context) (item : Item) (f : RideFile) :
    ttesOf (collection ctx item f) = [] ∨
    ∃ count, ttesOf (collection ctx item f) =
      tteIntervals ctx f (capacityModel ctx item).2 (capacityModel ctx item).1 count := by
  rcases collection_cases ctx item f with h | ⟨first, last, _, _, h⟩
  · left
    rw [h]
    rfl
  · rw [h, ttesOf_collection]
    unfold ttePart
    split_ifs
    · exact Or.inr ⟨_, rfl⟩
    · exact Or.inl rfl

theorem pairwise_cases {α : Type} (R : α → α → Prop) (l : List α) (h : l.Pairwise R) (a b : α)
    (ha : a ∈ l) (hb : b ∈ l) : a = b ∨ R a b ∨ R b a := by
  induction l with
  | nil => simp at ha
  | cons x rest ih =>
    rw [List.pairwise_cons] at h
    simp only [List.mem_cons] at ha hb
    rcases ha with ha | ha <;> rcases hb with hb | hb
    · exact Or.inl (ha.trans hb.symm)
    · subst ha
      exact Or.inr (Or.inl (h.1 b hb))
    · subst hb
      exact Or.inr (Or.inr (h.1 a ha))
    · exact ih h.2 ha hb


/-! ## The acceptance test and the conversion of the quotient -/

/-- With `int` taken as an unbounded integer and `CP > 0`, a window (start
second `i`, duration `t`) examined by the maximal-effort search is emitted as a
TTE interval exactly when the exact quotient `(I[i+t] - I[i] - WPRIME) / CP` is
at least `t`; and every emitted TTE interval has a duration `t` with
`120 < t ≤ 3600`. -/
theorem tte_accepted_iff_unbounded (ctx : Context) (f : RideFile) (WPRIME CP : ℚ)
    (count : Int) (_hCP : 0 < CP) :
    (∀ w ∈ tteExamined f.dataPoints WPRIME CP,
      ((∃ iv ∈ tteIntervals ctx f WPRIME CP count, iv.type = IntervalType.TTE ∧
          iv.start = (w.1 : ℚ) ∧ iv.stop = (((w.1 : Int) + w.2 : Int) : ℚ)) ↔
        (w.2 : ℚ) ≤ tteQuotient (aggregate f.dataPoints).integrated WPRIME CP w.1 w.2)) ∧
    (∀ iv ∈ tteIntervals ctx f WPRIME CP count,
      120 < iv.stop - iv.start ∧ iv.stop - iv.start ≤ 3600) := by
  constructor
  · intro w hw
    have hex := tteOuterExamined_mem _ _ _ _ _ _ _ hw
    have hpos : (0 : Int) < w.2 := by omega
    constructor
    · rintro ⟨iv, hiv, _, hstart, hstop⟩
      obtain ⟨_, w2, hw2, hs2, he2⟩ := tteIntervals_mem _ _ _ _ _ _ hiv
      have e1 : w2.1 = w.1 := by
        have : (w2.1 : ℚ) = (w.1 : ℚ) := by rw [← hs2, hstart]
        exact_mod_cast this
      have e2 : w2.2 = w.2 := by
        have : (((w2.1 : Int) + w2.2 : Int) : ℚ) = (((w.1 : Int) + w.2 : Int) : ℚ) := by
          rw [← he2, hstop]
        have h3 : (w2.1 : Int) + w2.2 = (w.1 : Int) + w.2 := by exact_mod_cast this
        rw [e1] at h3
        omega
      have hww : w2 = w := Prod.ext e1 e2
      subst hww
      have hacc := (tteOuter_mem _ _ _ _ _ _ _ hw2).2.2.2.2.1
      exact (le_truncToInt_iff _ hpos _).mp hacc
    · intro hq
      have hacc : w.2 ≤ tteTc (aggregate f.dataPoints).integrated WPRIME CP w.1 w.2 :=
        (le_truncToInt_iff _ hpos _).mpr hq
      have hmem := tteOuter_of_examined _ _ _ _ _ _ _ hw hacc
      obtain ⟨c, hc⟩ := tteItems_of_mem ctx f (aggregate f.dataPoints).integrated _ count w hmem
      exact ⟨_, hc, rfl, rfl, rfl⟩
  · intro iv hiv
    obtain ⟨_, w, hw, hs, he⟩ := tteIntervals_mem _ _ _ _ _ _ hiv
    obtain ⟨_, h120, h3600, _⟩ := tteOuter_mem _ _ _ _ _ _ _ hw
    rw [hs, he]
    push_cast
    have a : (120 : ℚ) < (w.2 : ℚ) := by exact_mod_cast h120
    have b : (w.2 : ℚ) ≤ 3600 := by exact_mod_cast h3600
    constructor <;> linarith

/-- An instance: 130 seconds at 500 W with `CP = 250`, `WPRIME = 22000`; the
window (0, 130) is examined, its quotient is 170, and it is emitted. -/
theorem tte_accepted_unbounded_instance :
    (0 : ℚ) < 250 ∧
    ((0, 130) : Nat × Int) ∈ tteExamined (powerRide (constantPower 130 500)).dataPoints 22000 250 ∧
    (∃ iv ∈ tteIntervals sampleContext (powerRide (constantPower 130 500)) 22000 250 1,
      iv.type = IntervalType.TTE ∧ iv.start = ((((0, 130) : Nat × Int).1 : Nat) : ℚ) ∧
        iv.stop = ((((((0, 130) : Nat × Int).1 : Nat) : Int) + ((0, 130) : Nat × Int).2 : Int) : ℚ)) :=
  ⟨by norm_num, by decide!,
    (((tte_accepted_iff_unbounded sampleContext (powerRide (constantPower 130 500))
      22000 250 1 (by norm_num)).1 (0, 130) (by decide!)).mpr (by decide!))⟩


theorem toInt32_eq_truncToInt (q : ℚ) (hlo : -2147483648 ≤ truncToInt q)
    (hhi : truncToInt q ≤ 2147483647) : toInt32 q = truncToInt q := by
  unfold toInt32
  rw [if_pos ⟨hlo, hhi⟩]

theorem toInt32_out_of_range (q : ℚ) (h : 2147483647 < truncToInt q) :
    toInt32 q = -2147483648 := by
  unfold toInt32
  rw [if_neg (fun hc => absurd hc.2 (not_le.mpr h))]

/-- Within the range of `int` the acceptance test on the 32-bit `tc` agrees
with the test on the exact quotient: for `t > 0` and a quotient below `2^31`,
`tc ≥ t` holds exactly when the quotient is at least `t`. -/
theorem le_tteTc32_iff (I : List Int) (WPRIME CP : ℚ) (i : Nat) (t : Int) (ht : 0 < t)
    (hq : tteQuotient I WPRIME CP i t < 2147483648) :
    t ≤ tteTc32 I WPRIME CP i t ↔ (t : ℚ) ≤ tteQuotient I WPRIME CP i t := by
  have hhi : truncToInt (tteQuotient I WPRIME CP i t) ≤ 2147483647 := by
    have h1 : ¬ (2147483648 : Int) ≤ truncToInt (tteQuotient I WPRIME CP i t) := by
      rw [le_truncToInt_iff _ (by norm_num)]
      push_cast
      exact not_le.mpr hq
    omega
  unfold tteTc32 toInt32
  split_ifs with h
  · exact le_truncToInt_iff t ht _
  · have hlo : truncToInt (tteQuotient I WPRIME CP i t) < -2147483648 := by
      by_contra hc
      exact h ⟨not_lt.mp hc, hhi⟩
    constructor
    · intro h1
      omega
    · intro h1
      have := (le_truncToInt_iff t ht _).mpr h1
      omega

/-- C1, evaluated on the code: on 130 seconds at 20 MW searched with `CP = 1`
and `WPRIME = 22000`, the window (0, 130) is examined and its exact quotient
is 2579978000, at least 130; the conversion of the quotient to the 32-bit
`int` yields -2147483648, the window is rejected and no window is accepted. -/
theorem tte_window_rejected_beyond_int_range :
    ((0, 130) : Nat × Int) ∈ tteExamined32 (constantPower 130 20000000) 22000 1 ∧
    tteQuotient (aggregate (constantPower 130 20000000)).integrated 22000 1 0 130 = 2579978000 ∧
    ((130 : Int) : ℚ) ≤
      tteQuotient (aggregate (constantPower 130 20000000)).integrated 22000 1 0 130 ∧
    tteTc32 (aggregate (constantPower 130 20000000)).integrated 22000 1 0 130 = -2147483648 ∧
    tteWindows32 (constantPower 130 20000000) 22000 1 = [] := by
  decide!


theorem powerRide_dataPoints (points : List RideFilePoint) :
    (powerRide points).dataPoints = points := rfl

/-- C3: for `CP > 0`, `WPRIME > 0` and `0 < ε ≤ CP`, the search over a series
of any length sampled once per second at the constant power `CP - ε` emits no
TTE interval. -/
theorem tte_none_below_cp (ctx : Context) (f : RideFile) (count : Int) (n : Nat)
    (WPRIME CP ε : ℚ) (hCP : 0 < CP) (hW : 0 < WPRIME) (hε : 0 < ε) (hεCP : ε ≤ CP)
    (hf : f.dataPoints = constantPower n (CP - ε)) :
    tteIntervals ctx f WPRIME CP count = [] := by
  have hP : 0 ≤ CP - ε := by linarith
  have hfl : (⌊CP - ε⌋ : ℚ) ≤ CP - ε := Int.floor_le _
  unfold tteIntervals
  rw [hf, tteWindows_constant_nil _ _ _ _ hP hCP hW (by linarith)]
  rfl

/-- Witness for C3: `CP = 250`, `WPRIME = 22000`, `ε = 1`, 3700 seconds. -/
theorem tte_none_below_cp_witness :
    (0 : ℚ) < 250 ∧ (0 : ℚ) < 22000 ∧ (0 : ℚ) < 1 ∧ (1 : ℚ) ≤ 250 ∧
    tteIntervals sampleContext (powerRide (constantPower 3700 (250 - 1))) 22000 250 1 = [] :=
  ⟨by norm_num, by norm_num, by norm_num, by norm_num,
    tte_none_below_cp sampleContext (powerRide (constantPower 3700 (250 - 1))) 1 3700 22000 250 1
      (by norm_num) (by norm_num) (by norm_num) (by norm_num) (powerRide_dataPoints _)⟩



theorem tteIntervals_3721 (count : Int) :
    tteIntervals sampleContext (powerRide (constantPower 3721 500)) 22000 250 count =
      [tteInterval sampleContext (powerRide (constantPower 3721 500))
          (aggregate (constantPower 3721 500)).integrated count (0, 3600),
        tteInterval sampleContext (powerRide (constantPower 3721 500))
          (aggregate (constantPower 3721 500)).integrated (count + 1) (3600, 121)] := by
  unfold tteIntervals
  rw [powerRide_dataPoints, tteWindows_constant_3721]
  rfl

theorem constantPower_ne_nil (n : Nat) (P : ℚ) : constantPower n P ≠ [] := by
  unfold constantPower
  simp [List.range_succ]

theorem capacityModel_sample (item : Item) : capacityModel sampleContext item = (250, 22000) := by
  simp [capacityModel, sampleContext, sampleZones]

theorem ttesOf_collection_powerRide (points : List RideFilePoint) (hne : points ≠ []) :
    ttesOf (collection sampleContext sampledItem (powerRide points)) =
      tteIntervals sampleContext (powerRide points) 22000 250 1 := by
  obtain ⟨first, last, _, _, h⟩ :=
    collection_of_samples sampleContext sampledItem (powerRide points) rfl hne
  rw [h, ttesOf_collection]
  unfold ttePart
  rw [capacityModel_sample]
  have hp : powerSearches (powerRide points) = true := rfl
  have hc : (peakPart sampleContext (powerRide points) first last).2 = 1 := by
    unfold peakPart
    rw [if_pos hp]
    simp [peakIntervals, durations, sampleContext, userPart, powerRide, userIntervals]
  rw [if_pos hp, hc]

/-- Counterexample to C4 as stated: 3721 seconds at 500 W with `CP = 250`,
`WPRIME = 22000` give the TTE intervals [0, 3600] and [3600, 3721]; the first
starts before the second and its stop is not before the start of the second:
both contain the time 3600. -/
theorem tte_intervals_touch_counterexample :
    ∃ iv1 ∈ ttesOf (collection sampleContext sampledItem (powerRide (constantPower 3721 500))),
    ∃ iv2 ∈ ttesOf (collection sampleContext sampledItem (powerRide (constantPower 3721 500))),
      iv1.start = 0 ∧ iv1.stop = 3600 ∧ iv2.start = 3600 ∧ iv2.stop = 3721 ∧
      iv1.start < iv2.start ∧ ¬ iv1.stop < iv2.start := by
  rw [ttesOf_collection_powerRide _ (constantPower_ne_nil _ _), tteIntervals_3721]
  refine ⟨_, List.mem_cons_self _ _, _, List.mem_cons_of_mem _ (List.mem_cons_self _ _), ?_⟩
  simp only [tteInterval]
  norm_num

/-- C4, amended: for two TTE intervals of the collection produced by one run
of `updateIntervals`, with bounds [s1, e1] and [s2, e2] and `s1 < s2`, the
first stops no later than the second starts: `e1 ≤ s2`. -/
theorem tte_intervals_do_not_overlap (ctx : Context) (item : Item) (f : RideFile)
    (iv1 iv2 : IntervalItem) (h1 : iv1 ∈ ttesOf (collection ctx item f))
    (h2 : iv2 ∈ ttesOf (collection ctx item f)) (hlt : iv1.start < iv2.start) :
    iv1.stop ≤ iv2.start := by
  rcases ttesOf_collection_cases ctx item f with h | ⟨count, h⟩
  · rw [h] at h1
    simp at h1
  · rw [h] at h1 h2
    obtain ⟨_, w1, hw1, hs1, he1⟩ := tteIntervals_mem _ _ _ _ _ _ h1
    obtain ⟨_, w2, hw2, hs2, _⟩ := tteIntervals_mem _ _ _ _ _ _ h2
    have hpw := tteOuter_pairwise (aggregate f.dataPoints).integrated (aggregate f.dataPoints).secs
      (capacityModel ctx item).2 (capacityModel ctx item).1 (aggregate f.dataPoints).secs 0
    have hb2 := (tteOuter_mem _ _ _ _ _ _ _ hw2).2.1
    have hlt2 : w1.1 < w2.1 := by
      rw [hs1, hs2] at hlt
      exact_mod_cast hlt
    rw [he1, hs2]
    rcases pairwise_cases _ _ hpw w1 w2 hw1 hw2 with e | r | r
    · rw [e] at hlt2
      exact absurd hlt2 (lt_irrefl _)
    · exact_mod_cast r
    · exfalso
      omega

/-- Witness for C4, amended: the two TTE intervals of 3721 seconds at 500 W. -/
theorem tte_intervals_do_not_overlap_witness :
    tteInterval sampleContext (powerRide (constantPower 3721 500))
        (aggregate (constantPower 3721 500)).integrated 1 (0, 3600) ∈
      ttesOf (collection sampleContext sampledItem (powerRide (constantPower 3721 500))) ∧
    tteInterval sampleContext (powerRide (constantPower 3721 500))
        (aggregate (constantPower 3721 500)).integrated (1 + 1) (3600, 121) ∈
      ttesOf (collection sampleContext sampledItem (powerRide (constantPower 3721 500))) ∧
    (tteInterval sampleContext (powerRide (constantPower 3721 500))
        (aggregate (constantPower 3721 500)).integrated 1 (0, 3600)).stop ≤
      (tteInterval sampleContext (powerRide (constantPower 3721 500))
        (aggregate (constantPower 3721 500)).integrated (1 + 1) (3600, 121)).start :=
  have m1 : tteInterval sampleContext (powerRide (constantPower 3721 500))
        (aggregate (constantPower 3721 500)).integrated 1 (0, 3600) ∈
      ttesOf (collection sampleContext sampledItem (powerRide (constantPower 3721 500))) := by
    rw [ttesOf_collection_powerRide _ (constantPower_ne_nil _ _), tteIntervals_3721]
    exact List.mem_cons_self _ _
  have m2 : tteInterval sampleContext (powerRide (constantPower 3721 500))
        (aggregate (constantPower 3721 500)).integrated (1 + 1) (3600, 121) ∈
      ttesOf (collection sampleContext sampledItem (powerRide (constantPower 3721 500))) := by
    rw [ttesOf_collection_powerRide _ (constantPower_ne_nil _ _), tteIntervals_3721]
    exact List.mem_cons_of_mem _ (List.mem_cons_self _ _)
  ⟨m1, m2, tte_intervals_do_not_overlap sampleContext sampledItem
    (powerRide (constantPower 3721 500)) _ _ m1 m2 (by simp only [tteInterval]; norm_num)⟩



/-- Counterexample to C5 as stated: a series of one sample gives an ALL
interval from 0 to 0, and the series `ascentThenDrop` gives a CLIMB interval
from 10 to 0. -/
theorem interval_bounds_counterexample :
    collection sampleContext sampledItem (altitudeRide singleSample) =
      [{ name := IntervalName.entireActivity, start := 0, stop := 0, startKM := 0, stopKM := 0,
         displaySequence := 0, color := IntervalColor.darkBlue, type := IntervalType.ALL,
         metrics := [] }] ∧
    collection sampleContext sampledItem (altitudeRide ascentThenDrop) =
      [{ name := IntervalName.entireActivity, start := 10, stop := 120, startKM := 0, stopKM := 0,
         displaySequence := 0, color := IntervalColor.darkBlue, type := IntervalType.ALL,
         metrics := [] },
       { name := IntervalName.climb 1, start := 10, stop := 0, startKM := 0, stopKM := 0,
         displaySequence := 1, color := IntervalColor.green, type := IntervalType.CLIMB,
         metrics := [] }] ∧
    ¬ ((0 : ℚ) < 0) ∧ ¬ ((10 : ℚ) < 0) := by
  decide!

/-- C5, amended: in the collection produced by `updateIntervals`, every USER
interval and every TTE interval has `start < stop` strictly; the ALL interval
runs from the time of the first sample to the time of the last sample; a
PEAKPOWER interval has the bounds of a first result of `findBests`, and a
ROUTE interval the bounds stored for an occurrence of a route. -/
theorem interval_bounds (ctx : Context) (item : Item) (f : RideFile) (iv : IntervalItem)
    (h : iv ∈ collection ctx item f) :
    ((iv.type = IntervalType.USER ∨ iv.type = IntervalType.TTE) → iv.start < iv.stop) ∧
    (iv.type = IntervalType.ALL →
      ∃ first last, f.dataPoints.head? = some first ∧ f.dataPoints.getLast? = some last ∧
        iv.start = first.secs ∧ iv.stop = last.secs) ∧
    (iv.type = IntervalType.PEAKPOWER →
      ∃ d best rest, ctx.findBests f d = best :: rest ∧ iv.start = best.start ∧
        iv.stop = best.stop) ∧
    (iv.type = IntervalType.ROUTE →
      ∃ route ∈ ctx.routes, ∃ ride ∈ route.rides, iv.start = ride.start ∧
        iv.stop = ride.stop) := by
  rcases collection_cases ctx item f with h0 | ⟨first, last, hf, hl, h0⟩
  · rw [h0] at h
    simp at h
  rw [h0] at h
  simp only [List.mem_cons, List.mem_append] at h
  rcases h with h | (((h | h) | h) | h) | h
  · subst h
    refine ⟨?_, ?_, ?_, ?_⟩
    · intro ht
      simp [entireInterval] at ht
    · intro _
      exact ⟨first, last, hf, hl, rfl, rfl⟩
    · intro ht
      simp [entireInterval] at ht
    · intro ht
      simp [entireInterval] at ht
  · obtain ⟨ht, hlt⟩ := userIntervals_mem _ _ _ _ _ _ _ h
    refine ⟨fun _ => hlt, ?_, ?_, ?_⟩
    all_goals (intro ht2; rw [ht] at ht2; cases ht2)
  · have ht := peakPart_types _ _ _ _ _ h
    unfold peakPart at h
    split_ifs at h
    · have hb := (peakIntervals_mem _ _ _ _ _ _ h).2
      refine ⟨?_, ?_, fun _ => hb, ?_⟩
      · intro ht2
        rw [ht] at ht2
        rcases ht2 with ht2 | ht2 <;> cases ht2
      · intro ht2
        rw [ht] at ht2
        cases ht2
      · intro ht2
        rw [ht] at ht2
        cases ht2
    · simp at h
  · have ht := ttePart_types _ _ _ _ _ _ h
    unfold ttePart at h
    split_ifs at h
    · obtain ⟨_, w, hw, hs, he⟩ := tteIntervals_mem _ _ _ _ _ _ h
      have hb := (tteOuter_mem _ _ _ _ _ _ _ hw).2.1
      refine ⟨?_, ?_, ?_, ?_⟩
      · intro _
        rw [hs, he]
        push_cast
        have : (0 : ℚ) < (w.2 : ℚ) := by exact_mod_cast (by omega : (0 : Int) < w.2)
        linarith
      all_goals (intro ht2; rw [ht] at ht2; cases ht2)
    · simp at h
  · have ht := climbPart_types _ _ _ _ _ _ h
    refine ⟨?_, ?_, ?_, ?_⟩
    · intro ht2
      rw [ht] at ht2
      rcases ht2 with ht2 | ht2 <;> cases ht2
    all_goals (intro ht2; rw [ht] at ht2; cases ht2)
  · obtain ⟨ht, hr⟩ := routeIntervals_mem _ _ _ _ _ h
    refine ⟨?_, ?_, ?_, fun _ => hr⟩
    · intro ht2
      rw [ht] at ht2
      rcases ht2 with ht2 | ht2 <;> cases ht2
    all_goals (intro ht2; rw [ht] at ht2; cases ht2)

/-- Witness for C5, amended: the file interval from 10 to 20 of `lapRide` is
admitted as a USER interval. -/
theorem interval_bounds_witness :
    ({ name := IntervalName.fileName "lap", start := 10, stop := 20, startKM := 0, stopKM := 0,
       displaySequence := 2, color := IntervalColor.standardColor 1, type := IntervalType.USER,
       metrics := [] } : IntervalItem) ∈ collection sampleContext sampledItem lapRide ∧
    (10 : ℚ) < 20 :=
  ⟨by decide!,
    (interval_bounds sampleContext sampledItem lapRide
      { name := IntervalName.fileName "lap", start := 10, stop := 20, startKM := 0, stopKM := 0,
        displaySequence := 2, color := IntervalColor.standardColor 1, type := IntervalType.USER,
        metrics := [] } (by decide!)).1 (Or.inl rfl)⟩



/-! ## Climbs -/

theorem climbAccepted_false_of_short (d gain : ℚ) (h : d < 1 / 2) :
    climbAccepted d gain = false := by
  unfold climbAccepted
  have h1 : decide (d ≥ 1 / 2) = false := decide_eq_false (not_le.mpr h)
  have h2 : decide (d ≥ 2) = false := decide_eq_false (by intro a; linarith)
  have h3 : decide (d ≥ 4) = false := decide_eq_false (by intro a; linarith)
  rw [h1, h2, h3]
  rfl

theorem climbAccepted_iff (d gain : ℚ) :
    climbAccepted d gain = true ↔
      (d ≥ 1 / 2 ∧ gain / d ≥ 60) ∨ (d ≥ 2 ∧ gain / d ≥ 40) ∨ (d ≥ 4 ∧ gain / d ≥ 20) := by
  unfold climbAccepted
  simp only [Bool.or_eq_true, Bool.and_eq_true, decide_eq_true_eq, or_assoc]

theorem climbStep_emits (f : RideFile) (metricsOf : ℚ → ℚ → List ℚ) (lastIdx : Nat)
    (st : ClimbState) (ip : Nat × RideFilePoint)
    (h : (climbStep f metricsOf lastIdx st ip).climbs ≠ st.climbs) :
    climbAccepted ((closingSample st ip).2.km - segmentStartKm st (closingSample st ip))
      (st.maxAlt - segmentMinAlt st (closingSample st ip)) = true := by
  unfold climbStep at h
  simp only at h
  split_ifs at h with h1 h2 h3 h4
  · exact absurd rfl h
  · exact h3
  · exact absurd rfl h
  · exact absurd rfl h
  · exact absurd rfl h


theorem milestoneStep_mem (points : List RideFilePoint) (st : ClimbState)
    (ip : Nat × RideFilePoint) (hm : ∀ m ∈ st.milestones, m.2 ∈ points) (hip : ip.2 ∈ points) :
    (∀ m ∈ (milestoneStep st ip).1, m.2 ∈ points) ∧ (closingSample st ip).2 ∈ points := by
  have happ : ∀ m ∈ st.milestones ++ [ip], m.2 ∈ points := by
    intro m hmm
    simp only [List.mem_append, List.mem_singleton] at hmm
    rcases hmm with hmm | hmm
    · exact hm m hmm
    · rw [hmm]; exact hip
  have htail : ∀ m ∈ (st.milestones ++ [ip]).tail, m.2 ∈ points :=
    fun m hmm => happ m (List.mem_of_mem_tail hmm)
  have hhead : ((st.milestones ++ [ip]).tail.headD ip).2 ∈ points := by
    cases hl : (st.milestones ++ [ip]).tail with
    | nil => exact hip
    | cons a rest =>
      apply htail
      rw [hl]
      exact List.mem_cons_self _ _
  unfold closingSample milestoneStep
  simp only
  split_ifs
  · exact ⟨htail, hhead⟩
  · exact ⟨htail, hip⟩
  · exact ⟨happ, hip⟩
  · exact ⟨hm, hip⟩

theorem climbStep_shortSpan (f : RideFile) (metricsOf : ℚ → ℚ → List ℚ) (lastIdx : Nat)
    (points : List RideFilePoint) (st : ClimbState) (ip : Nat × RideFilePoint)
    (hspan : ∀ p ∈ points, ∀ q ∈ points, p.km - q.km < 1 / 2)
    (hinv : ShortSpanInv points st) (hip : ip.2 ∈ points) :
    ShortSpanInv points (climbStep f metricsOf lastIdx st ip) := by
  obtain ⟨hc, hk, hm⟩ := hinv
  obtain ⟨hms, hp⟩ := milestoneStep_mem points st ip hm hip
  have hk2 : segmentMinAlt st (closingSample st ip) = -1000 ∨
      ∃ q ∈ points, segmentStartKm st (closingSample st ip) = q.km := by
    unfold segmentMinAlt segmentStartKm
    by_cases hl : lowersMin st (closingSample st ip) = true
    · simp only [hl, if_true]
      exact Or.inr ⟨_, hp, rfl⟩
    · simp only [hl, if_false]
      exact hk
  have hd : (closingSample st ip).2.km - segmentStartKm st (closingSample st ip) < 1 / 2 := by
    unfold segmentStartKm
    by_cases hl : lowersMin st (closingSample st ip) = true
    · simp only [hl, if_true, sub_self]
      norm_num
    · simp only [hl, if_false]
      have hne : ¬ st.minAlt = -1000 := by
        intro h
        apply hl
        unfold lowersMin
        simp [h]
      rcases hk with hk | ⟨q, hq, hqk⟩
      · exact absurd hk hne
      · rw [hqk]
        exact hspan _ hp q hq
  have hrej := climbAccepted_false_of_short _
    (st.maxAlt - segmentMinAlt st (closingSample st ip)) hd
  unfold climbStep
  simp only
  split_ifs with h1 h2 h3 h4
  · exact ⟨hc, hk2, hms⟩
  · rw [hrej] at h3
    cases h3
  · refine ⟨hc, Or.inl rfl, ?_⟩
    intro m hmm
    simp only [List.mem_singleton] at hmm
    rw [hmm]
    exact hp
  · exact ⟨hc, hk2, hms⟩
  · exact ⟨hc, hk2, hms⟩

theorem foldl_climbStep_shortSpan (f : RideFile) (metricsOf : ℚ → ℚ → List ℚ) (lastIdx : Nat)
    (points : List RideFilePoint) (hspan : ∀ p ∈ points, ∀ q ∈ points, p.km - q.km < 1 / 2)
    (l : List (Nat × RideFilePoint)) (hl : ∀ ip ∈ l, ip.2 ∈ points) (st : ClimbState)
    (hinv : ShortSpanInv points st) :
    ShortSpanInv points (l.foldl (climbStep f metricsOf lastIdx) st) := by
  induction l generalizing st with
  | nil => exact hinv
  | cons a rest ih =>
    rw [List.foldl_cons]
    apply ih (fun ip hip => hl ip (List.mem_cons_of_mem _ hip))
    exact climbStep_shortSpan f metricsOf lastIdx points st a hspan hinv
      (hl a (List.mem_cons_self _ _))

theorem indexed_mem (points : List RideFilePoint) (ip : Nat × RideFilePoint)
    (h : ip ∈ indexed points) : ip.2 ∈ points := by
  unfold indexed at h
  exact (List.of_mem_zip h).2

theorem climbSearch_shortSpan (f : RideFile) (metricsOf : ℚ → ℚ → List ℚ) (count : Int)
    (hspan : ∀ p ∈ f.dataPoints, ∀ q ∈ f.dataPoints, p.km - q.km < 1 / 2) :
    (climbSearch f metricsOf count).climbs = [] := by
  unfold climbSearch
  exact (foldl_climbStep_shortSpan f metricsOf _ f.dataPoints hspan _
    (fun ip hip => indexed_mem _ ip hip) _ ⟨rfl, Or.inl rfl, by simp [ClimbState.init]⟩).1

theorem climbsOf_collection_cases (ctx : Context) (item : Item) (f : RideFile) :
    climbsOf (collection ctx item f) = [] ∨
    ∃ count, climbsOf (collection ctx item f) =
      (climbSearch f (ctx.intervalMetrics f) count).climbs := by
  rcases collection_cases ctx item f with h | ⟨first, last, _, _, h⟩
  · left
    rw [h]
    rfl
  · rw [h, climbsOf_collection]
    exact Or.inr ⟨_, rfl⟩

/-- C6, evaluated on the code: for the monotonic ascent `steadyAscent` (2.5 km,
150 m of gain, strictly increasing altitude at evenly spaced distances) the
collection holds the ALL interval only: no CLIMB interval is emitted. -/
theorem steady_ascent_yields_no_climb :
    collection sampleContext sampledItem (altitudeRide steadyAscent) =
      [{ name := IntervalName.entireActivity, start := 0, stop := 300, startKM := 0, stopKM := 0,
         displaySequence := 0, color := IntervalColor.darkBlue, type := IntervalType.ALL,
         metrics := [] }] ∧
    climbsOf (collection sampleContext sampledItem (altitudeRide steadyAscent)) = [] := by
  decide!

/-- C7: the loop body emits a CLIMB interval only when, for the closing
sample `p`, `d = p.km - startKm` and `g = (maxAlt - minAlt) / d` satisfy
`(d ≥ 0.5 and g ≥ 60) or (d ≥ 2.0 and g ≥ 40) or (d ≥ 4.0 and g ≥ 20)`;
consequently a series whose samples all lie within a distance span shorter
than 0.5 km yields no CLIMB interval. -/
theorem climb_requires_threshold (ctx : Context) (item : Item) (f : RideFile) :
    (∀ (metricsOf : ℚ → ℚ → List ℚ) (lastIdx : Nat) (st : ClimbState) (ip : Nat × RideFilePoint),
      (climbStep f metricsOf lastIdx st ip).climbs ≠ st.climbs →
      ((closingSample st ip).2.km - segmentStartKm st (closingSample st ip) ≥ 1 / 2 ∧
        (st.maxAlt - segmentMinAlt st (closingSample st ip)) /
          ((closingSample st ip).2.km - segmentStartKm st (closingSample st ip)) ≥ 60) ∨
      ((closingSample st ip).2.km - segmentStartKm st (closingSample st ip) ≥ 2 ∧
        (st.maxAlt - segmentMinAlt st (closingSample st ip)) /
          ((closingSample st ip).2.km - segmentStartKm st (closingSample st ip)) ≥ 40) ∨
      ((closingSample st ip).2.km - segmentStartKm st (closingSample st ip) ≥ 4 ∧
        (st.maxAlt - segmentMinAlt st (closingSample st ip)) /
          ((closingSample st ip).2.km - segmentStartKm st (closingSample st ip)) ≥ 20)) ∧
    ((∀ p ∈ f.dataPoints, ∀ q ∈ f.dataPoints, p.km - q.km < 1 / 2) →
      climbsOf (collection ctx item f) = []) := by
  constructor
  · intro metricsOf lastIdx st ip h
    exact (climbAccepted_iff _ _).mp (climbStep_emits f metricsOf lastIdx st ip h)
  · intro hspan
    rcases climbsOf_collection_cases ctx item f with h | ⟨count, h⟩
    · exact h
    · rw [h]
      exact climbSearch_shortSpan f _ count hspan

/-- Witness for C7: the samples of `shortAscent` lie within 0.3 km, and the
segment that closes at its last sample is not emitted. -/
theorem climb_requires_threshold_witness :
    (∀ p ∈ (altitudeRide shortAscent).dataPoints, ∀ q ∈ (altitudeRide shortAscent).dataPoints,
      p.km - q.km < 1 / 2) ∧
    climbsOf (collection sampleContext sampledItem (altitudeRide shortAscent)) = [] :=
  ⟨by decide!,
    (climb_requires_threshold sampleContext sampledItem (altitudeRide shortAscent)).2 (by decide!)⟩


/-! ## The staleness check -/

theorem getWeight_snd (ctx : Context) (item : Item) :
    (getWeight ctx item).2 = { item with weight := (getWeight ctx item).1 } := rfl

theorem or_chain_regroup (a b c d e f g h : Prop) :
    (a ∨ b ∨ c ∨ d ∨ e ∨ f ∨ g ∨ h) ↔ (a ∨ (b ∨ c ∨ d ∨ e ∨ f) ∨ g ∨ h) := by
  tauto

theorem checkStaleCore_spec (ctx : Context) (z : Zones) (item : Item)
    (hz : ctx.zones = some z) (hs : item.isstale = false) :
    ∃ it, checkStaleCore ctx item = some it ∧ it.metadata_ = item.metadata_ ∧
      it.metacrc = item.metacrc ∧
      (it.isstale = true ↔ (item.dbversion ≠ ctx.DBSchemaVersion ∨
        truncToInt (1000 * item.weight) ≠ truncToInt (1000 * (getWeight ctx item).1) ∨
        item.fingerprint ≠ rfingerprint ctx z item.dateTime.date ∨
        (item.timestamp < ctx.lastModified item.fileName ∧
          (item.crc = 0 ∨ item.crc ≠ ctx.computeFileCRC item.fileName)) ∨
        (item.samples = true ∧ item.intervals_.length = 0))) ∧
      (it.isstale = false → it = (getWeight ctx item).2) := by
  unfold checkStaleCore
  simp only [hz, getWeight_snd]
  generalize (getWeight ctx item).1 = w
  split_ifs <;> simp_all
  omega

theorem checkStale_verdict (ctx : Context) (z : Zones) (item : Item)
    (hz : ctx.zones = some z) :
    (staleConditions ctx z item → (checkStale ctx item).map Prod.fst = some true) ∧
    (¬ staleConditions ctx z item → (checkStale ctx item).map Prod.fst = some false) := by
  unfold staleConditions checkStale
  rw [or_chain_regroup]
  by_cases hs : item.isstale = true
  · simp [hs]
  have hs2 : item.isstale = false := by simpa using hs
  obtain ⟨it, hit, hmd, hmc, hst, hw⟩ := checkStaleCore_spec ctx z item hz hs2
  rw [← hst]
  simp only [hs, if_false, hit, metaCRC, false_or]
  by_cases hi : it.isstale = true
  · have hi2 : ¬ it.isstale = false := by simp [hi]
    simp only [hi2, if_false, hi, true_or, not_true_eq_false, false_implies, and_true, true_implies]
    split_ifs <;> simp [hi]
  · have hi2 : it.isstale = false := by simpa using hi
    have hw2 := hw hi2
    simp only [hi2, if_true, hmc, hmd, Bool.false_eq_true, false_or]
    rw [← hw2]
    by_cases hc : ctx.cacheCheckStale it = true
    · simp only [hc, true_or, not_true_eq_false, false_implies, and_true, true_implies]
      split_ifs <;> simp
    · have hc2 : ctx.cacheCheckStale it = false := by simpa using hc
      by_cases hm : item.metacrc = ctx.qChecksum item.metadata_
      · simp [hm, hc2]
      · simp [hm, hc2]

/-- C8: `checkStale` returns true as soon as one of the listed conditions
holds, whatever the others are: the record is already marked stale; the stored
schema version differs from the current one (in particular when every other
field matches); the stored and the freshly resolved body mass differ after
multiplication by 1000 and truncation; the stored fingerprint differs from the
freshly summed one; the file was modified after the stored timestamp and its
checksum differs from the stored one; the series has samples and the interval
collection is empty; the file cache reports stale; the stored metadata
checksum differs from `metaCRC()`. -/
theorem checkStale_true_of_any_condition (ctx : Context) (z : Zones) (item : Item)
    (hz : ctx.zones = some z)
    (h : item.isstale = true ∨ item.dbversion ≠ ctx.DBSchemaVersion ∨
      truncToInt (1000 * item.weight) ≠ truncToInt (1000 * (getWeight ctx item).1) ∨
      item.fingerprint ≠ rfingerprint ctx z item.dateTime.date ∨
      (item.timestamp < ctx.lastModified item.fileName ∧
        item.crc ≠ ctx.computeFileCRC item.fileName) ∨
      (item.samples = true ∧ item.intervals_.length = 0) ∨
      ctx.cacheCheckStale (getWeight ctx item).2 = true ∨
      item.metacrc ≠ metaCRC ctx item) :
    (checkStale ctx item).map Prod.fst = some true := by
  apply (checkStale_verdict ctx z item hz).1
  unfold staleConditions
  rcases h with h | h | h | h | h | h | h | h
  · exact Or.inl h
  · exact Or.inr (Or.inl h)
  · exact Or.inr (Or.inr (Or.inl h))
  · exact Or.inr (Or.inr (Or.inr (Or.inl h)))
  · exact Or.inr (Or.inr (Or.inr (Or.inr (Or.inl ⟨h.1, Or.inr h.2⟩))))
  · exact Or.inr (Or.inr (Or.inr (Or.inr (Or.inr (Or.inl h)))))
  · exact Or.inr (Or.inr (Or.inr (Or.inr (Or.inr (Or.inr (Or.inl h))))))
  · exact Or.inr (Or.inr (Or.inr (Or.inr (Or.inr (Or.inr (Or.inr h))))))

/-- Witness for C8: the record `staleSchemaItem` matches the configuration in
every field except the schema version, and `checkStale` returns true. -/
theorem checkStale_true_of_any_condition_witness :
    sampleContext.zones = some sampleZones ∧
    staleSchemaItem.dbversion ≠ sampleContext.DBSchemaVersion ∧
    ¬ staleConditions sampleContext sampleZones cleanItem ∧
    (checkStale sampleContext staleSchemaItem).map Prod.fst = some true :=
  ⟨rfl, by decide, by unfold staleConditions; decide!,
    checkStale_true_of_any_condition sampleContext sampleZones staleSchemaItem rfl
      (Or.inr (Or.inl (by decide)))⟩

/-- Counterexample to C9 as stated: the record `touchedItem` is not marked
stale and none of the listed conditions triggers (the recomputed content
checksum equals the stored one, both 0), yet `checkStale` returns true,
because the file was modified after the stored timestamp and the stored
checksum is 0. -/
theorem checkStale_zero_checksum_counterexample :
    sampleContext.zones = some sampleZones ∧
    touchedItem.isstale = false ∧
    touchedItem.dbversion = sampleContext.DBSchemaVersion ∧
    truncToInt (1000 * touchedItem.weight) =
      truncToInt (1000 * (getWeight sampleContext touchedItem).1) ∧
    touchedItem.fingerprint = rfingerprint sampleContext sampleZones touchedItem.dateTime.date ∧
    ¬ (touchedItem.timestamp < sampleContext.lastModified touchedItem.fileName ∧
      touchedItem.crc ≠ sampleContext.computeFileCRC touchedItem.fileName) ∧
    ¬ (touchedItem.samples = true ∧ touchedItem.intervals_.length = 0) ∧
    sampleContext.cacheCheckStale (getWeight sampleContext touchedItem).2 = false ∧
    touchedItem.metacrc = metaCRC sampleContext touchedItem ∧
    (checkStale sampleContext touchedItem).map Prod.fst = some true :=
  ⟨rfl, by decide!⟩

/-- C9, amended: for a record that is not marked stale, if the schema version
is equal, the body mass is equal at 1/1000 precision, the fingerprint is
equal, it is not the case that the file was modified after the stored
timestamp and the stored content checksum is 0 or differs from the recomputed
one, it is not the case that samples are present with zero intervals, the
cache reports not stale and the metadata checksum is equal, then `checkStale`
returns false. -/
theorem checkStale_false_of_no_condition (ctx : Context) (z : Zones) (item : Item)
    (hz : ctx.zones = some z) (hstale : item.isstale = false)
    (hver : item.dbversion = ctx.DBSchemaVersion)
    (hweight : truncToInt (1000 * item.weight) = truncToInt (1000 * (getWeight ctx item).1))
    (hfp : item.fingerprint = rfingerprint ctx z item.dateTime.date)
    (hfile : ¬ (item.timestamp < ctx.lastModified item.fileName ∧
      (item.crc = 0 ∨ item.crc ≠ ctx.computeFileCRC item.fileName)))
    (hint : ¬ (item.samples = true ∧ item.intervals_.length = 0))
    (hcache : ctx.cacheCheckStale (getWeight ctx item).2 = false)
    (hmeta : item.metacrc = metaCRC ctx item) :
    (checkStale ctx item).map Prod.fst = some false := by
  apply (checkStale_verdict ctx z item hz).2
  unfold staleConditions
  rintro (h | h | h | h | h | h | h | h)
  · rw [hstale] at h
    cases h
  · exact h hver
  · exact h hweight
  · exact h hfp
  · exact hfile h
  · exact hint h
  · rw [hcache] at h
    cases h
  · exact h hmeta

/-- Witness for C9, amended: the record `cleanItem` under `sampleContext`. -/
theorem checkStale_false_of_no_condition_witness :
    (checkStale sampleContext cleanItem).map Prod.fst = some false :=
  checkStale_false_of_no_condition sampleContext sampleZones cleanItem rfl rfl rfl
    (by decide!) (by decide!) (by decide!) (by decide!) (by decide!) (by decide!)

/-- C10: `checkStale` depends on the zone configuration only through the
power-zone, pace-zone and heart-rate-zone checksums resolved for the
activity's own date: replacing the three zone tables by tables that give the
same three checksums on that date, with every other input unchanged, leaves
the verdict (and the record `checkStale` leaves behind) unchanged, whatever
the tables hold for other dates. -/
theorem checkStale_depends_on_own_date_only (ctx : Context) (z z2 : Zones)
    (pace2 hr2 : Nat → Nat) (item : Item) (hz : ctx.zones = some z)
    (hpow : z.getFingerprint item.dateTime.date = z2.getFingerprint item.dateTime.date)
    (hpace : ctx.paceZonesFingerprint item.dateTime.date = pace2 item.dateTime.date)
    (hhr : ctx.hrZonesFingerprint item.dateTime.date = hr2 item.dateTime.date) :
    checkStale (withZoneTables ctx z2 pace2 hr2) item = checkStale ctx item := by
  have hw : ∀ it : Item, getWeight (withZoneTables ctx z2 pace2 hr2) it = getWeight ctx it :=
    fun _ => rfl
  have hcore : checkStaleCore (withZoneTables ctx z2 pace2 hr2) item = checkStaleCore ctx item := by
    have e1 : (withZoneTables ctx z2 pace2 hr2).zones = some z2 := rfl
    have e2 : (withZoneTables ctx z2 pace2 hr2).DBSchemaVersion = ctx.DBSchemaVersion := rfl
    have e3 : (withZoneTables ctx z2 pace2 hr2).lastModified = ctx.lastModified := rfl
    have e4 : (withZoneTables ctx z2 pace2 hr2).computeFileCRC = ctx.computeFileCRC := rfl
    have e5 : rfingerprint (withZoneTables ctx z2 pace2 hr2) z2 item.dateTime.date
        = rfingerprint ctx z item.dateTime.date := by
      show (z2.getFingerprint _ + pace2 _ + hr2 _) % 2 ^ 64 = _
      rw [← hpow, ← hpace, ← hhr]
      rfl
    unfold checkStaleCore
    simp only [hz, hw, getWeight_snd, e1, e2, e3, e4, e5]
  unfold checkStale
  rw [hcore]
  rfl

/-- Witness for C10: the tables `otherZones`, `otherPace` and `otherHr` agree
with those of `sampleContext` on day 100, the date of `cleanItem`, and differ
on every other day. -/
theorem checkStale_depends_on_own_date_only_witness :
    sampleZones.getFingerprint 99 ≠ otherZones.getFingerprint 99 ∧
    checkStale (withZoneTables sampleContext otherZones otherPace otherHr) cleanItem =
      checkStale sampleContext cleanItem :=
  ⟨by decide,
    checkStale_depends_on_own_date_only sampleContext sampleZones otherZones otherPace otherHr
      cleanItem rfl (by decide) (by decide) (by decide)⟩


/-! ## Refresh -/

theorem getWeight_fst_congr (ctx : Context) (a b : Item) (hd : a.dateTime = b.dateTime)
    (hm : a.metadata_ = b.metadata_) : (getWeight ctx a).1 = (getWeight ctx b).1 := by
  unfold getWeight getText
  simp only [hd, hm]

theorem updateIntervals_eq_collection (ctx : Context) (item r : Item) (f : RideFile)
    (h : updateIntervals ctx item f = some r) :
    r = { item with intervals_ := collection ctx item f } := by
  have hc : collection ctx item f = r.intervals_ := by
    unfold collection
    rw [h]
  rw [hc]
  unfold updateIntervals at h
  split_ifs at h with hs
  · injection h with h
    rw [← h]
  · cases hh : f.dataPoints.head? with
    | none => simp [hh] at h
    | some first =>
      cases hl : f.dataPoints.getLast? with
      | none => simp [hh, hl] at h
      | some last =>
        simp only [hh, hl] at h
        injection h with h
        rw [← h]

theorem updateIntervals_defined (ctx : Context) (item : Item) (f : RideFile)
    (h : item.samples = true → f.dataPoints ≠ []) :
    updateIntervals ctx item f = some { item with intervals_ := collection ctx item f } := by
  by_cases hs : item.samples = true
  · obtain ⟨r, hr⟩ := updateIntervals_isSome ctx item f (h hs)
    rw [hr, updateIntervals_eq_collection ctx item r f hr]
  · have hs2 : item.samples = false := by simpa using hs
    have hu : updateIntervals ctx item f = some { item with intervals_ := [] } := by
      unfold updateIntervals
      simp [hs2]
    rw [hu, updateIntervals_eq_collection ctx item _ f hu]


theorem refreshBody_eq (ctx : Context) (z : Zones) (now : Nat) (item : Item) (f : RideFile)
    (hz : ctx.zones = some z) :
    refreshBody ctx now item f = some
      { refreshInput ctx item f with
        intervals_ := collection ctx (refreshInput ctx item f) f
        isstale := false
        fingerprint := rfingerprint ctx z item.dateTime.date
        dbversion := ctx.DBSchemaVersion
        timestamp := now
        metacrc := ctx.qChecksum f.tags } := by
  have hdef : updateIntervals ctx (refreshInput ctx item f) f =
      some { refreshInput ctx item f with
        intervals_ := collection ctx (refreshInput ctx item f) f } := by
    apply updateIntervals_defined
    intro hs hnil
    simp [refreshInput, hnil] at hs
  unfold refreshBody
  simp only [getWeight_snd]
  have e : ({ ({ ({ item with metadata_ := f.tags } : Item) with
      weight := (getWeight ctx { item with metadata_ := f.tags }).1 } : Item) with
      samples := decide (f.dataPoints.length > 0), metrics_ := ctx.computeMetrics f } : Item)
      = refreshInput ctx item f := rfl
  simp only [e, hdef, hz, metaCRC]
  congr 1



theorem collection_ne_nil (ctx : Context) (item : Item) (f : RideFile)
    (hs : item.samples = true) (hne : f.dataPoints ≠ []) : collection ctx item f ≠ [] := by
  obtain ⟨first, last, _, _, h⟩ := collection_of_samples ctx item f hs hne
  rw [h]
  exact List.cons_ne_nil _ _

theorem refresh_cases (ctx : Context) (z : Zones) (nestedNow now : Nat) (item : Item)
    (isOpen : Bool) (f : RideFile) (hz : ctx.zones = some z) (hstale : item.isstale = true) :
    ∃ item0 : Item, item0.dateTime = item.dateTime ∧ item0.fileName = item.fileName ∧
      item0.crc = item.crc ∧
      refresh ctx nestedNow now item isOpen (some f) = refreshBody ctx now item0 f := by
  unfold refresh
  rw [if_neg (by simp [hstale])]
  cases isOpen with
  | true => exact ⟨item, rfl, rfl, rfl, by simp⟩
  | false =>
    simp only [Bool.false_eq_true, if_false]
    rw [refreshBody_eq ctx z nestedNow item f hz]
    refine ⟨_, ?_, ?_, ?_, rfl⟩ <;> rfl


theorem refreshBody_isstale (ctx : Context) (now : Nat) (item r : Item) (f : RideFile)
    (h : refreshBody ctx now item f = some r) : r.isstale = false := by
  cases hz : ctx.zones with
  | none =>
    unfold refreshBody at h
    simp only [hz] at h
    split at h <;> cases h
  | some z =>
    rw [refreshBody_eq ctx z now item f hz] at h
    injection h with h
    rw [← h]

theorem refresh_isstale (ctx : Context) (nestedNow now : Nat) (item r : Item) (isOpen : Bool)
    (opened : Option RideFile) (h : refresh ctx nestedNow now item isOpen opened = some r) :
    r.isstale = false := by
  unfold refresh at h
  by_cases hs : item.isstale = false
  · rw [if_pos hs] at h
    injection h with h
    rw [← h]
    exact hs
  · rw [if_neg hs] at h
    cases opened with
    | none =>
      simp only at h
      injection h with h
      rw [← h]
    | some f =>
      simp only at h
      cases isOpen with
      | true =>
        simp only [if_true] at h
        exact refreshBody_isstale ctx now item r f h
      | false =>
        simp only [Bool.false_eq_true, if_false] at h
        cases h1 : refreshBody ctx nestedNow item f with
        | none => simp [h1] at h
        | some item1 =>
          simp only [h1] at h
          exact refreshBody_isstale ctx now item1 r f h

theorem updateIntervals_forgets (ctx : Context) (item : Item) (f : RideFile)
    (l : List IntervalItem) :
    updateIntervals ctx { item with intervals_ := l } f = updateIntervals ctx item f := rfl

theorem collection_congr (ctx : Context) (a b : Item) (f : RideFile)
    (h1 : a.samples = b.samples) (h2 : a.dateTime = b.dateTime)
    (h3 : a.metadata_ = b.metadata_) (h4 : a.metrics_ = b.metrics_) :
    collection ctx a f = collection ctx b f := by
  have hcap : capacityModel ctx a = capacityModel ctx b := by
    unfold capacityModel getText
    simp only [h2, h3]
  have htte : ∀ first last, ttePart ctx a f first last = ttePart ctx b f first last := by
    intro first last
    unfold ttePart
    rw [hcap]
  have hclimb : ∀ first last, climbPart ctx a f first last = climbPart ctx b f first last := by
    intro first last
    unfold climbPart
    rw [htte]
  have hroute : ∀ first last, routePart ctx a f first last = routePart ctx b f first last := by
    intro first last
    unfold routePart
    rw [hclimb]
  have hent : ∀ first last, entireInterval f a first last = entireInterval f b first last := by
    intro first last
    unfold entireInterval
    rw [h4]
  unfold collection updateIntervals
  simp only [h1, htte, hclimb, hroute, hent]
  split_ifs
  · rfl
  · cases f.dataPoints.head? <;> cases f.dataPoints.getLast? <;> rfl


/-- C11: a refresh of a stale record whose file opens succeeds (for a non-null
`zones()` table), and the record it leaves is not marked stale and stores the
current schema version, the body mass, the fingerprint, the time of the
refresh and the metadata checksum that a fresh computation gives, with at
least one interval when the series has samples; hence `checkStale`, called on
it with the same configuration, a file not modified after the refresh and a
file cache that reports not stale, returns false. -/
theorem checkStale_false_after_refresh (ctx : Context) (z : Zones) (nestedNow now : Nat)
    (item : Item) (isOpen : Bool) (f : RideFile) (hz : ctx.zones = some z)
    (hstale : item.isstale = true) :
    (∃ r, refresh ctx nestedNow now item isOpen (some f) = some r) ∧
    ∀ r, refresh ctx nestedNow now item isOpen (some f) = some r →
      (r.isstale = false ∧ r.dbversion = ctx.DBSchemaVersion ∧
        truncToInt (1000 * r.weight) = truncToInt (1000 * (getWeight ctx r).1) ∧
        r.fingerprint = rfingerprint ctx z r.dateTime.date ∧ r.timestamp = now ∧
        r.metacrc = metaCRC ctx r ∧ (r.samples = true → r.intervals_.length ≠ 0)) ∧
      (ctx.lastModified r.fileName ≤ now →
        ctx.cacheCheckStale (getWeight ctx r).2 = false →
        (checkStale ctx r).map Prod.fst = some false) := by
  obtain ⟨item0, hd, hf, _, h0⟩ := refresh_cases ctx z nestedNow now item isOpen f hz hstale
  rw [h0, refreshBody_eq ctx z now item0 f hz]
  refine ⟨⟨_, rfl⟩, ?_⟩
  intro r hr
  injection hr with hr
  have hw : r.weight = (getWeight ctx r).1 := by
    rw [← hr]
    exact getWeight_fst_congr ctx _ _ rfl rfl
  have hsamp : r.samples = true → r.intervals_.length ≠ 0 := by
    rw [← hr]
    intro hs
    simp only [refreshInput, decide_eq_true_eq] at hs
    have hne : f.dataPoints ≠ [] := List.ne_nil_of_length_pos hs
    intro hlen
    exact collection_ne_nil ctx (refreshInput ctx item0 f) f
      (by simp [refreshInput, hs]) hne (List.length_eq_zero.mp hlen)
  have hfacts : r.isstale = false ∧ r.dbversion = ctx.DBSchemaVersion ∧
      truncToInt (1000 * r.weight) = truncToInt (1000 * (getWeight ctx r).1) ∧
      r.fingerprint = rfingerprint ctx z r.dateTime.date ∧ r.timestamp = now ∧
      r.metacrc = metaCRC ctx r ∧ (r.samples = true → r.intervals_.length ≠ 0) := by
    refine ⟨by rw [← hr], by rw [← hr], by rw [← hw], ?_, by rw [← hr], by rw [← hr]; rfl, hsamp⟩
    rw [← hr]
    simp only [refreshInput, getWeight_snd, hd]
  refine ⟨hfacts, ?_⟩
  intro hmod hcache
  obtain ⟨h1, h2, h3, h4, h5, h6, h7⟩ := hfacts
  apply (checkStale_verdict ctx z r hz).2
  unfold staleConditions
  rintro (h | h | h | h | h | h | h | h)
  · rw [h1] at h
    cases h
  · exact h h2
  · exact h h3
  · exact h h4
  · rw [h5] at h
    omega
  · exact h7 h.1 h.2
  · rw [hcache] at h
    cases h
  · exact h h6


/-- Witness for C11: `staleItem` refreshed at time 60 from the open file
`lapRide`, last modified at time 50. -/
theorem checkStale_false_after_refresh_witness :
    sampleContext.zones = some sampleZones ∧ staleItem.isstale = true ∧
    refresh sampleContext 60 60 staleItem true (some lapRide) = some refreshedItem ∧
    sampleContext.lastModified refreshedItem.fileName ≤ 60 ∧
    sampleContext.cacheCheckStale (getWeight sampleContext refreshedItem).2 = false ∧
    (checkStale sampleContext refreshedItem).map Prod.fst = some false :=
  ⟨rfl, rfl, by decide!, by decide!, by decide!,
    ((checkStale_false_after_refresh sampleContext sampleZones 60 60 staleItem true lapRide
      rfl rfl).2 refreshedItem (by decide!)).2 (by decide!) (by decide!)⟩

/-- C12: a second run of `refresh()` right after a first one leaves the whole
record, and so the ordered interval collection with its kinds, names, bounds
and sequence numbers, as the first run left it; `updateIntervals` does not
read the collection held before the call; and when the record is marked stale
again and refreshed from the same file under the same configuration, the
collection is the same as after the first refresh. -/
theorem refresh_twice_same_collection (ctx : Context) (item : Item) :
    (∀ (nestedNow now : Nat) (isOpen : Bool) (opened : Option RideFile) (r : Item),
      refresh ctx nestedNow now item isOpen opened = some r →
      ∀ (nestedNow2 now2 : Nat) (isOpen2 : Bool) (opened2 : Option RideFile),
        refresh ctx nestedNow2 now2 r isOpen2 opened2 = some r) ∧
    (∀ (f : RideFile) (l : List IntervalItem),
      updateIntervals ctx { item with intervals_ := l } f = updateIntervals ctx item f ∧
      collection ctx { item with intervals_ := l } f = collection ctx item f) ∧
    (∀ (z : Zones) (f : RideFile) (now now2 : Nat) (r : Item), ctx.zones = some z →
      refreshBody ctx now item f = some r →
      ∃ r2, refreshBody ctx now2 { r with isstale := true } f = some r2 ∧
        r2.intervals_ = r.intervals_) := by
  refine ⟨?_, ?_, ?_⟩
  · intro nestedNow now isOpen opened r h nestedNow2 now2 isOpen2 opened2
    have hs := refresh_isstale ctx nestedNow now item r isOpen opened h
    unfold refresh
    rw [if_pos hs]
  · intro f l
    exact ⟨rfl, rfl⟩
  · intro z f now now2 r hz h
    rw [refreshBody_eq ctx z now item f hz] at h
    injection h with h
    rw [refreshBody_eq ctx z now2 _ f hz]
    refine ⟨_, rfl, ?_⟩
    rw [← h]
    exact collection_congr ctx _ _ f rfl rfl rfl rfl

/-- Witness for C12: `staleItem` refreshed at time 60 from `lapRide`, then
refreshed again at time 70. -/
theorem refresh_twice_same_collection_witness :
    refresh sampleContext 60 60 staleItem true (some lapRide) = some refreshedItem ∧
    refresh sampleContext 70 70 refreshedItem true (some lapRide) = some refreshedItem :=
  ⟨by decide!,
    (refresh_twice_same_collection sampleContext staleItem).1 60 60 true (some lapRide)
      refreshedItem (by decide!) 70 70 true (some lapRide)⟩


/-! ## Sequence numbers -/

theorem numberedFrom_append (c : Int) (l1 l2 : List IntervalItem) :
    NumberedFrom c (l1 ++ l2) ↔ NumberedFrom c l1 ∧ NumberedFrom (c + l1.length) l2 := by
  induction l1 generalizing c with
  | nil => simp [NumberedFrom]
  | cons a rest ih =>
    have e : c + ((rest.length + 1 : Nat) : Int) = c + 1 + (rest.length : Int) := by
      push_cast
      ring
    show (a.displaySequence = c ∧ NumberedFrom (c + 1) (rest ++ l2)) ↔
      (a.displaySequence = c ∧ NumberedFrom (c + 1) rest) ∧
        NumberedFrom (c + ((rest.length + 1 : Nat) : Int)) l2
    rw [ih, e, and_assoc]

theorem numberedFrom_getElem (c : Int) (l : List IntervalItem) (h : NumberedFrom c l) (k : Nat)
    (iv : IntervalItem) (hk : l[k]? = some iv) : iv.displaySequence = c + k := by
  induction l generalizing c k with
  | nil => simp at hk
  | cons a rest ih =>
    obtain ⟨h1, h2⟩ := h
    cases k with
    | zero =>
      simp only [List.getElem?_cons_zero, Option.some.injEq] at hk
      rw [← hk, h1]
      simp
    | succ n =>
      simp only [List.getElem?_cons_succ] at hk
      rw [ih (c + 1) h2 n hk]
      push_cast
      ring

theorem userIntervals_numbered (ctx : Context) (f : RideFile) (first last : RideFilePoint)
    (l : List RideFileInterval) (count : Int) :
    NumberedFrom (count + 1) (userIntervals ctx f first last l count).1 ∧
      (userIntervals ctx f first last l count).2 =
        count + ((userIntervals ctx f first last l count).1.length : Nat) := by
  induction l generalizing count with
  | nil => simp [userIntervals, NumberedFrom]
  | cons a rest ih =>
    unfold userIntervals
    split_ifs with hsk
    · exact ih count
    · obtain ⟨h1, h2⟩ := ih (count + 1)
      refine ⟨⟨rfl, h1⟩, ?_⟩
      simp only [List.length_cons]
      rw [h2]
      push_cast
      ring

theorem peakIntervals_numbered (ctx : Context) (f : RideFile) (l : List Int) (i : Nat)
    (count : Int) :
    NumberedFrom count (peakIntervals ctx f l i count).1 ∧
      (peakIntervals ctx f l i count).2 =
        count + ((peakIntervals ctx f l i count).1.length : Nat) := by
  induction l generalizing i count with
  | nil => simp [peakIntervals, NumberedFrom]
  | cons d rest ih =>
    unfold peakIntervals
    cases hb : ctx.findBests f d with
    | nil => exact ih _ _
    | cons best tl =>
      simp only
      split_ifs with hc
      · obtain ⟨h1, h2⟩ := ih (i + 1) (count + 1)
        refine ⟨⟨rfl, h1⟩, ?_⟩
        simp only [List.length_cons]
        rw [h2]
        push_cast
        ring
      · exact ih _ _

theorem tteItems_numbered (ctx : Context) (f : RideFile) (I : List Int)
    (ws : List (Nat × Int)) (count : Int) : NumberedFrom count (tteItems ctx f I ws count) := by
  induction ws generalizing count with
  | nil => simp [tteItems, NumberedFrom]
  | cons a rest ih =>
    unfold tteItems
    exact ⟨rfl, ih _⟩

theorem routeRides_numbered (ctx : Context) (f : RideFile) (name : String) (l : List RouteRide)
    (count : Int) :
    NumberedFrom count (routeRides ctx f name l count).1 ∧
      (routeRides ctx f name l count).2 =
        count + ((routeRides ctx f name l count).1.length : Nat) := by
  induction l generalizing count with
  | nil => simp [routeRides, NumberedFrom]
  | cons a rest ih =>
    unfold routeRides
    split_ifs with hc
    · obtain ⟨h1, h2⟩ := ih (count + 1)
      refine ⟨⟨rfl, h1⟩, ?_⟩
      simp only [List.length_cons]
      rw [h2]
      push_cast
      ring
    · exact ih _

theorem routeIntervals_numbered (ctx : Context) (f : RideFile) (l : List RouteSegment)
    (count : Int) :
    NumberedFrom count (routeIntervals ctx f l count).1 ∧
      (routeIntervals ctx f l count).2 =
        count + ((routeIntervals ctx f l count).1.length : Nat) := by
  induction l generalizing count with
  | nil => simp [routeIntervals, NumberedFrom]
  | cons a rest ih =>
    unfold routeIntervals
    obtain ⟨h1, h2⟩ := routeRides_numbered ctx f a.name a.rides count
    obtain ⟨h3, h4⟩ := ih (routeRides ctx f a.name a.rides count).2
    simp only
    refine ⟨(numberedFrom_append _ _ _).mpr ⟨h1, ?_⟩, ?_⟩
    · rw [← h2]
      exact h3
    · rw [h4, h2, List.length_append]
      push_cast
      ring

theorem climbStep_numbered (f : RideFile) (metricsOf : ℚ → ℚ → List ℚ) (lastIdx : Nat)
    (c0 : Int) (st : ClimbState) (ip : Nat × RideFilePoint)
    (h : NumberedFrom c0 st.climbs ∧ st.count = c0 + (st.climbs.length : Nat)) :
    NumberedFrom c0 (climbStep f metricsOf lastIdx st ip).climbs ∧
      (climbStep f metricsOf lastIdx st ip).count =
        c0 + ((climbStep f metricsOf lastIdx st ip).climbs.length : Nat) := by
  obtain ⟨h1, h2⟩ := h
  unfold climbStep
  simp only
  split_ifs
  · exact ⟨h1, h2⟩
  · refine ⟨(numberedFrom_append _ _ _).mpr ⟨h1, ?_, trivial⟩, ?_⟩
    · exact h2
    · simp only [List.length_append, List.length_singleton]
      rw [h2]
      push_cast
      ring
  · exact ⟨h1, h2⟩
  · exact ⟨h1, h2⟩
  · exact ⟨h1, h2⟩

theorem climbSearch_numbered (f : RideFile) (metricsOf : ℚ → ℚ → List ℚ) (count : Int) :
    NumberedFrom count (climbSearch f metricsOf count).climbs ∧
      (climbSearch f metricsOf count).count =
        count + ((climbSearch f metricsOf count).climbs.length : Nat) := by
  unfold climbSearch
  have key : ∀ (l : List (Nat × RideFilePoint)) (st : ClimbState),
      (NumberedFrom count st.climbs ∧ st.count = count + (st.climbs.length : Nat)) →
      NumberedFrom count (l.foldl (climbStep f metricsOf (f.dataPoints.length - 1)) st).climbs ∧
        (l.foldl (climbStep f metricsOf (f.dataPoints.length - 1)) st).count =
          count + ((l.foldl (climbStep f metricsOf (f.dataPoints.length - 1)) st).climbs.length
            : Nat) := by
    intro l
    induction l with
    | nil => exact fun st h => h
    | cons a rest ih =>
      intro st h
      rw [List.foldl_cons]
      exact ih _ (climbStep_numbered f metricsOf _ count st a h)
  apply key
  simp [ClimbState.init, NumberedFrom]

/-- The sequence numbers of the blocks of the collection: the USER intervals
are numbered from 2 on, and the PEAKPOWER, TTE, CLIMB and ROUTE intervals
follow one another from `1 + (number of USER intervals)` on. -/
theorem collection_numbering (ctx : Context) (item : Item) (f : RideFile)
    (first last : RideFilePoint) :
    NumberedFrom 2 (userPart ctx f first last).1 ∧
    NumberedFrom (1 + ((userPart ctx f first last).1.length : Nat)) (peakPart ctx f first last).1 ∧
    NumberedFrom (1 + ((userPart ctx f first last).1.length : Nat) +
        ((peakPart ctx f first last).1.length : Nat)) (ttePart ctx item f first last) ∧
    NumberedFrom (1 + ((userPart ctx f first last).1.length : Nat) +
        ((peakPart ctx f first last).1.length : Nat) +
        ((ttePart ctx item f first last).length : Nat)) (climbPart ctx item f first last).climbs ∧
    NumberedFrom (1 + ((userPart ctx f first last).1.length : Nat) +
        ((peakPart ctx f first last).1.length : Nat) +
        ((ttePart ctx item f first last).length : Nat) +
        ((climbPart ctx item f first last).climbs.length : Nat)) (routePart ctx item f first last).1 := by
  obtain ⟨u1, u2⟩ := userIntervals_numbered ctx f first last f.intervals 1
  have p : NumberedFrom (userPart ctx f first last).2 (peakPart ctx f first last).1 ∧
      (peakPart ctx f first last).2 =
        (userPart ctx f first last).2 + ((peakPart ctx f first last).1.length : Nat) := by
    unfold peakPart
    split_ifs
    · exact peakIntervals_numbered _ _ _ _ _
    · simp [NumberedFrom]
  obtain ⟨p1, p2⟩ := p
  have t : NumberedFrom (peakPart ctx f first last).2 (ttePart ctx item f first last) := by
    unfold ttePart
    split_ifs
    · exact tteItems_numbered _ _ _ _ _
    · trivial
  obtain ⟨c1, c2⟩ := climbSearch_numbered f (ctx.intervalMetrics f)
    ((peakPart ctx f first last).2 + (ttePart ctx item f first last).length)
  obtain ⟨r1, _⟩ := routeIntervals_numbered ctx f ctx.routes (climbPart ctx item f first last).count
  have hu2 : (userPart ctx f first last).2 = 1 + ((userPart ctx f first last).1.length : Nat) := u2
  have hc : (climbPart ctx item f first last).count =
      (peakPart ctx f first last).2 + (ttePart ctx item f first last).length +
        ((climbPart ctx item f first last).climbs.length : Nat) := c2
  refine ⟨u1, ?_, ?_, ?_, ?_⟩
  · rw [← hu2]
    exact p1
  · rw [← hu2, ← p2]
    exact t
  · rw [← hu2, ← p2]
    exact c1
  · rw [← hu2, ← p2, ← hc]
    exact r1


/-! ## The kinds of the collection -/

theorem ofType_collection (ctx : Context) (item : Item) (f : RideFile)
    (first last : RideFilePoint) (k : IntervalType) :
    ofType k (entireInterval f item first last ::
        ((userPart ctx f first last).1 ++ (peakPart ctx f first last).1 ++
          ttePart ctx item f first last ++ (climbPart ctx item f first last).climbs ++
          (routePart ctx item f first last).1)) =
      match k with
      | IntervalType.ALL => [entireInterval f item first last]
      | IntervalType.USER => (userPart ctx f first last).1
      | IntervalType.PEAKPOWER => (peakPart ctx f first last).1
      | IntervalType.TTE => ttePart ctx item f first last
      | IntervalType.CLIMB => (climbPart ctx item f first last).climbs
      | IntervalType.ROUTE => (routePart ctx item f first last).1 := by
  have hu := userPart_types ctx f first last
  have hp := peakPart_types ctx f first last
  have ht := ttePart_types ctx item f first last
  have hc := climbPart_types ctx item f first last
  have hr := routePart_types ctx item f first last
  unfold ofType
  cases k
  · rw [List.filter_cons_of_pos (by simp [entireInterval])]
    simp only [List.filter_append]
    rw [filter_type_nil _ _ _ hu (by decide), filter_type_nil _ _ _ hp (by decide),
      filter_type_nil _ _ _ ht (by decide), filter_type_nil _ _ _ hc (by decide),
      filter_type_nil _ _ _ hr (by decide)]
    rfl
  · rw [List.filter_cons_of_neg (by simp [entireInterval])]
    simp only [List.filter_append]
    rw [filter_type_self _ _ hu, filter_type_nil _ _ _ hp (by decide),
      filter_type_nil _ _ _ ht (by decide), filter_type_nil _ _ _ hc (by decide),
      filter_type_nil _ _ _ hr (by decide)]
    simp
  · rw [List.filter_cons_of_neg (by simp [entireInterval])]
    simp only [List.filter_append]
    rw [filter_type_nil _ _ _ hu (by decide), filter_type_self _ _ hp,
      filter_type_nil _ _ _ ht (by decide), filter_type_nil _ _ _ hc (by decide),
      filter_type_nil _ _ _ hr (by decide)]
    simp
  · rw [List.filter_cons_of_neg (by simp [entireInterval])]
    simp only [List.filter_append]
    rw [filter_type_nil _ _ _ hu (by decide), filter_type_nil _ _ _ hp (by decide),
      filter_type_self _ _ ht, filter_type_nil _ _ _ hc (by decide),
      filter_type_nil _ _ _ hr (by decide)]
    simp
  · rw [List.filter_cons_of_neg (by simp [entireInterval])]
    simp only [List.filter_append]
    rw [filter_type_nil _ _ _ hu (by decide), filter_type_nil _ _ _ hp (by decide),
      filter_type_nil _ _ _ ht (by decide), filter_type_self _ _ hc,
      filter_type_nil _ _ _ hr (by decide)]
    simp
  · rw [List.filter_cons_of_neg (by simp [entireInterval])]
    simp only [List.filter_append]
    rw [filter_type_nil _ _ _ hu (by decide), filter_type_nil _ _ _ hp (by decide),
      filter_type_nil _ _ _ ht (by decide), filter_type_nil _ _ _ hc (by decide),
      filter_type_self _ _ hr]
    simp

theorem userIntervals_keys (ctx : Context) (f : RideFile) (first last : RideFilePoint)
    (l : List RideFileInterval) (count : Int) :
    (userIntervals ctx f first last l count).1.map itemKey =
      (l.filter (fun x => !userSkipped f first last x)).map fileKey := by
  induction l generalizing count with
  | nil => rfl
  | cons a rest ih =>
    unfold userIntervals
    split_ifs with hsk
    · rw [List.filter_cons_of_neg (by simp [hsk])]
      exact ih _
    · have hsk2 : userSkipped f first last a = false := by simpa using hsk
      rw [List.filter_cons_of_pos (by simp [hsk2])]
      simp only [List.map_cons]
      rw [ih]
      rfl

theorem userIntervals_mem_file (ctx : Context) (f : RideFile) (first last : RideFilePoint)
    (l : List RideFileInterval) (count : Int) (iv : IntervalItem)
    (h : iv ∈ (userIntervals ctx f first last l count).1) :
    ∃ x ∈ l, userSkipped f first last x = false ∧ itemKey iv = fileKey x := by
  have hm : itemKey iv ∈ (userIntervals ctx f first last l count).1.map itemKey :=
    List.mem_map_of_mem _ h
  rw [userIntervals_keys] at hm
  obtain ⟨x, hx, hk⟩ := List.mem_map.mp hm
  have hx2 := List.mem_filter.mp hx
  exact ⟨x, hx2.1, by simpa using hx2.2, hk.symm⟩

theorem peakIntervals_index (ctx : Context) (f : RideFile) (l : List Int) (i : Nat)
    (count : Int) :
    (∀ iv ∈ (peakIntervals ctx f l i count).1,
      (∃ w, iv.name = IntervalName.peak (catalogIndexOf iv) w) ∧ i ≤ catalogIndexOf iv ∧
        catalogIndexOf iv < i + l.length) ∧
    (peakIntervals ctx f l i count).1.Pairwise
      (fun a b => catalogIndexOf a < catalogIndexOf b) := by
  induction l generalizing i count with
  | nil => simp [peakIntervals]
  | cons d rest ih =>
    have shift : ∀ c, ∀ iv ∈ (peakIntervals ctx f rest (i + 1) c).1,
        (∃ w, iv.name = IntervalName.peak (catalogIndexOf iv) w) ∧ i ≤ catalogIndexOf iv ∧
          catalogIndexOf iv < i + (d :: rest).length := by
      intro c iv hiv
      obtain ⟨a, b, e⟩ := (ih (i + 1) c).1 iv hiv
      refine ⟨a, by omega, ?_⟩
      simp only [List.length_cons]
      omega
    unfold peakIntervals
    cases hb : ctx.findBests f d with
    | nil => exact ⟨shift _, (ih _ _).2⟩
    | cons best tl =>
      simp only
      split_ifs with hc
      · refine ⟨?_, ?_⟩
        · intro iv hiv
          simp only [List.mem_cons] at hiv
          rcases hiv with hiv | hiv
          · subst hiv
            refine ⟨⟨_, rfl⟩, le_refl _, ?_⟩
            simp [catalogIndexOf]
          · exact shift _ iv hiv
        · refine List.Pairwise.cons ?_ (ih _ _).2
          intro iv hiv
          have := ((ih (i + 1) (count + 1)).1 iv hiv).2.1
          show i < catalogIndexOf iv
          omega
      · exact ⟨shift _, (ih _ _).2⟩

theorem tteItems_pairwise (ctx : Context) (f : RideFile) (I : List Int)
    (ws : List (Nat × Int)) (count : Int)
    (h : ws.Pairwise (fun a b => a.1 < b.1)) :
    (tteItems ctx f I ws count).Pairwise (fun a b => a.start < b.start) := by
  induction ws generalizing count with
  | nil => simp [tteItems]
  | cons a rest ih =>
    rw [List.pairwise_cons] at h
    unfold tteItems
    refine List.Pairwise.cons ?_ (ih _ h.2)
    intro iv hiv
    obtain ⟨w, hw, c, hc⟩ := tteItems_mem _ _ _ _ _ _ hiv
    subst hc
    show ((a.1 : Nat) : ℚ) < ((w.1 : Nat) : ℚ)
    exact_mod_cast h.1 w hw

theorem tteWindows_increasing (points : List RideFilePoint) (WPRIME CP : ℚ) :
    (tteWindows points WPRIME CP).Pairwise (fun a b => a.1 < b.1) := by
  have hp := tteOuter_pairwise (aggregate points).integrated (aggregate points).secs WPRIME CP
    (aggregate points).secs 0
  unfold tteWindows
  simp only
  refine List.Pairwise.imp_of_mem ?_ hp
  intro a b ha _ hab
  have := (tteOuter_mem _ _ _ _ _ _ _ ha).2.1
  omega

theorem ttePart_increasing (ctx : Context) (item : Item) (f : RideFile)
    (first last : RideFilePoint) :
    (ttePart ctx item f first last).Pairwise (fun a b => a.start < b.start) := by
  unfold ttePart
  split_ifs
  · exact tteItems_pairwise _ _ _ _ _ (tteWindows_increasing _ _ _)
  · exact List.Pairwise.nil

theorem pairwise_of_const_rank (l : List IntervalItem) (k : IntervalType)
    (h : ∀ iv ∈ l, iv.type = k) :
    l.Pairwise (fun a b => kindRank a.type ≤ kindRank b.type) := by
  induction l with
  | nil => exact List.Pairwise.nil
  | cons a rest ih =>
    refine List.Pairwise.cons ?_ (ih (fun iv hiv => h iv (List.mem_cons_of_mem _ hiv)))
    intro b hb
    rw [h a (List.mem_cons_self _ _), h b (List.mem_cons_of_mem _ hb)]

theorem collection_kind_order (ctx : Context) (item : Item) (f : RideFile) :
    (collection ctx item f).Pairwise (fun a b => kindRank a.type ≤ kindRank b.type) := by
  rcases collection_cases ctx item f with h | ⟨first, last, _, _, h⟩
  · rw [h]
    exact List.Pairwise.nil
  rw [h]
  have hu := userPart_types ctx f first last
  have hp := peakPart_types ctx f first last
  have ht := ttePart_types ctx item f first last
  have hc := climbPart_types ctx item f first last
  have hr := routePart_types ctx item f first last
  refine List.Pairwise.cons ?_ ?_
  · intro b _
    show 0 ≤ _
    exact Nat.zero_le _
  · simp only [List.pairwise_append, List.mem_append]
    refine ⟨⟨⟨⟨pairwise_of_const_rank _ _ hu, pairwise_of_const_rank _ _ hp, ?_⟩,
      pairwise_of_const_rank _ _ ht, ?_⟩, pairwise_of_const_rank _ _ hc, ?_⟩,
      pairwise_of_const_rank _ _ hr, ?_⟩
    · intro a ha b hb
      rw [hu a ha, hp b hb]
      decide
    · rintro a (ha | ha) b hb
      · rw [hu a ha, ht b hb]
        decide
      · rw [hp a ha, ht b hb]
        decide
    · rintro a ((ha | ha) | ha) b hb
      · rw [hu a ha, hc b hb]
        decide
      · rw [hp a ha, hc b hb]
        decide
      · rw [ht a ha, hc b hb]
        decide
    · rintro a (((ha | ha) | ha) | ha) b hb
      · rw [hu a ha, hr b hb]
        decide
      · rw [hp a ha, hr b hb]
        decide
      · rw [ht a ha, hr b hb]
        decide
      · rw [hc a ha, hr b hb]
        decide


/-! ## The collection: sequence numbers, kinds and admission -/

/-- C13, evaluated on the code: for the ride `twoLapRide` (130 seconds at
500 W, file intervals from 10 to 20 and from 30 to 40) the collection holds the
ALL interval, two USER intervals and one TTE interval with the sequence
numbers 0, 2, 3 and 3: the number 1 is not given and the number 3 is given
twice, so the element at position 1 does not have the sequence number 1. -/
theorem user_sequence_numbers_skip_and_repeat :
    (collection sampleContext sampledItem twoLapRide).map
        (fun iv => (iv.type, iv.displaySequence)) =
      [(IntervalType.ALL, 0), (IntervalType.USER, 2), (IntervalType.USER, 3),
       (IntervalType.TTE, 3)] ∧
    ((collection sampleContext sampledItem twoLapRide)[1]?).map (fun iv => iv.displaySequence) =
      some 2 := by
  decide!

/-- C14: for a series with at least one sample, the collection produced by
`updateIntervals` starts with an interval of kind ALL, no other element has
that kind, and this interval runs from the time of the first sample to the
time of the last sample and carries the metric table of the activity. -/
theorem entire_interval_unique (ctx : Context) (item : Item) (f : RideFile)
    (hs : item.samples = true) (hne : f.dataPoints ≠ []) :
    ∃ first last entire rest, f.dataPoints.head? = some first ∧
      f.dataPoints.getLast? = some last ∧
      collection ctx item f = entire :: rest ∧
      ofType IntervalType.ALL (collection ctx item f) = [entire] ∧
      (∀ iv ∈ rest, iv.type ≠ IntervalType.ALL) ∧
      entire.type = IntervalType.ALL ∧ entire.start = first.secs ∧ entire.stop = last.secs ∧
      entire.metrics = item.metrics_ := by
  obtain ⟨first, last, hf, hl, h⟩ := collection_of_samples ctx item f hs hne
  refine ⟨first, last, entireInterval f item first last, _, hf, hl, h, ?_, ?_, rfl, rfl, rfl, rfl⟩
  · rw [h, ofType_collection]
  · intro iv hiv
    simp only [List.mem_append] at hiv
    rcases hiv with (((hiv | hiv) | hiv) | hiv) | hiv
    · rw [userPart_types ctx f first last iv hiv]
      decide
    · rw [peakPart_types ctx f first last iv hiv]
      decide
    · rw [ttePart_types ctx item f first last iv hiv]
      decide
    · rw [climbPart_types ctx item f first last iv hiv]
      decide
    · rw [routePart_types ctx item f first last iv hiv]
      decide

/-- Witness for C14: the activity `sampledItem` with the file `lapRide`. -/
theorem entire_interval_unique_witness :
    sampledItem.samples = true ∧ lapRide.dataPoints ≠ [] ∧
    ∃ first last entire rest, lapRide.dataPoints.head? = some first ∧
      lapRide.dataPoints.getLast? = some last ∧
      collection sampleContext sampledItem lapRide = entire :: rest ∧
      ofType IntervalType.ALL (collection sampleContext sampledItem lapRide) = [entire] ∧
      (∀ iv ∈ rest, iv.type ≠ IntervalType.ALL) ∧
      entire.type = IntervalType.ALL ∧ entire.start = first.secs ∧ entire.stop = last.secs ∧
      entire.metrics = sampledItem.metrics_ :=
  ⟨rfl, constantPower_ne_nil _ _,
    entire_interval_unique sampleContext sampledItem lapRide rfl (constantPower_ne_nil _ _)⟩

/-- Counterexample to C15 as stated: in `nearRide` the samples run from time
0 to time 30 with a recording interval of 1; the file interval from 1 to 30
starts within one recording interval of the first sample and stops at the
last sample, and it is admitted as a USER interval. -/
theorem near_duplicate_admitted_counterexample :
    nearRide.dataPoints.head?.map (fun p => p.secs) = some 0 ∧
    nearRide.dataPoints.getLast?.map (fun p => p.secs) = some 30 ∧
    nearRide.recIntSecs = 1 ∧ |(1 : ℚ) - 0| ≤ 1 ∧ |(30 : ℚ) - 30| ≤ 1 ∧
    ({ name := IntervalName.fileName "near", start := 1, stop := 30, startKM := 0,
       stopKM := 0, displaySequence := 2, color := IntervalColor.standardColor 1,
       type := IntervalType.USER, metrics := [] } : IntervalItem) ∈
      collection sampleContext sampledItem nearRide := by
  decide!

/-- C15, amended: no USER interval of the collection is the whole ride moved
later by one recording interval or less (`start - recIntSecs` not after the
first sample and `stop - recIntSecs` not before the last), nor the whole ride
cut short at its end by one recording interval or less (`start` not after the
first sample and `stop + recIntSecs` not before the last). -/
theorem offset_duplicate_not_admitted (ctx : Context) (item : Item) (f : RideFile)
    (first last : RideFilePoint) (iv : IntervalItem)
    (hf : f.dataPoints.head? = some first) (hl : f.dataPoints.getLast? = some last)
    (h : iv ∈ collection ctx item f) (ht : iv.type = IntervalType.USER) :
    ¬ (iv.start - f.recIntSecs ≤ first.secs ∧ iv.stop - f.recIntSecs ≥ last.secs) ∧
    ¬ (iv.start ≤ first.secs ∧ iv.stop + f.recIntSecs ≥ last.secs) := by
  have hmem : iv ∈ ofType IntervalType.USER (collection ctx item f) := by
    unfold ofType
    exact List.mem_filter.mpr ⟨h, by simpa using ht⟩
  rcases collection_cases ctx item f with h0 | ⟨first2, last2, hf2, hl2, h0⟩
  · rw [h0] at h
    simp at h
  rw [hf] at hf2
  rw [hl] at hl2
  injection hf2 with hf2
  injection hl2 with hl2
  subst hf2
  subst hl2
  rw [h0, ofType_collection] at hmem
  obtain ⟨x, _, hsk, hk⟩ := userIntervals_mem_file ctx f first last f.intervals 1 iv hmem
  have hs : iv.start = x.start := congrArg (fun k => k.2.1) hk
  have he : iv.stop = x.stop := congrArg (fun k => k.2.2) hk
  rw [hs, he]
  unfold userSkipped at hsk
  simp only [Bool.or_eq_false_iff, Bool.and_eq_false_iff, decide_eq_false_iff_not] at hsk
  obtain ⟨⟨⟨_, _⟩, h1, h2⟩, _⟩ := hsk
  constructor
  · rintro ⟨a, b⟩
    rcases h1 with h1 | h1
    · exact h1 a
    · exact h1 b
  · rintro ⟨a, b⟩
    rcases h2 with h2 | h2
    · exact h2 a
    · exact h2 b

/-- Witness for C15, amended: the USER interval from 10 to 20 of `lapRide`,
whose samples run from time 0 to time 30. -/
theorem offset_duplicate_not_admitted_witness :
    ({ name := IntervalName.fileName "lap", start := 10, stop := 20, startKM := 0,
       stopKM := 0, displaySequence := 2, color := IntervalColor.standardColor 1,
       type := IntervalType.USER, metrics := [] } : IntervalItem) ∈
      collection sampleContext sampledItem lapRide ∧
    ¬ ((10 : ℚ) - lapRide.recIntSecs ≤ (0 : ℚ) ∧ (20 : ℚ) - lapRide.recIntSecs ≥ (30 : ℚ)) ∧
    ¬ ((10 : ℚ) ≤ (0 : ℚ) ∧ (20 : ℚ) + lapRide.recIntSecs ≥ (30 : ℚ)) :=
  ⟨by decide!,
    offset_duplicate_not_admitted sampleContext sampledItem lapRide
      { secs := 0, km := 0, watts := 100, alt := 0 } { secs := 30, km := 0, watts := 100, alt := 0 }
      { name := IntervalName.fileName "lap", start := 10, stop := 20, startKM := 0,
        stopKM := 0, displaySequence := 2, color := IntervalColor.standardColor 1,
        type := IntervalType.USER, metrics := [] }
      (by decide!) (by decide!) (by decide!) rfl⟩

/-- C16: the USER intervals of the collection are, in file order and each
once, the file intervals that pass the tests of the loop, with their own name
and bounds; a file interval that is flagged as a peak, flagged as a climb, has
`start ≥ stop` or covers the whole series does not pass; and, for a recording
interval that is not negative, a file interval that is neither peak nor climb,
has `start < stop`, and starts more than one recording interval after the
first sample or stops more than one recording interval before the last
sample does pass. -/
theorem user_interval_admission (ctx : Context) (item : Item) (f : RideFile)
    (hs : item.samples = true) (hne : f.dataPoints ≠ []) :
    ∃ first last, f.dataPoints.head? = some first ∧ f.dataPoints.getLast? = some last ∧
      (ofType IntervalType.USER (collection ctx item f)).map itemKey =
        (f.intervals.filter (fun x => !userSkipped f first last x)).map fileKey ∧
      (∀ x : RideFileInterval,
        (x.isPeak = true ∨ x.isClimb = true ∨ x.start ≥ x.stop ∨
          (x.start ≤ first.secs ∧ x.stop ≥ last.secs)) →
        userSkipped f first last x = true) ∧
      (0 ≤ f.recIntSecs → ∀ x : RideFileInterval,
        x.isPeak = false → x.isClimb = false → x.start < x.stop →
        (x.start > first.secs + f.recIntSecs ∨ x.stop < last.secs - f.recIntSecs) →
        userSkipped f first last x = false) := by
  obtain ⟨first, last, hf, hl, h⟩ := collection_of_samples ctx item f hs hne
  refine ⟨first, last, hf, hl, ?_, ?_, ?_⟩
  · rw [h, ofType_collection]
    exact userIntervals_keys ctx f first last f.intervals 1
  · intro x hx
    unfold userSkipped
    simp only [Bool.or_eq_true, Bool.and_eq_true, decide_eq_true_eq]
    rcases hx with hx | hx | hx | hx
    · exact Or.inl (Or.inl (Or.inl (Or.inl hx)))
    · exact Or.inl (Or.inl (Or.inl (Or.inr hx)))
    · exact Or.inr hx
    · exact Or.inl (Or.inl (Or.inr hx))
  · intro hrec x hp hc hlt hfar
    unfold userSkipped
    simp only [hp, hc, Bool.or_eq_false_iff, Bool.and_eq_false_iff, decide_eq_false_iff_not,
      Bool.false_or, not_le, ge_iff_le, true_and]
    rcases hfar with hfar | hfar
    · refine ⟨⟨Or.inl (by linarith), Or.inl (by linarith), Or.inl (by linarith)⟩, hlt⟩
    · refine ⟨⟨Or.inr (by linarith), Or.inr (by linarith), Or.inr (by linarith)⟩, hlt⟩

/-- Witness for C16: the file interval from 10 to 20 of `lapRide` is the one
USER interval of the collection. -/
theorem user_interval_admission_witness :
    sampledItem.samples = true ∧ lapRide.dataPoints ≠ [] ∧
    (ofType IntervalType.USER (collection sampleContext sampledItem lapRide)).map itemKey =
      [(IntervalName.fileName "lap", 10, 20)] ∧
    ∃ first last, lapRide.dataPoints.head? = some first ∧
      lapRide.dataPoints.getLast? = some last ∧
      (ofType IntervalType.USER (collection sampleContext sampledItem lapRide)).map itemKey =
        (lapRide.intervals.filter (fun x => !userSkipped lapRide first last x)).map fileKey ∧
      (∀ x : RideFileInterval,
        (x.isPeak = true ∨ x.isClimb = true ∨ x.start ≥ x.stop ∨
          (x.start ≤ first.secs ∧ x.stop ≥ last.secs)) →
        userSkipped lapRide first last x = true) ∧
      (0 ≤ lapRide.recIntSecs → ∀ x : RideFileInterval,
        x.isPeak = false → x.isClimb = false → x.start < x.stop →
        (x.start > first.secs + lapRide.recIntSecs ∨ x.stop < last.secs - lapRide.recIntSecs) →
        userSkipped lapRide first last x = false) :=
  ⟨rfl, constantPower_ne_nil _ _, by decide!,
    user_interval_admission sampleContext sampledItem lapRide rfl (constantPower_ne_nil _ _)⟩

/-- C17: when the file is flagged as a run, or flagged as a swim, or has no
power data, the collection produced by `updateIntervals` holds no PEAKPOWER
interval and no TTE interval. -/
theorem no_power_searches_when_gated (ctx : Context) (item : Item) (f : RideFile)
    (h : f.isRun = true ∨ f.isSwim = true ∨ f.wattsPresent = false) :
    ofType IntervalType.PEAKPOWER (collection ctx item f) = [] ∧
    ofType IntervalType.TTE (collection ctx item f) = [] := by
  have hp : ¬ powerSearches f = true := by
    unfold powerSearches
    rcases h with h | h | h <;> simp [h]
  rcases collection_cases ctx item f with h0 | ⟨first, last, _, _, h0⟩
  · rw [h0]
    exact ⟨rfl, rfl⟩
  · have hpk : (peakPart ctx f first last).1 = [] := by
      unfold peakPart
      rw [if_neg hp]
    have htt : ttePart ctx item f first last = [] := by
      unfold ttePart
      rw [if_neg hp]
    rw [h0, ofType_collection, ofType_collection]
    exact ⟨hpk, htt⟩

/-- Witness for C17: 130 seconds at 500 W flagged as a run; without the flag
the same ride gives a TTE interval. -/
theorem no_power_searches_when_gated_witness :
    runRide.isRun = true ∧
    ofType IntervalType.TTE (collection sampleContext sampledItem
      (powerRide (constantPower 130 500))) ≠ [] ∧
    ofType IntervalType.PEAKPOWER (collection sampleContext sampledItem runRide) = [] ∧
    ofType IntervalType.TTE (collection sampleContext sampledItem runRide) = [] :=
  ⟨rfl, by decide!, no_power_searches_when_gated sampleContext sampledItem runRide (Or.inl rfl)⟩

/-- C18: for an activity without samples, `updateIntervals` returns with an
empty interval collection, whatever the collection held before; and a refresh
from a file whose series is empty leaves `samples` unset and the collection
empty, so that the test "samples present with zero intervals" of `checkStale`
does not trigger. -/
theorem empty_series_empty_collection (ctx : Context) (item : Item) (f : RideFile) :
    (item.samples = false → ∀ l : List IntervalItem,
      updateIntervals ctx { item with intervals_ := l } f = some { item with intervals_ := [] } ∧
      collection ctx { item with intervals_ := l } f = []) ∧
    (∀ (z : Zones) (now : Nat), ctx.zones = some z → f.dataPoints = [] →
      ∃ r, refreshBody ctx now item f = some r ∧ r.samples = false ∧ r.intervals_ = [] ∧
        ¬ (r.samples = true ∧ r.intervals_.length = 0)) := by
  constructor
  · intro hs l
    have hu : updateIntervals ctx { item with intervals_ := l } f =
        some { item with intervals_ := [] } := by
      unfold updateIntervals
      simp [hs]
    refine ⟨hu, ?_⟩
    unfold collection
    rw [hu]
  · intro z now hz hnil
    rw [refreshBody_eq ctx z now item f hz]
    have hsamp : (refreshInput ctx item f).samples = false := by
      simp [refreshInput, hnil]
    have hcol : collection ctx (refreshInput ctx item f) f = [] := by
      unfold collection updateIntervals
      simp [hsamp]
    refine ⟨_, rfl, hsamp, hcol, ?_⟩
    rintro ⟨a, _⟩
    rw [show (_ : Item).samples = (refreshInput ctx item f).samples from rfl, hsamp] at a
    cases a

/-- Witness for C18: `cleanItem` has no samples; holding the collection of
`lapRide` before the call, it holds the empty collection after it. -/
theorem empty_series_empty_collection_witness :
    cleanItem.samples = false ∧
    collection sampleContext sampledItem lapRide ≠ [] ∧
    updateIntervals sampleContext
        { cleanItem with intervals_ := collection sampleContext sampledItem lapRide } lapRide =
      some { cleanItem with intervals_ := [] } :=
  ⟨rfl, by decide!,
    ((empty_series_empty_collection sampleContext cleanItem lapRide).1 rfl
      (collection sampleContext sampledItem lapRide)).1⟩

/-- C19: in the collection produced by `updateIntervals` the kinds appear in
the order ALL, USER, PEAKPOWER, TTE, CLIMB, ROUTE; the USER intervals keep the
order of the file's interval list; the PEAKPOWER intervals are named after
entries of the duration catalog at increasing positions; and the TTE intervals
have increasing start times. -/
theorem collection_order (ctx : Context) (item : Item) (f : RideFile) :
    (collection ctx item f).Pairwise (fun a b => kindRank a.type ≤ kindRank b.type) ∧
    List.Sublist ((ofType IntervalType.USER (collection ctx item f)).map itemKey)
      (f.intervals.map fileKey) ∧
    (ofType IntervalType.PEAKPOWER (collection ctx item f)).Pairwise
      (fun a b => catalogIndexOf a < catalogIndexOf b) ∧
    (∀ iv ∈ ofType IntervalType.PEAKPOWER (collection ctx item f),
      (∃ w, iv.name = IntervalName.peak (catalogIndexOf iv) w) ∧
        catalogIndexOf iv < durations.length) ∧
    (ofType IntervalType.TTE (collection ctx item f)).Pairwise
      (fun a b => a.start < b.start) := by
  refine ⟨collection_kind_order ctx item f, ?_⟩
  rcases collection_cases ctx item f with h0 | ⟨first, last, _, _, h0⟩
  · rw [h0]
    refine ⟨?_, List.Pairwise.nil, ?_, List.Pairwise.nil⟩
    · exact List.nil_sublist _
    · intro iv hiv
      simp [ofType] at hiv
  rw [h0, ofType_collection, ofType_collection, ofType_collection]
  simp only
  have hpk : (peakPart ctx f first last).1.Pairwise
        (fun a b => catalogIndexOf a < catalogIndexOf b) ∧
      ∀ iv ∈ (peakPart ctx f first last).1,
        (∃ w, iv.name = IntervalName.peak (catalogIndexOf iv) w) ∧
          catalogIndexOf iv < durations.length := by
    unfold peakPart
    split_ifs
    · obtain ⟨a, b⟩ := peakIntervals_index ctx f durations 0 (userPart ctx f first last).2
      refine ⟨b, ?_⟩
      intro iv hiv
      obtain ⟨w, _, hlt⟩ := a iv hiv
      exact ⟨w, by omega⟩
    · refine ⟨List.Pairwise.nil, ?_⟩
      intro iv hiv
      simp at hiv
  refine ⟨?_, hpk.1, hpk.2, ttePart_increasing ctx item f first last⟩
  show List.Sublist ((userIntervals ctx f first last f.intervals 1).1.map itemKey) _
  rw [userIntervals_keys]
  exact List.Sublist.map _ (List.filter_sublist _)

/-- C20: with a power-zone table configured, `WPRIME` is 22000 when no range
applies to the date of the activity and the value of the range when one
applies, with or without an override; `CP` is the integer read from the
metadata entry `CP` when that is not zero, and otherwise 250 when no range
applies and the value of the range when one does; and the maximal-effort block
searches with this `CP` and this `WPRIME`. -/
theorem capacity_model_resolution (ctx : Context) (item : Item) (z : Zones)
    (hz : ctx.zones = some z) :
    (capacityModel ctx item).2 =
      (if z.whichRange item.dateTime.date ≥ 0 then
        z.getWprime (z.whichRange item.dateTime.date) else 22000) ∧
    (ctx.toInt (getText item "CP" "0") ≠ 0 →
      (capacityModel ctx item).1 = (ctx.toInt (getText item "CP" "0") : ℚ)) ∧
    (ctx.toInt (getText item "CP" "0") = 0 →
      (capacityModel ctx item).1 =
        (if z.whichRange item.dateTime.date ≥ 0 then
          z.getCP (z.whichRange item.dateTime.date) else 250)) ∧
    (∀ (f : RideFile) (first last : RideFilePoint), powerSearches f = true →
      ttePart ctx item f first last =
        tteIntervals ctx f (capacityModel ctx item).2 (capacityModel ctx item).1
          (peakPart ctx f first last).2) := by
  refine ⟨?_, ?_, ?_, ?_⟩
  · unfold capacityModel
    rw [hz]
  · intro ho
    unfold capacityModel
    rw [hz]
    simp only [ho, ne_eq, not_false_eq_true, if_true]
  · intro ho
    unfold capacityModel
    rw [hz]
    simp only [ho, ne_eq, not_true_eq_false, if_false]
  · intro f first last hp
    unfold ttePart
    rw [if_pos hp]

/-- Witness for C20: with the table `sampleZones` (one range, `CP = 250`,
`WPRIME = 22000`) and the metadata entry `CP = 300`, the capacity model is
`(300, 22000)`. -/
theorem capacity_model_resolution_witness :
    overrideContext.zones = some sampleZones ∧
    overrideContext.toInt (getText overrideItem "CP" "0") ≠ 0 ∧
    capacityModel overrideContext overrideItem = (300, 22000) ∧
    (capacityModel overrideContext overrideItem).1 =
      (overrideContext.toInt (getText overrideItem "CP" "0") : ℚ) :=
  ⟨rfl, by decide!, by decide!,
    (capacity_model_resolution overrideContext overrideItem sampleZones rfl).2.1 (by decide!)⟩

/-! ## The jump of the search against the one-second descent -/

theorem bucketsOfSample_zero (watts : ℚ) (fuel : Nat) (st : AggState) :
    bucketsOfSample watts fuel 0 st = [] := by
  cases fuel <;> simp [bucketsOfSample]

theorem truncToInt_second (j : Nat) (l : ℚ) (hl : l = (j : ℚ)) :
    truncToInt (((j + 1 : Nat) : ℚ) * 1000 - l * 1000) = 1000 := by
  have : ((j + 1 : Nat) : ℚ) * 1000 - l * 1000 = ((1000 : Int) : ℚ) := by
    rw [hl]
    push_cast
    ring
  rw [this, truncToInt_intCast]

theorem aggregatePoint_oneHz (st : AggState) (p : RideFilePoint) (j n : Nat)
    (hs : st.sampleSecs = 0) (hw : st.sampleWatts = 0) (hc : 0 ≤ st.cur) (hl : st.lastT = (j : ℚ))
    (hp : p.secs = ((j + 1 : Nat) : ℚ)) (hn : p.watts = (n : ℚ)) :
    aggregatePoint st p =
      { st with lastT := p.secs, time := st.time + 1, series := st.series ++ [st.cur + n],
                cur := st.cur + n, secs := st.secs + 1 } := by
  rw [aggregatePoint_eq, hp, truncToInt_second j _ hl]
  have hP : (0 : ℚ) ≤ p.watts := by
    rw [hn]
    exact Nat.cast_nonneg n
  rw [aggregateSample_full p.watts _ { st with lastT := ((j + 1 : Nat) : ℚ) } hs hw hc hP]
  have hfl : ⌊p.watts⌋ = (n : Int) := by
    rw [hn]
    exact Int.floor_natCast n
  simp only [hfl]

theorem bucketsOfPoint_oneHz (st : AggState) (p : RideFilePoint) (j n : Nat)
    (hs : st.sampleSecs = 0) (hw : st.sampleWatts = 0) (hl : st.lastT = (j : ℚ))
    (hp : p.secs = ((j + 1 : Nat) : ℚ)) (hn : p.watts = (n : ℚ)) :
    bucketsOfPoint st p = [(n : ℚ)] := by
  unfold bucketsOfPoint
  simp only
  rw [hp, truncToInt_second j _ hl, bucketsOfSample]
  simp only [hs, hw, sub_zero, zero_add, truncToInt_thousand, lt_irrefl, if_false, sub_self,
    bucketsOfSample_zero]
  have e : ((1000 : Int) : ℚ) * p.watts / 1000 = (n : ℚ) := by
    rw [hn]
    push_cast
    field_simp
  simp [hn]

theorem foldl_oneHz (ps : List RideFilePoint) (st : AggState) (j : Nat)
    (h : OneHzFrom (j + 1) ps) (hs : st.sampleSecs = 0) (hw : st.sampleWatts = 0)
    (hc : 0 ≤ st.cur) (hl : st.lastT = (j : ℚ)) :
    (ps.foldl aggregatePoint st).secs = st.secs + ps.length ∧
    (ps.foldl aggregatePoint st).series =
      st.series ++ runningSums st.cur (ps.map (fun p => ⌊p.watts⌋)) ∧
    (ps.foldl aggregatePoint st).cur = st.cur + (ps.map (fun p => ⌊p.watts⌋)).sum ∧
    bucketsFrom st ps = ps.map (fun p => p.watts) := by
  induction ps generalizing st j with
  | nil => simp [bucketsFrom, runningSums]
  | cons p ps ih =>
    obtain ⟨hp, ⟨n, hn⟩, hrest⟩ := h
    have hstep := aggregatePoint_oneHz st p j n hs hw hc hl hp hn
    have hb := bucketsOfPoint_oneHz st p j n hs hw hl hp hn
    have hfl : ⌊p.watts⌋ = (n : Int) := by
      rw [hn]
      exact Int.floor_natCast n
    obtain ⟨a, b, c, d⟩ := ih (aggregatePoint st p) (j + 1) hrest
      (by rw [hstep]; exact hs) (by rw [hstep]; exact hw)
      (by rw [hstep]; simp only; omega) (by rw [hstep]; exact hp)
    rw [List.foldl_cons]
    refine ⟨?_, ?_, ?_, ?_⟩
    · rw [a, hstep]
      simp only [List.length_cons]
      omega
    · rw [b, hstep]
      simp only [List.map_cons, runningSums, hfl, List.append_assoc, List.singleton_append]
    · rw [c, hstep]
      simp only [List.map_cons, List.sum_cons, hfl]
      omega
    · rw [bucketsFrom, hb, d]
      simp only [List.map_cons, List.singleton_append, hn]

theorem aggregatePoint_init_zero (p : RideFilePoint) (hp : p.secs = ((0 : Nat) : ℚ)) :
    aggregatePoint AggState.init p = AggState.init ∧ bucketsOfPoint AggState.init p = [] := by
  have hdt : truncToInt (p.secs * 1000 - AggState.init.lastT * 1000) = 0 := by
    have : p.secs * 1000 - AggState.init.lastT * 1000 = ((0 : Int) : ℚ) := by
      rw [hp]
      simp [AggState.init]
    rw [this, truncToInt_intCast]
  constructor
  · rw [aggregatePoint_eq, hdt, aggregateSample_zero, hp]
    simp [AggState.init]
  · unfold bucketsOfPoint
    simp only
    rw [hdt, bucketsOfSample_zero]

theorem runningSums_length (c : Int) (ws : List Int) : (runningSums c ws).length = ws.length := by
  induction ws generalizing c with
  | nil => rfl
  | cons w ws ih => simp [runningSums, ih]

theorem runningSums_getD (c : Int) (ws : List Int) (k : Nat) (hk : k < ws.length) :
    (runningSums c ws).getD k 0 = c + (ws.take (k + 1)).sum := by
  induction ws generalizing c k with
  | nil => simp at hk
  | cons w ws ih =>
    cases k with
    | zero => simp [runningSums]
    | succ k =>
      simp only [List.length_cons, Nat.add_lt_add_iff_right] at hk
      simp only [runningSums, List.getD_cons_succ, ih _ _ hk, List.take_succ_cons, List.sum_cons]
      omega

theorem oneHz_watts (j : Nat) (ps : List RideFilePoint) (h : OneHzFrom j ps) :
    ∀ p ∈ ps, ∃ n : Nat, p.watts = (n : ℚ) := by
  induction ps generalizing j with
  | nil => simp
  | cons p ps ih =>
    obtain ⟨_, hn, hrest⟩ := h
    intro q hq
    simp only [List.mem_cons] at hq
    rcases hq with hq | hq
    · rw [hq]
      exact hn
    · exact ih _ hrest q hq

theorem sum_take_floor (ps : List RideFilePoint) (h : ∀ p ∈ ps, ∃ n : Nat, p.watts = (n : ℚ))
    (m : Nat) :
    ((((ps.map (fun p => ⌊p.watts⌋)).take m).sum : Int) : ℚ) =
      ((ps.map (fun p => p.watts)).take m).sum := by
  induction ps generalizing m with
  | nil => simp
  | cons p ps ih =>
    cases m with
    | zero => simp
    | succ m =>
      obtain ⟨n, hn⟩ := h p (List.mem_cons_self _ _)
      have hfl : ⌊p.watts⌋ = (n : Int) := by
        rw [hn]
        exact Int.floor_natCast n
      simp only [List.map_cons, List.take_succ_cons, List.sum_cons, Int.cast_add,
        ih (fun q hq => h q (List.mem_cons_of_mem _ hq)) m, hfl, hn]
      rfl

theorem aggregate_oneHz (p0 : RideFilePoint) (ps : List RideFilePoint)
    (h : OneHzFrom 0 (p0 :: ps)) :
    (aggregate (p0 :: ps)).secs = ps.length ∧
    (aggregate (p0 :: ps)).integrated =
      runningSums 0 (ps.map (fun p => ⌊p.watts⌋)) ++ [(ps.map (fun p => ⌊p.watts⌋)).sum] ∧
    buckets (p0 :: ps) = ps.map (fun p => p.watts) := by
  obtain ⟨hp, _, hrest⟩ := h
  obtain ⟨h1, h2⟩ := aggregatePoint_init_zero p0 hp
  obtain ⟨a, b, c, d⟩ := foldl_oneHz ps AggState.init 0 hrest rfl rfl (le_refl _) (by simp [AggState.init])
  unfold aggregate buckets AggState.integrated
  rw [List.foldl_cons, bucketsFrom, h1, h2, a, b, c, d]
  simp [AggState.init]

theorem oneHz_range (g : Nat → RideFilePoint) (hs : ∀ k : Nat, (g k).secs = (k : ℚ))
    (hw : ∀ k : Nat, ∃ n : Nat, (g k).watts = (n : ℚ)) (j m : Nat) :
    OneHzFrom j ((List.range' j m).map g) := by
  induction m generalizing j with
  | zero => simp [OneHzFrom]
  | succ m ih =>
    rw [List.range'_succ, List.map_cons]
    exact ⟨hs j, hw j, ih (j + 1)⟩

theorem oneHz_spikeSeries : OneHzFrom 0 spikeSeries := by
  unfold spikeSeries
  rw [List.range_eq_range']
  apply oneHz_range
  · intro k
    rfl
  · intro k
    by_cases hk : k = 1
    · exact ⟨1000, by simp [hk]⟩
    · exact ⟨100, by simp [hk]⟩

/-! ## The work value of the search on a series sampled once per second -/

theorem tteQuotient_eq_searchWork (points : List RideFilePoint) (WPRIME CP : ℚ) (i : Nat) (t : Int) :
    tteQuotient (aggregate points).integrated WPRIME CP i t =
      (((searchWork points i t.toNat : Int) : ℚ) - WPRIME) / CP := rfl

theorem integrated_oneHz_getD (points : List RideFilePoint) (N : Nat)
    (hlen : points.length = N + 1) (h : OneHzFrom 0 points) (k : Nat) (hk : k ≤ N) :
    (((aggregate points).integrated.getD k 0 : Int) : ℚ) = ((buckets points).take (k + 1)).sum := by
  cases points with
  | nil => simp at hlen
  | cons p0 ps =>
    have hps : ps.length = N := by simpa using hlen
    obtain ⟨_, b, c⟩ := aggregate_oneHz p0 ps h
    have hw : ∀ q ∈ ps, ∃ n : Nat, q.watts = (n : ℚ) :=
      fun q hq => oneHz_watts 0 (p0 :: ps) h q (List.mem_cons_of_mem _ hq)
    rw [b, c]
    by_cases hkN : k < N
    · have hk1 : k < (ps.map (fun p => ⌊p.watts⌋)).length := by
        rw [List.length_map, hps]
        exact hkN
      rw [List.getD_append _ _ _ _ (by rw [runningSums_length]; exact hk1),
        runningSums_getD _ _ _ hk1, zero_add]
      exact sum_take_floor ps hw _
    · have hkeq : k = N := by omega
      have hl : (runningSums 0 (ps.map (fun p => ⌊p.watts⌋))).length ≤ k := by
        rw [runningSums_length, List.length_map, hps, hkeq]
      rw [List.getD_append_right _ _ _ _ hl]
      have hidx : k - (runningSums 0 (ps.map (fun p => ⌊p.watts⌋))).length = 0 := by
        rw [runningSums_length, List.length_map, hps, hkeq]
        omega
      rw [hidx]
      simp only [List.getD_cons_zero]
      have h1 := sum_take_floor ps hw (k + 1)
      rw [List.take_of_length_le (by rw [List.length_map, hps]; omega)] at h1
      exact h1

/-- On a series sampled at the times `0, 1, ..., N` with non-negative
whole-number powers, the work value that the search uses for the window that
starts at second `i` and lasts `t` seconds is the work of the buckets of
seconds `i + 1` to `i + t`; when `i + t = N` these are the `t - 1` buckets of
seconds `i + 1` to `N - 1`. -/
theorem searchWork_oneHz (points : List RideFilePoint) (N : Nat)
    (hlen : points.length = N + 1) (h : OneHzFrom 0 points) (i t : Nat) (hit : i + t ≤ N) :
    ((searchWork points i t : Int) : ℚ) = windowWork points (i + 1) t := by
  unfold searchWork windowWork
  push_cast
  rw [integrated_oneHz_getD points N hlen h (i + t) hit,
    integrated_oneHz_getD points N hlen h i (by omega)]
  have e : i + t + 1 = (i + 1) + t := by omega
  rw [e, List.take_add, List.sum_append]
  ring

/-- C22, evaluated on the code: on the series `spikeSeries` (200 buckets, the
first of 1000 W and the others of 100 W) searched with `CP = 100` and
`W' = 0`, the search examines the windows `(0, 200)` and `(0, 199)`.  For the
window `(0, 200)`, which reaches the end of the series, it uses the work 19900
while the buckets of seconds 0 to 199 hold 20900; for the window `(0, 199)` it
uses 19900 while the buckets of seconds 0 to 198 hold 20800 (19900 is the work
of the buckets of seconds 1 to 199). -/
theorem search_work_is_shifted_by_one_second :
    ((0, 200) : Nat × Int) ∈ tteExamined spikeSeries 0 100 ∧
    searchWork spikeSeries 0 200 = 19900 ∧ windowWork spikeSeries 0 200 = 20900 ∧
    ((0, 199) : Nat × Int) ∈ tteExamined spikeSeries 0 100 ∧
    searchWork spikeSeries 0 199 = 19900 ∧ windowWork spikeSeries 0 199 = 20800 ∧
    windowWork spikeSeries 1 199 = 19900 := by
  decide!

/-- C23: for a series sampled at the times `0, 1, ..., N` with non-negative
whole-number powers, the aggregation completes exactly `N` buckets, bucket `j`
holds the power of the sample at time `j + 1`, and for every `k < N` the cell
`integrated_series[k]` is the sum of the buckets of seconds `0` to `k`. -/
theorem integrated_series_one_hertz (points : List RideFilePoint) (N : Nat)
    (hlen : points.length = N + 1) (h : OneHzFrom 0 points) :
    (aggregate points).secs = N ∧
    (buckets points).length = N ∧
    (∀ j : Nat, j < N →
      (buckets points).get? j = (points.get? (j + 1)).map (fun p => p.watts)) ∧
    ∀ k : Nat, k < N →
      (((aggregate points).integrated.getD k 0 : Int) : ℚ) = ((buckets points).take (k + 1)).sum := by
  cases points with
  | nil => simp at hlen
  | cons p0 ps =>
    have hps : ps.length = N := by simpa using hlen
    obtain ⟨a, b, c⟩ := aggregate_oneHz p0 ps h
    refine ⟨by rw [a, hps], by rw [c, List.length_map, hps], ?_, ?_⟩
    · intro j _
      rw [c]
      simp
    · intro k hk
      have hk1 : k < (ps.map (fun p => ⌊p.watts⌋)).length := by
        rw [List.length_map, hps]
        exact hk
      rw [b, c, List.getD_append _ _ _ _ (by rw [runningSums_length]; exact hk1),
        runningSums_getD _ _ _ hk1, zero_add]
      exact sum_take_floor ps (fun q hq => oneHz_watts 0 (p0 :: ps) h q (List.mem_cons_of_mem _ hq)) _

/-- Witness for C23: the series `spikeSeries`, sampled at the times 0 to 200. -/
theorem integrated_series_one_hertz_witness :
    spikeSeries.length = 200 + 1 ∧ OneHzFrom 0 spikeSeries ∧
    (aggregate spikeSeries).secs = 200 ∧
    (((aggregate spikeSeries).integrated.getD 2 0 : Int) : ℚ) = ((buckets spikeSeries).take (2 + 1)).sum :=
  have hlen : spikeSeries.length = 200 + 1 := by decide!
  have h : OneHzFrom 0 spikeSeries := oneHz_spikeSeries
  ⟨hlen, h, (integrated_series_one_hertz spikeSeries 200 hlen h).1,
    (integrated_series_one_hertz spikeSeries 200 hlen h).2.2.2 2 (by norm_num)⟩

/-- C24, evaluated on the code: on the series `dippedAscent` (altitudes 0, 100,
95, 150, 100 at the times 0, 60, 120, 180, 240) the loop emits one CLIMB
interval with start 0, the time of the lowest sample, and stop 120, the time of
the sample of altitude 95; the highest sample of the segment, at which `maxAlt`
was last raised, is the one at time 180. -/
theorem climb_stop_is_not_time_of_maximum :
    collection sampleContext sampledItem (altitudeRide dippedAscent) =
      [{ name := IntervalName.entireActivity, start := 0, stop := 240, startKM := 0, stopKM := 0,
         displaySequence := 0, color := IntervalColor.darkBlue, type := IntervalType.ALL,
         metrics := [] },
       { name := IntervalName.climb 1, start := 0, stop := 120, startKM := 0, stopKM := 0,
         displaySequence := 1, color := IntervalColor.green, type := IntervalType.CLIMB,
         metrics := [] }] ∧
    (((indexed dippedAscent).take 3).foldl
        (climbStep (altitudeRide dippedAscent) (fun _ _ => []) 4) (ClimbState.init 1)).maxAlt = 100 ∧
    (((indexed dippedAscent).take 4).foldl
        (climbStep (altitudeRide dippedAscent) (fun _ _ => []) 4) (ClimbState.init 1)).maxAlt = 150 ∧
    (((indexed dippedAscent).take 4).foldl
        (climbStep (altitudeRide dippedAscent) (fun _ _ => []) 4) (ClimbState.init 1)).stop = 120 := by
  decide!

/-! ## The milestone window and the running maximum -/

theorem milestoneStep_length (st : ClimbState) (ip : Nat × RideFilePoint)
    (h : st.milestones.length ≤ 10) : (milestoneStep st ip).1.length ≤ 10 := by
  unfold milestoneStep
  simp only
  split_ifs with h1 h2 h3
  · simp only [List.length_tail, List.length_append, List.length_singleton]
    omega
  · simp only [List.length_tail, List.length_append, List.length_singleton]
    omega
  · simp only [List.length_append, List.length_singleton] at h2 ⊢
    omega
  · exact h

theorem milestoneStep_cases (st : ClimbState) (ip : Nat × RideFilePoint) :
    ((milestoneStep st ip).2.2 = true ∧ (milestoneStep st ip).1 = (st.milestones ++ [ip]).tail ∧
      closingSample st ip = (st.milestones ++ [ip]).tail.headD ip ∧
      10 < (st.milestones ++ [ip]).length ∧
      flatScan (st.milestones ++ [ip]).tail st.minAlt st.startKm 0 = true) ∨
    ((milestoneStep st ip).2.2 = false ∧ closingSample st ip = ip ∧
      (((milestoneStep st ip).1 = (st.milestones ++ [ip]).tail ∧
          10 < (st.milestones ++ [ip]).length) ∨
        (milestoneStep st ip).1 = st.milestones ++ [ip] ∨
        (milestoneStep st ip).1 = st.milestones)) := by
  unfold closingSample milestoneStep
  simp only
  split_ifs with h1 h2 h3
  · exact Or.inl ⟨rfl, rfl, rfl, h2, h3⟩
  · exact Or.inr ⟨rfl, rfl, Or.inl ⟨rfl, h2⟩⟩
  · exact Or.inr ⟨rfl, rfl, Or.inr (Or.inl rfl)⟩
  · exact Or.inr ⟨rfl, rfl, Or.inr (Or.inr rfl)⟩

theorem oldest_mem_tail (ms : List (Nat × RideFilePoint)) (ip : Nat × RideFilePoint)
    (h : 10 < (ms ++ [ip]).length) : (ms ++ [ip]).tail.headD ip ∈ ms.tail := by
  cases ms with
  | nil => simp at h
  | cons a rest =>
    cases rest with
    | nil => simp at h
    | cons b rest2 => simp

theorem mem_window_tail (st : ClimbState) (ip m : Nat × RideFilePoint)
    (hflat : (milestoneStep st ip).2.2 = false) (hm : m ∈ (milestoneStep st ip).1.tail) :
    m ∈ st.milestones.tail ∨ m = ip := by
  rcases milestoneStep_cases st ip with ⟨h, _⟩ | ⟨_, _, h | h | h⟩
  · rw [h] at hflat
    cases hflat
  · rw [h.1] at hm
    have hm1 := List.mem_of_mem_tail hm
    cases hms : st.milestones with
    | nil =>
      rw [hms] at h
      simp at h
    | cons a rest =>
      rw [hms] at hm1
      simp only [List.cons_append, List.tail_cons, List.mem_append, List.mem_singleton] at hm1
      simpa using hm1
  · rw [h] at hm
    cases hms : st.milestones with
    | nil =>
      rw [hms] at hm
      simp at hm
    | cons a rest =>
      rw [hms] at hm
      simp only [List.cons_append, List.tail_cons, List.mem_append, List.mem_singleton] at hm
      simpa using hm
  · rw [h] at hm
    exact Or.inl hm

theorem mem_window (st : ClimbState) (ip m : Nat × RideFilePoint)
    (hm : m ∈ (milestoneStep st ip).1) : m ∈ st.milestones ∨ m = ip := by
  have happ : ∀ x ∈ st.milestones ++ [ip], x ∈ st.milestones ∨ x = ip := by
    intro x hx
    simpa using hx
  rcases milestoneStep_cases st ip with ⟨_, h, _⟩ | ⟨_, _, h | h | h⟩
  · rw [h] at hm
    exact happ m (List.mem_of_mem_tail hm)
  · rw [h.1] at hm
    exact happ m (List.mem_of_mem_tail hm)
  · rw [h] at hm
    exact happ m hm
  · rw [h] at hm
    exact Or.inl hm

theorem closingSample_flat (st : ClimbState) (ip : Nat × RideFilePoint) (hinv : MilestoneInv st)
    (hflat : (milestoneStep st ip).2.2 = true) :
    closingSample st ip ∈ st.milestones.tail ∧ (closingSample st ip).2.alt ≤ st.maxAlt ∧
      st.maxAlt ≠ -1000 := by
  rcases milestoneStep_cases st ip with ⟨_, _, hp, hlen, _⟩ | ⟨h, _⟩
  · have hmem : closingSample st ip ∈ st.milestones.tail := by
      rw [hp]
      exact oldest_mem_tail _ _ hlen
    exact ⟨hmem, hinv.1 _ hmem, hinv.2.1 (List.ne_nil_of_mem hmem)⟩
  · rw [h] at hflat
    cases hflat

theorem climbStep_flat (f : RideFile) (metricsOf : ℚ → ℚ → List ℚ) (lastIdx : Nat)
    (st : ClimbState) (ip : Nat × RideFilePoint) (hinv : MilestoneInv st)
    (hflat : (milestoneStep st ip).2.2 = true) :
    climbStep f metricsOf lastIdx st ip =
      { hills := if climbAccepted ((closingSample st ip).2.km - segmentStartKm st (closingSample st ip))
            (st.maxAlt - segmentMinAlt st (closingSample st ip)) = true then st.hills + 1
          else st.hills
        start := (closingSample st ip).2.secs
        startKm := (closingSample st ip).2.km
        stop := st.stop
        minAlt := -1000
        maxAlt := -1000
        lastAlt := (closingSample st ip).2.alt
        milestones := [closingSample st ip]
        count := if climbAccepted ((closingSample st ip).2.km - segmentStartKm st (closingSample st ip))
            (st.maxAlt - segmentMinAlt st (closingSample st ip)) = true then st.count + 1
          else st.count
        climbs :=
          if climbAccepted ((closingSample st ip).2.km - segmentStartKm st (closingSample st ip))
              (st.maxAlt - segmentMinAlt st (closingSample st ip)) = true then
            st.climbs ++ [{ name := IntervalName.climb (st.hills + 1),
                            start := segmentStart st (closingSample st ip), stop := st.stop,
                            startKM := f.timeToDistance (segmentStart st (closingSample st ip)),
                            stopKM := f.timeToDistance st.stop,
                            displaySequence := st.count, color := IntervalColor.green,
                            type := IntervalType.CLIMB,
                            metrics := metricsOf (segmentStart st (closingSample st ip)) st.stop }]
          else st.climbs } := by
  obtain ⟨_, hle, hne⟩ := closingSample_flat st ip hinv hflat
  have h1 : ¬ (st.maxAlt = -1000 ∨ st.maxAlt < (closingSample st ip).2.alt) := by
    intro h
    rcases h with h | h
    · exact hne h
    · exact absurd hle (not_le.mpr h)
  unfold climbStep
  simp only [h1, if_false, hflat, true_or, if_true]

theorem climbStep_milestoneInv (f : RideFile) (metricsOf : ℚ → ℚ → List ℚ) (lastIdx : Nat)
    (st : ClimbState) (ip : Nat × RideFilePoint) (hinv : MilestoneInv st)
    (hip : ip.2.alt ≠ -1000) : MilestoneInv (climbStep f metricsOf lastIdx st ip) := by
  have hpalt : (closingSample st ip).2.alt ≠ -1000 := by
    rcases milestoneStep_cases st ip with ⟨hfl, _⟩ | ⟨_, hp, _⟩
    · exact hinv.2.2.1 _ (List.mem_of_mem_tail (closingSample_flat st ip hinv hfl).1)
    · rw [hp]
      exact hip
  have hreset : MilestoneInv
      { hills := 0, start := 0, startKm := 0, stop := 0, minAlt := 0, maxAlt := -1000, lastAlt := 0,
        milestones := [closingSample st ip], count := 0, climbs := [] } := by
    refine ⟨by simp, by simp, ?_, by simp⟩
    intro m hm
    simp only [List.mem_singleton] at hm
    rw [hm]
    exact hpalt
  by_cases hflat : (milestoneStep st ip).2.2 = true
  · rw [climbStep_flat f metricsOf lastIdx st ip hinv hflat]
    exact ⟨hreset.1, hreset.2.1, hreset.2.2.1, hreset.2.2.2⟩
  · have hfl : (milestoneStep st ip).2.2 = false := by simpa using hflat
    have hp : closingSample st ip = ip := by
      rcases milestoneStep_cases st ip with ⟨h, _⟩ | ⟨_, hp, _⟩
      · exact absurd h hflat
      · exact hp
    have hlen := milestoneStep_length st ip hinv.2.2.2
    have hall : ∀ m ∈ (milestoneStep st ip).1, m.2.alt ≠ -1000 := by
      intro m hm
      rcases mem_window st ip m hm with h | h
      · exact hinv.2.2.1 m h
      · rw [h]
        exact hip
    unfold climbStep
    simp only
    split_ifs with h1 h2 h3 h4
    · refine ⟨?_, fun _ => hpalt, hall, hlen⟩
      intro m hm
      simp only at hm ⊢
      rcases mem_window_tail st ip m hfl hm with h | h
      · have hne := hinv.2.1 (List.ne_nil_of_mem h)
        rcases h1 with h1 | h1
        · exact absurd h1 hne
        · exact le_trans (hinv.1 m h) (le_of_lt h1)
      · rw [h, hp]
    · exact ⟨hreset.1, hreset.2.1, hreset.2.2.1, hreset.2.2.2⟩
    · exact ⟨hreset.1, hreset.2.1, hreset.2.2.1, hreset.2.2.2⟩
    · have hmax : st.maxAlt ≠ -1000 ∧ ip.2.alt ≤ st.maxAlt := by
        rw [hp] at h1
        exact ⟨fun h => h1 (Or.inl h), not_lt.mp (fun h => h1 (Or.inr h))⟩
      refine ⟨?_, fun _ => hmax.1, hall, hlen⟩
      intro m hm
      simp only at hm ⊢
      rcases mem_window_tail st ip m hfl hm with h | h
      · exact hinv.1 m h
      · rw [h]
        exact hmax.2
    · have hmax : st.maxAlt ≠ -1000 ∧ ip.2.alt ≤ st.maxAlt := by
        rw [hp] at h1
        exact ⟨fun h => h1 (Or.inl h), not_lt.mp (fun h => h1 (Or.inr h))⟩
      refine ⟨?_, fun _ => hmax.1, hall, hlen⟩
      intro m hm
      simp only at hm ⊢
      rcases mem_window_tail st ip m hfl hm with h | h
      · exact hinv.1 m h
      · rw [h]
        exact hmax.2

theorem foldl_climbStep_milestoneInv (f : RideFile) (metricsOf : ℚ → ℚ → List ℚ) (lastIdx : Nat)
    (l : List (Nat × RideFilePoint)) (hl : ∀ ip ∈ l, ip.2.alt ≠ -1000) (st : ClimbState)
    (hinv : MilestoneInv st) : MilestoneInv (l.foldl (climbStep f metricsOf lastIdx) st) := by
  induction l generalizing st with
  | nil => exact hinv
  | cons a rest ih =>
    rw [List.foldl_cons]
    exact ih (fun ip hip => hl ip (List.mem_cons_of_mem _ hip)) _
      (climbStep_milestoneInv f metricsOf lastIdx st a hinv (hl a (List.mem_cons_self _ _)))

theorem milestoneInv_init (count : Int) : MilestoneInv (ClimbState.init count) := by
  refine ⟨?_, ?_, ?_, ?_⟩ <;> simp [ClimbState.init]

theorem flatScan_false_of_short (l : List (Nat × RideFilePoint)) (a k : ℚ) (c : Int)
    (hc : 0 ≤ c) (h : c + (l.length : Int) < 10) : flatScan l a k c = false := by
  induction l generalizing a k c with
  | nil => rfl
  | cons p2 rest ih =>
    simp only [List.length_cons] at h
    push_cast at h
    unfold flatScan
    split_ifs with hg
    · have h1 : decide (10 ≤ c + 1) = false := decide_eq_false (by omega)
      rw [h1, Bool.false_or]
      exact ih _ _ _ (by omega) (by omega)
    · exact ih _ _ _ (le_refl _) (by omega)

theorem flatScan_iff_all (l : List (Nat × RideFilePoint)) (a k : ℚ) (c : Int)
    (hc : 0 ≤ c) (hne : l ≠ []) (h : c + (l.length : Int) = 10) :
    flatScan l a k c = true ↔ allGradientsBelow20 l a k = true := by
  induction l generalizing a k c with
  | nil => exact absurd rfl hne
  | cons p2 rest ih =>
    simp only [List.length_cons] at h
    push_cast at h
    unfold flatScan allGradientsBelow20
    by_cases hg : gradientBelow20 (p2.2.alt - a) (p2.2.km - k) = true
    · rw [if_pos hg, hg, Bool.true_and]
      cases hr : rest with
      | nil =>
        rw [hr] at h
        simp only [List.length_nil, Nat.cast_zero, add_zero] at h
        have h1 : decide (10 ≤ c + 1) = true := decide_eq_true (by omega)
        rw [h1]
        simp [allGradientsBelow20]
      | cons q rest2 =>
        have h1 : decide (10 ≤ c + 1) = false := by
          rw [hr] at h
          simp only [List.length_cons] at h
          push_cast at h
          exact decide_eq_false (by omega)
        rw [h1, Bool.false_or, ← hr]
        exact ih _ _ _ (by omega) (by rw [hr]; simp) (by omega)
    · rw [if_neg hg]
      have hf : gradientBelow20 (p2.2.alt - a) (p2.2.km - k) = false := by simpa using hg
      rw [hf, Bool.false_and]
      rw [flatScan_false_of_short rest _ _ 0 (le_refl _) (by omega)]

theorem milestoneStep_flat_iff (st : ClimbState) (ip : Nat × RideFilePoint)
    (hlen : st.milestones.length ≤ 10) :
    (milestoneStep st ip).2.2 = true ↔
      ((∃ m, st.milestones.getLast? = some m ∧ ip.2.km - m.2.km > 1 / 10) ∧
        (st.milestones ++ [ip]).tail.length = 10 ∧
        allGradientsBelow20 (st.milestones ++ [ip]).tail st.minAlt st.startKm = true) := by
  have hiff : 10 < (st.milestones ++ [ip]).length →
      (flatScan (st.milestones ++ [ip]).tail st.minAlt st.startKm 0 = true ↔
        allGradientsBelow20 (st.milestones ++ [ip]).tail st.minAlt st.startKm = true) := by
    intro h10
    have hl : (st.milestones ++ [ip]).tail.length = 10 := by
      simp only [List.length_tail, List.length_append, List.length_singleton] at h10 ⊢
      omega
    apply flatScan_iff_all _ _ _ 0 (le_refl _)
    · intro hnil
      rw [hnil] at hl
      simp at hl
    · rw [hl]
      rfl
  have htail : 10 < (st.milestones ++ [ip]).length ↔ (st.milestones ++ [ip]).tail.length = 10 := by
    simp only [List.length_tail, List.length_append, List.length_singleton]
    omega
  unfold milestoneStep
  cases hlast : st.milestones.getLast? with
  | none =>
    have hnil : st.milestones = [] := List.getLast?_eq_none_iff.mp hlast
    simp [hnil]
  | some m =>
    simp only
    by_cases hfar : ip.2.km - m.2.km > 1 / 10
    · have hd : decide (ip.2.km - m.2.km > 1 / 10) = true := decide_eq_true hfar
      rw [hd]
      simp only [if_true]
      by_cases h10 : 10 < (st.milestones ++ [ip]).length
      · have h10b : (st.milestones ++ [ip]).length > 10 := h10
        rw [if_pos h10b]
        by_cases hs : flatScan (st.milestones ++ [ip]).tail st.minAlt st.startKm 0 = true
        · rw [if_pos hs]
          exact ⟨fun _ => ⟨⟨m, rfl, hfar⟩, htail.mp h10, (hiff h10).mp hs⟩, fun _ => rfl⟩
        · rw [if_neg hs]
          constructor
          · intro h
            cases h
          · intro h
            exact absurd ((hiff h10).mpr h.2.2) hs
      · have h10b : ¬ (st.milestones ++ [ip]).length > 10 := h10
        rw [if_neg h10b]
        constructor
        · intro h
          cases h
        · intro h
          exact absurd (htail.mpr h.2.1) h10
    · have hd : decide (ip.2.km - m.2.km > 1 / 10) = false := decide_eq_false hfar
      rw [hd]
      simp only [Bool.false_eq_true, if_false]
      constructor
      · intro h
        cases h
      · rintro ⟨⟨m2, hm2, hfar2⟩, _⟩
        have : m2 = m := by
          have := hm2
          simp only [Option.some.injEq] at this
          exact this.symm
        rw [this] at hfar2
        exact absurd hfar2 hfar

/-- Counterexample to C25 as stated: on the series `gentleRise` the milestone
window is judged flat at the eleventh sample and the step closes the segment,
while `maxAlt` is 19 and the newest milestone of the window, the sample just
read, has the altitude 20: `maxAlt` is not at least the altitude of every
milestone in the window. -/
theorem flat_window_newest_milestone_counterexample :
    (milestoneStep
      (((indexed gentleRise).take 10).foldl
        (climbStep (altitudeRide gentleRise) (fun _ _ => [])
          ((altitudeRide gentleRise).dataPoints.length - 1)) (ClimbState.init 1))
      (10, { secs := 600, km := 2, watts := 0, alt := 20 })).2.2 = true ∧
    (((indexed gentleRise).take 10).foldl
        (climbStep (altitudeRide gentleRise) (fun _ _ => [])
          ((altitudeRide gentleRise).dataPoints.length - 1)) (ClimbState.init 1)).maxAlt = 19 ∧
    (10, { secs := 600, km := 2, watts := 0, alt := 20 }) ∈
      (milestoneStep
        (((indexed gentleRise).take 10).foldl
        (climbStep (altitudeRide gentleRise) (fun _ _ => [])
          ((altitudeRide gentleRise).dataPoints.length - 1)) (ClimbState.init 1))
        (10, { secs := 600, km := 2, watts := 0, alt := 20 })).1 ∧
    (¬ ∀ m ∈ (milestoneStep
        (((indexed gentleRise).take 10).foldl
        (climbStep (altitudeRide gentleRise) (fun _ _ => [])
          ((altitudeRide gentleRise).dataPoints.length - 1)) (ClimbState.init 1))
        (10, { secs := 600, km := 2, watts := 0, alt := 20 })).1,
      m.2.alt ≤ (((indexed gentleRise).take 10).foldl
        (climbStep (altitudeRide gentleRise) (fun _ _ => [])
          ((altitudeRide gentleRise).dataPoints.length - 1)) (ClimbState.init 1)).maxAlt) ∧
    (climbStep (altitudeRide gentleRise) (fun _ _ => [])
        ((altitudeRide gentleRise).dataPoints.length - 1)
        (((indexed gentleRise).take 10).foldl
        (climbStep (altitudeRide gentleRise) (fun _ _ => [])
          ((altitudeRide gentleRise).dataPoints.length - 1)) (ClimbState.init 1))
        (10, { secs := 600, km := 2, watts := 0, alt := 20 })).maxAlt = -1000 := by
  decide!

/-- C25, amended: over a series in which no altitude equals -1000, the
milestone window is judged flat at a sample exactly when the sample is more
than 0.1 km beyond the last milestone, the window then holds 10 milestones and
all 10 successive gradients (the first taken from `minAlt` and `startKm`, each
further one from the milestone before) are below 20.  At such a sample the
sample is replaced by the oldest milestone of the window, `maxAlt` is set and
is at least the altitude of that milestone and of every milestone of the
window older than the sample just read, and the step closes the segment: the
acceptance test decides whether a CLIMB interval is appended, `minAlt` and
`maxAlt` return to -1000, `start` and `startKm` take the time and distance of
the oldest milestone, and the window is reset to that milestone alone. -/
theorem flat_window_closes_segment (f : RideFile) (metricsOf : ℚ → ℚ → List ℚ) (count : Int)
    (pre post : List (Nat × RideFilePoint)) (ip : Nat × RideFilePoint) (st : ClimbState)
    (hsent : ∀ p ∈ f.dataPoints, p.alt ≠ -1000)
    (hsplit : indexed f.dataPoints = pre ++ ip :: post)
    (hst : st = pre.foldl (climbStep f metricsOf (f.dataPoints.length - 1)) (ClimbState.init count)) :
    ((milestoneStep st ip).2.2 = true ↔
      ((∃ m, st.milestones.getLast? = some m ∧ ip.2.km - m.2.km > 1 / 10) ∧
        (st.milestones ++ [ip]).tail.length = 10 ∧
        allGradientsBelow20 (st.milestones ++ [ip]).tail st.minAlt st.startKm = true)) ∧
    ((milestoneStep st ip).2.2 = true →
      (milestoneStep st ip).1 = (st.milestones ++ [ip]).tail ∧
      (milestoneStep st ip).1.length = 10 ∧
      flatScan (milestoneStep st ip).1 st.minAlt st.startKm 0 = true ∧
      (milestoneStep st ip).1.head? = some (closingSample st ip) ∧
      st.maxAlt ≠ -1000 ∧ (closingSample st ip).2.alt ≤ st.maxAlt ∧
      (∀ m ∈ (milestoneStep st ip).1.dropLast, m.2.alt ≤ st.maxAlt) ∧
      climbStep f metricsOf (f.dataPoints.length - 1) st ip =
        { hills := if climbAccepted ((closingSample st ip).2.km - segmentStartKm st (closingSample st ip))
              (st.maxAlt - segmentMinAlt st (closingSample st ip)) = true then st.hills + 1
            else st.hills
          start := (closingSample st ip).2.secs
          startKm := (closingSample st ip).2.km
          stop := st.stop
          minAlt := -1000
          maxAlt := -1000
          lastAlt := (closingSample st ip).2.alt
          milestones := [closingSample st ip]
          count := if climbAccepted ((closingSample st ip).2.km - segmentStartKm st (closingSample st ip))
              (st.maxAlt - segmentMinAlt st (closingSample st ip)) = true then st.count + 1
            else st.count
          climbs :=
            if climbAccepted ((closingSample st ip).2.km - segmentStartKm st (closingSample st ip))
                (st.maxAlt - segmentMinAlt st (closingSample st ip)) = true then
              st.climbs ++ [{ name := IntervalName.climb (st.hills + 1),
                              start := segmentStart st (closingSample st ip), stop := st.stop,
                              startKM := f.timeToDistance (segmentStart st (closingSample st ip)),
                              stopKM := f.timeToDistance st.stop,
                              displaySequence := st.count, color := IntervalColor.green,
                              type := IntervalType.CLIMB,
                              metrics := metricsOf (segmentStart st (closingSample st ip)) st.stop }]
            else st.climbs }) := by
  have hpre : ∀ x ∈ pre, x.2.alt ≠ -1000 := by
    intro x hx
    apply hsent
    apply indexed_mem
    rw [hsplit]
    exact List.mem_append_left _ hx
  have hinv : MilestoneInv st := by
    rw [hst]
    exact foldl_climbStep_milestoneInv f metricsOf _ pre hpre _ (milestoneInv_init count)
  refine ⟨milestoneStep_flat_iff st ip hinv.2.2.2, ?_⟩
  intro hflat
  obtain ⟨_, hle, hne⟩ := closingSample_flat st ip hinv hflat
  have hlen := milestoneStep_length st ip hinv.2.2.2
  rcases milestoneStep_cases st ip with ⟨_, hw, hp, hlong, hscan⟩ | ⟨h, _⟩
  · have hcons : ∃ a rest, st.milestones = a :: rest ∧ rest ≠ [] := by
      cases hms : st.milestones with
      | nil =>
        rw [hms] at hlong
        simp at hlong
      | cons a rest =>
        refine ⟨a, rest, rfl, ?_⟩
        intro hr
        rw [hms, hr] at hlong
        simp at hlong
    obtain ⟨a, rest, hms, hrest⟩ := hcons
    have hw2 : (milestoneStep st ip).1 = rest ++ [ip] := by
      rw [hw, hms]
      rfl
    refine ⟨hw, ?_, ?_, ?_, hne, hle, ?_, climbStep_flat f metricsOf _ st ip hinv hflat⟩
    · rw [hw] at hlen ⊢
      simp only [List.length_tail] at hlen ⊢
      omega
    · rw [hw]
      exact hscan
    · rw [hp, hms]
      cases rest with
      | nil => exact absurd rfl hrest
      | cons b rest2 =>
        rw [hw2]
        rfl
    · intro m hm
      rw [hw2, List.dropLast_concat] at hm
      apply hinv.1
      rw [hms]
      exact hm
  · rw [h] at hflat
    cases hflat

/-- Witness for C25, amended: on the series `gentleRise` the window is judged
flat at the eleventh sample and the window is reset to the milestone of the
second sample. -/
theorem flat_window_closes_segment_witness :
    (∀ p ∈ (altitudeRide gentleRise).dataPoints, p.alt ≠ -1000) ∧
    (milestoneStep
      (((indexed gentleRise).take 10).foldl
        (climbStep (altitudeRide gentleRise) (fun _ _ => [])
          ((altitudeRide gentleRise).dataPoints.length - 1)) (ClimbState.init 1))
      (10, { secs := 600, km := 2, watts := 0, alt := 20 })).2.2 = true ∧
    (climbStep (altitudeRide gentleRise) (fun _ _ => [])
        ((altitudeRide gentleRise).dataPoints.length - 1)
        (((indexed gentleRise).take 10).foldl
        (climbStep (altitudeRide gentleRise) (fun _ _ => [])
          ((altitudeRide gentleRise).dataPoints.length - 1)) (ClimbState.init 1))
        (10, { secs := 600, km := 2, watts := 0, alt := 20 })).milestones =
      [(1, { secs := 60, km := 1 / 5, watts := 0, alt := 11 })] :=
  have hsent : ∀ p ∈ (altitudeRide gentleRise).dataPoints, p.alt ≠ -1000 := by decide!
  have hflat : (milestoneStep
      (((indexed gentleRise).take 10).foldl
        (climbStep (altitudeRide gentleRise) (fun _ _ => [])
          ((altitudeRide gentleRise).dataPoints.length - 1)) (ClimbState.init 1))
      (10, { secs := 600, km := 2, watts := 0, alt := 20 })).2.2 = true := by decide!
  have hclose := ((flat_window_closes_segment (altitudeRide gentleRise) (fun _ _ => []) 1
    ((indexed gentleRise).take 10) [(11, { secs := 660, km := 11 / 5, watts := 0, alt := 21 })]
    (10, { secs := 600, km := 2, watts := 0, alt := 20 }) _ hsent (by decide!) rfl).2 hflat).2.2.2.2.2.2.2
  ⟨hsent, hflat, by rw [hclose]; decide!⟩

/-! ## The aggregation loop ends and keeps its invariant -/

theorem truncToInt_thousand_sub (s : Int) : truncToInt (1000 - (s : ℚ)) = 1000 - s := by
  have : (1000 : ℚ) - (s : ℚ) = ((1000 - s : Int) : ℚ) := by push_cast; ring
  rw [this, truncToInt_intCast]

theorem aggregateSample_inv (watts : ℚ) (fuel : Nat) (dt : Int) (st : AggState)
    (h : AggInv st) : AggInv (aggregateSample watts fuel dt st) := by
  induction fuel generalizing dt st with
  | zero => exact h
  | succ n ih =>
    obtain ⟨⟨s, hs, hs9⟩, hlen⟩ := h
    rw [aggregateSample]
    simp only
    split_ifs with h1 h2
    · exact ⟨⟨s, hs, hs9⟩, hlen⟩
    · rw [hs, truncToInt_thousand_sub] at h2
      refine ⟨⟨s + dt, ?_, by omega⟩, hlen⟩
      simp only [hs]
      push_cast
      ring
    · apply ih
      refine ⟨⟨0, by simp, by omega⟩, ?_⟩
      simp only [List.length_append, List.length_singleton, hlen]

theorem aggregatePoint_inv (st : AggState) (p : RideFilePoint) (h : AggInv st) :
    AggInv (aggregatePoint st p) := by
  rw [aggregatePoint_eq]
  exact aggregateSample_inv _ _ _ _ ⟨h.1, h.2⟩

theorem foldl_aggregatePoint_inv (points : List RideFilePoint) (st : AggState) (h : AggInv st) :
    AggInv (points.foldl aggregatePoint st) := by
  induction points generalizing st with
  | nil => exact h
  | cons p ps ih =>
    rw [List.foldl_cons]
    exact ih _ (aggregatePoint_inv st p h)

theorem aggInv_init : AggInv AggState.init :=
  ⟨⟨0, by simp [AggState.init], by omega⟩, rfl⟩

theorem aggregate_inv (points : List RideFilePoint) : AggInv (aggregate points) :=
  foldl_aggregatePoint_inv points _ aggInv_init

theorem need_pos_of_inv (st : AggState) (h : AggInv st) :
    0 < truncToInt (1000 - st.sampleSecs) := by
  obtain ⟨⟨s, hs, hs9⟩, _⟩ := h
  rw [hs, truncToInt_thousand_sub]
  omega

theorem aggregateSampleRun_nonneg (watts : ℚ) (fuel : Nat) (dt : Int) (st : AggState)
    (h : AggInv st) (h0 : 0 ≤ dt) (hf : dt ≤ (fuel : Int)) :
    aggregateSampleRun watts fuel dt st = some (aggregateSample watts fuel dt st) := by
  induction fuel generalizing dt st with
  | zero =>
    have : dt = 0 := by
      simp only [Nat.cast_zero] at hf
      omega
    simp [aggregateSampleRun, aggregateSample, this]
  | succ n ih =>
    have hneed := need_pos_of_inv st h
    obtain ⟨⟨s, hs, hs9⟩, hlen⟩ := h
    rw [aggregateSampleRun, aggregateSample]
    simp only
    split_ifs with h1 h2
    · rfl
    · rfl
    · apply ih
      · refine ⟨⟨0, by simp, by omega⟩, ?_⟩
        simp only [List.length_append, List.length_singleton, hlen]
      · omega
      · push_cast at hf
        omega

theorem aggregatePointRun_eq (st : AggState) (p : RideFilePoint) (h : AggInv st) :
    aggregatePointRun st p = some (aggregatePoint st p) := by
  have hinv : AggInv { st with lastT := p.secs } := ⟨h.1, h.2⟩
  have hneed := need_pos_of_inv _ hinv
  unfold aggregatePointRun
  rw [aggregatePoint_eq]
  simp only
  by_cases h0 : 0 ≤ truncToInt (p.secs * 1000 - st.lastT * 1000)
  · apply aggregateSampleRun_nonneg _ _ _ _ hinv h0
    push_cast
    omega
  · have hneg : truncToInt (p.secs * 1000 - st.lastT * 1000) < 0 := not_le.mp h0
    rw [aggregateSampleRun, aggregateSample]
    simp only at hneed ⊢
    have hne : ¬ truncToInt (p.secs * 1000 - st.lastT * 1000) = 0 := by omega
    have hlt : truncToInt (p.secs * 1000 - st.lastT * 1000) < truncToInt (1000 - st.sampleSecs) := by
      omega
    simp only [hne, if_false, hlt, if_true]

theorem aggregateRun_eq (points : List RideFilePoint) (st : AggState) (h : AggInv st) :
    aggregateRun st points = some (points.foldl aggregatePoint st) := by
  induction points generalizing st with
  | nil => rfl
  | cons p ps ih =>
    rw [aggregateRun, aggregatePointRun_eq st p h]
    simp only [List.foldl_cons]
    exact ih _ (aggregatePoint_inv st p h)

/-! ## The search loops end -/

theorem tteInnerRun_eq (I : List Int) (WPRIME CP : ℚ) (i fuel : Nat) (t : Int)
    (h : t ≤ (fuel : Int) + 120) :
    tteInnerRun I WPRIME CP i fuel t = some (tteInner I WPRIME CP i fuel t) := by
  induction fuel generalizing t with
  | zero =>
    have : ¬ 120 < t := by
      simp only [Nat.cast_zero] at h
      omega
    simp [tteInnerRun, tteInner, this]
  | succ n ih =>
    rw [tteInnerRun, tteInner]
    split_ifs with h1 h2
    · rfl
    · apply ih
      have : tteTc I WPRIME CP i t < t := not_le.mp h2
      push_cast at h
      omega
    · rfl

theorem tteOuterRun_eq (I : List Int) (secs : Nat) (WPRIME CP : ℚ) (fuel i : Nat)
    (h : secs ≤ i + fuel) :
    tteOuterRun I secs WPRIME CP fuel i = some (tteOuter I secs WPRIME CP fuel i) := by
  induction fuel generalizing i with
  | zero =>
    have : ¬ i < secs := by omega
    simp [tteOuterRun, tteOuter, this]
  | succ n ih =>
    rw [tteOuterRun, tteOuter]
    split_ifs with h1
    · rw [tteInnerRun_eq I WPRIME CP i _ _ (by omega)]
      cases hin : tteInner I WPRIME CP i (tteFirst secs i).toNat (tteFirst secs i) with
      | none =>
        simp only
        exact ih _ (by omega)
      | some t =>
        simp only
        rw [ih _ (by omega)]
        rfl
    · rfl

theorem tteInnerExamined_decreasing (I : List Int) (WPRIME CP : ℚ) (i fuel : Nat) (t : Int) :
    (tteInnerExamined I WPRIME CP i fuel t).Pairwise (fun a b => b < a) := by
  induction fuel generalizing t with
  | zero => simp [tteInnerExamined]
  | succ n ih =>
    unfold tteInnerExamined
    split_ifs with h1 h2
    · simp
    · rw [List.pairwise_cons]
      refine ⟨fun b hb => ?_, ih _⟩
      have := (tteInnerExamined_bounds _ _ _ _ _ _ _ hb).2
      have hlt : tteTc I WPRIME CP i t < t := not_le.mp h2
      omega
    · simp

/-! ## The cells of the integrated series for a recording interval of a second or more -/

theorem aggregateSample_budget (watts : ℚ) (fuel : Nat) (dt : Int) (st : AggState) (s : Int)
    (hs : st.sampleSecs = (s : ℚ)) (hs0 : 0 ≤ s) (hs9 : s ≤ 999) (h0 : 0 ≤ dt) :
    ∃ s1 : Int, (aggregateSample watts fuel dt st).sampleSecs = (s1 : ℚ) ∧ 0 ≤ s1 ∧ s1 ≤ 999 ∧
      1000 * ((aggregateSample watts fuel dt st).secs : Int) + s1 ≤ 1000 * (st.secs : Int) + s + dt ∧
      (aggregateSample watts fuel dt st).lastT = st.lastT := by
  induction fuel generalizing dt st s with
  | zero => exact ⟨s, hs, hs0, hs9, by simp only [aggregateSample]; omega, rfl⟩
  | succ n ih =>
    rw [aggregateSample]
    simp only
    split_ifs with h1 h2
    · exact ⟨s, hs, hs0, hs9, by omega, rfl⟩
    · rw [hs, truncToInt_thousand_sub] at h2
      refine ⟨s + dt, ?_, by omega, by omega, ?_, rfl⟩
      · simp only [hs]
        push_cast
        ring
      · simp only
        omega
    · rw [hs, truncToInt_thousand_sub] at h2 ⊢
      obtain ⟨s1, a, b, c, d, e⟩ := ih (dt - (1000 - s))
        { st with
          time := st.time + 1
          sampleSecs := 0
          sampleWatts := 0
          series := st.series ++ [truncToInt (st.cur + (st.sampleWatts + ((1000 - s : Int) : ℚ) * watts) / 1000)]
          cur := truncToInt (st.cur + (st.sampleWatts + ((1000 - s : Int) : ℚ) * watts) / 1000)
          secs := st.secs + 1 } 0 (by simp) (le_refl _) (by omega) (by omega)
      refine ⟨s1, a, b, c, ?_, e⟩
      simp only at d
      push_cast at d ⊢
      omega

theorem truncToInt_nonneg_le (q : ℚ) (h : 0 ≤ q) :
    0 ≤ truncToInt q ∧ ((truncToInt q : Int) : ℚ) ≤ q := by
  unfold truncToInt
  rw [if_pos h]
  exact ⟨Int.floor_nonneg.mpr h, Int.floor_le q⟩

theorem aggregatePoint_budget (st : AggState) (p : RideFilePoint) (s : Int)
    (hs : st.sampleSecs = (s : ℚ)) (hs0 : 0 ≤ s) (hs9 : s ≤ 999)
    (hb : (1000 * (st.secs : Int) + s : Int) ≤ 1000 * st.lastT) (hp : st.lastT ≤ p.secs) :
    ∃ s1 : Int, (aggregatePoint st p).sampleSecs = (s1 : ℚ) ∧ 0 ≤ s1 ∧ s1 ≤ 999 ∧
      ((1000 * ((aggregatePoint st p).secs : Int) + s1 : Int) : ℚ) ≤ 1000 * (aggregatePoint st p).lastT ∧
      (aggregatePoint st p).lastT = p.secs := by
  rw [aggregatePoint_eq]
  obtain ⟨hd0, hdle⟩ := truncToInt_nonneg_le (p.secs * 1000 - st.lastT * 1000) (by linarith)
  obtain ⟨s1, a, b, c, d, e⟩ := aggregateSample_budget p.watts
    ((truncToInt (p.secs * 1000 - st.lastT * 1000)).toNat + 1)
    (truncToInt (p.secs * 1000 - st.lastT * 1000)) { st with lastT := p.secs } s hs hs0 hs9 hd0
  refine ⟨s1, a, b, c, ?_, e⟩
  rw [e]
  simp only at d ⊢
  have d1 : ((1000 * ((aggregateSample p.watts
      ((truncToInt (p.secs * 1000 - st.lastT * 1000)).toNat + 1)
      (truncToInt (p.secs * 1000 - st.lastT * 1000)) { st with lastT := p.secs }).secs : Int) + s1 : Int) : ℚ) ≤
      ((1000 * (st.secs : Int) + s + truncToInt (p.secs * 1000 - st.lastT * 1000) : Int) : ℚ) := by
    exact_mod_cast d
  push_cast at d1 hb ⊢
  linarith

theorem foldl_aggregatePoint_budget (ps : List RideFilePoint) (st : AggState) (s : Int)
    (hs : st.sampleSecs = (s : ℚ)) (hs0 : 0 ≤ s) (hs9 : s ≤ 999)
    (hb : (1000 * (st.secs : Int) + s : Int) ≤ 1000 * st.lastT)
    (hp : ∀ p ∈ ps, st.lastT ≤ p.secs) (hsorted : ps.Pairwise (fun a b => a.secs ≤ b.secs)) :
    ((ps.foldl aggregatePoint st).secs : ℚ) ≤ (ps.foldl aggregatePoint st).lastT ∧
      (ps.foldl aggregatePoint st).lastT = (ps.getLast?.map (fun p => p.secs)).getD st.lastT := by
  induction ps generalizing st s with
  | nil =>
    refine ⟨?_, rfl⟩
    simp only [List.foldl_nil]
    have hs0q : (0 : ℚ) ≤ (s : ℚ) := by exact_mod_cast hs0
    push_cast at hb
    linarith
  | cons p ps ih =>
    rw [List.pairwise_cons] at hsorted
    obtain ⟨s1, a, b, c, d, e⟩ := aggregatePoint_budget st p s hs hs0 hs9 hb
      (hp p (List.mem_cons_self _ _))
    obtain ⟨r1, r2⟩ := ih (aggregatePoint st p) s1 a b c d
      (fun q hq => by rw [e]; exact hsorted.1 q hq) hsorted.2
    rw [List.foldl_cons]
    refine ⟨r1, ?_⟩
    rw [r2, e]
    cases ps with
    | nil => rfl
    | cons q qs =>
      have hlast : (q :: qs).getLast? = some ((q :: qs).getLast (by simp)) :=
        List.getLast?_eq_getLast _ _
      rw [List.getLast?_cons_cons, hlast]
      rfl

theorem writtenIndices_le (st : AggState) (k : Nat) (h : k ∈ writtenIndices st) : k ≤ st.secs := by
  unfold writtenIndices at h
  simp only [List.mem_cons, List.mem_flatMap, List.mem_range, List.mem_singleton,
    List.not_mem_nil, or_false] at h
  rcases h with h | ⟨a, ha, h | h⟩ <;> omega

theorem readIndices_le (st : AggState) (WPRIME CP : ℚ) (k : Nat)
    (h : k ∈ readIndices st WPRIME CP) : k ≤ st.secs := by
  unfold readIndices at h
  simp only [List.mem_flatMap, List.mem_cons, List.mem_singleton, List.not_mem_nil, or_false] at h
  obtain ⟨w, hw, h⟩ := h
  obtain ⟨_, b, c, _, e⟩ := tteOuterExamined_mem _ _ _ _ _ _ _ hw
  rcases h with h | h <;> omega

/-- For a non-empty series sorted by time with non-negative sample times and a
recording interval of one second or more, every index of the integrated series
that the aggregation writes or the search reads lies below `arraySize`. -/
theorem indices_in_bounds_of_whole_second (f : RideFile) (WPRIME CP : ℚ)
    (hne : f.dataPoints ≠ [])
    (hsorted : f.dataPoints.Pairwise (fun a b => a.secs ≤ b.secs))
    (hpos : ∀ p ∈ f.dataPoints, 0 ≤ p.secs) (hrec : 1 ≤ f.recIntSecs) :
    (∀ k ∈ writtenIndices (aggregate f.dataPoints), (k : Int) < arraySize f) ∧
    ∀ k ∈ readIndices (aggregate f.dataPoints) WPRIME CP, (k : Int) < arraySize f := by
  obtain ⟨r1, r2⟩ := foldl_aggregatePoint_budget f.dataPoints AggState.init 0
    (by simp [AggState.init]) (le_refl _) (by omega) (by simp [AggState.init])
    (fun p hp => by simpa [AggState.init] using hpos p hp) hsorted
  have hsize : ((aggregate f.dataPoints).secs : Int) < arraySize f := by
    unfold arraySize
    cases hl : f.dataPoints.getLast? with
    | none =>
      rw [List.getLast?_eq_none_iff] at hl
      exact absurd hl hne
    | some p =>
      simp only
      unfold aggregate
      rw [hl] at r2
      simp only [Option.map_some', Option.getD_some] at r2
      rw [r2] at r1
      have hq : (0 : ℚ) ≤ p.secs + f.recIntSecs := by
        have := hpos p (List.mem_of_mem_getLast? hl)
        linarith
      unfold truncToInt
      rw [if_pos hq]
      have : ((((f.dataPoints.foldl aggregatePoint AggState.init).secs : Int) + 1 : Int) : ℚ) ≤
          p.secs + f.recIntSecs := by
        push_cast
        linarith
      have := Int.le_floor.mpr this
      omega
  constructor
  · intro k hk
    have := writtenIndices_le _ k hk
    omega
  · intro k hk
    have := readIndices_le _ _ _ k hk
    omega

/-! ## The integrated series of non-negative powers is non-decreasing -/

theorem aggregateSample_lastT (watts : ℚ) (fuel : Nat) (dt : Int) (st : AggState) :
    (aggregateSample watts fuel dt st).lastT = st.lastT := by
  induction fuel generalizing dt st with
  | zero => rfl
  | succ n ih =>
    rw [aggregateSample]
    simp only
    split_ifs
    · rfl
    · rfl
    · rw [ih]
theorem le_truncToInt_add (c : Int) (w : ℚ) (hc : 0 ≤ c) (hw : 0 ≤ w) :
    c ≤ truncToInt ((c : ℚ) + w) := by
  rw [truncToInt_add_nonneg c w hc hw]
  have := Int.floor_nonneg.mpr hw
  omega

theorem aggregateSample_sorted (watts : ℚ) (hP : 0 ≤ watts) (fuel : Nat) (dt : Int)
    (st : AggState) (h0 : 0 ≤ dt) (hs : ∃ s : Int, st.sampleSecs = (s : ℚ) ∧ s ≤ 999)
    (hw : 0 ≤ st.sampleWatts) (hc : 0 ≤ st.cur)
    (hsorted : st.series.Pairwise (fun a b => a ≤ b)) (hcur : ∀ x ∈ st.series, x ≤ st.cur) :
    (∃ s : Int, (aggregateSample watts fuel dt st).sampleSecs = (s : ℚ) ∧ s ≤ 999) ∧
    0 ≤ (aggregateSample watts fuel dt st).sampleWatts ∧
    0 ≤ (aggregateSample watts fuel dt st).cur ∧
    (aggregateSample watts fuel dt st).series.Pairwise (fun a b => a ≤ b) ∧
    ∀ x ∈ (aggregateSample watts fuel dt st).series, x ≤ (aggregateSample watts fuel dt st).cur := by
  induction fuel generalizing dt st with
  | zero => exact ⟨hs, hw, hc, hsorted, hcur⟩
  | succ n ih =>
    obtain ⟨s, hs1, hs9⟩ := hs
    rw [aggregateSample]
    simp only
    split_ifs with h1 h2
    · exact ⟨⟨s, hs1, hs9⟩, hw, hc, hsorted, hcur⟩
    · rw [hs1, truncToInt_thousand_sub] at h2
      refine ⟨⟨s + dt, ?_, by omega⟩, ?_, hc, hsorted, hcur⟩
      · simp only [hs1]
        push_cast
        ring
      · have : (0 : ℚ) ≤ (dt : ℚ) := by exact_mod_cast h0
        simp only
        positivity
    · rw [hs1, truncToInt_thousand_sub] at h2 ⊢
      have hneed : (0 : ℚ) ≤ ((1000 - s : Int) : ℚ) := by
        have : (0 : Int) ≤ 1000 - s := by omega
        exact_mod_cast this
      have hwn : (0 : ℚ) ≤ (st.sampleWatts + ((1000 - s : Int) : ℚ) * watts) / 1000 := by
        positivity
      have hv := le_truncToInt_add st.cur _ hc hwn
      apply ih
      · omega
      · exact ⟨0, by simp, by omega⟩
      · exact le_refl _
      · simp only
        omega
      · simp only
        rw [List.pairwise_append]
        refine ⟨hsorted, by simp, ?_⟩
        intro a ha b hb
        simp only [List.mem_singleton] at hb
        rw [hb]
        exact le_trans (hcur a ha) hv
      · intro x hx
        simp only [List.mem_append, List.mem_singleton] at hx
        rcases hx with hx | hx
        · exact le_trans (hcur x hx) hv
        · simp only
          rw [hx]

theorem foldl_aggregatePoint_sorted (ps : List RideFilePoint) (st : AggState)
    (hP : ∀ p ∈ ps, 0 ≤ p.watts) (hp : ∀ p ∈ ps, st.lastT ≤ p.secs)
    (htime : ps.Pairwise (fun a b => a.secs ≤ b.secs))
    (hs : ∃ s : Int, st.sampleSecs = (s : ℚ) ∧ s ≤ 999)
    (hw : 0 ≤ st.sampleWatts) (hc : 0 ≤ st.cur)
    (hsorted : st.series.Pairwise (fun a b => a ≤ b)) (hcur : ∀ x ∈ st.series, x ≤ st.cur) :
    (ps.foldl aggregatePoint st).series.Pairwise (fun a b => a ≤ b) ∧
    ∀ x ∈ (ps.foldl aggregatePoint st).series, x ≤ (ps.foldl aggregatePoint st).cur := by
  induction ps generalizing st with
  | nil => exact ⟨hsorted, hcur⟩
  | cons p ps ih =>
    rw [List.pairwise_cons] at htime
    have hd0 := (truncToInt_nonneg_le (p.secs * 1000 - st.lastT * 1000)
      (by have := hp p (List.mem_cons_self _ _); linarith)).1
    obtain ⟨a, b, c, d, e⟩ := aggregateSample_sorted p.watts (hP p (List.mem_cons_self _ _))
      ((truncToInt (p.secs * 1000 - st.lastT * 1000)).toNat + 1)
      (truncToInt (p.secs * 1000 - st.lastT * 1000)) { st with lastT := p.secs } hd0 hs hw hc
      hsorted hcur
    have hl : (aggregatePoint st p).lastT = p.secs := by
      rw [aggregatePoint_eq]
      exact aggregateSample_lastT p.watts _ _ _
    rw [List.foldl_cons]
    rw [← aggregatePoint_eq] at a b c d e
    exact ih (aggregatePoint st p) (fun q hq => hP q (List.mem_cons_of_mem _ hq))
      (fun q hq => by rw [hl]; exact htime.1 q hq) htime.2 a b c d e

/-- For a series sorted by time with non-negative sample times and
non-negative powers, the integrated series is non-decreasing over the indices
`0` to `secs`. -/
theorem integrated_nondecreasing (points : List RideFilePoint)
    (hP : ∀ p ∈ points, 0 ≤ p.watts) (hpos : ∀ p ∈ points, 0 ≤ p.secs)
    (htime : points.Pairwise (fun a b => a.secs ≤ b.secs)) :
    ∀ a b : Nat, a ≤ b → b ≤ (aggregate points).secs →
      (aggregate points).integrated.getD a 0 ≤ (aggregate points).integrated.getD b 0 := by
  obtain ⟨h1, h2⟩ := foldl_aggregatePoint_sorted points AggState.init hP
    (fun p hp => by simpa [AggState.init] using hpos p hp) htime
    ⟨0, by simp [AggState.init], by omega⟩ (le_refl _) (le_refl _)
    (by simp [AggState.init]) (by simp [AggState.init])
  have hlen := (aggregate_inv points).2
  have hsorted : (aggregate points).integrated.Pairwise (fun a b => a ≤ b) := by
    unfold AggState.integrated aggregate
    rw [List.pairwise_append]
    refine ⟨h1, by simp, ?_⟩
    intro a ha b hb
    simp only [List.mem_singleton] at hb
    rw [hb]
    exact h2 a ha
  have hl : (aggregate points).integrated.length = (aggregate points).secs + 1 := by
    unfold AggState.integrated
    rw [List.length_append, hlen]
    rfl
  intro a b hab hb
  rw [List.getD_eq_getElem _ _ (by omega), List.getD_eq_getElem _ _ (by omega)]
  rcases Nat.lt_or_eq_of_le hab with hlt | heq
  · exact List.pairwise_iff_getElem.mp hsorted a b (by omega) (by omega) hlt
  · subst heq
    exact le_refl _

/-- C26, evaluated on the code: for the ride `halfSecondRide` (samples at 0 s,
0.5 s and 1 s, recording interval 0.5 s) the array has `arraySize = 1` cell,
the aggregation completes one bucket and writes the indices 0, 0 and 1, and
the index 1 is not below `arraySize`. -/
theorem half_second_series_writes_past_array :
    arraySize halfSecondRide = 1 ∧
    (aggregate halfSecondRide.dataPoints).secs = 1 ∧
    writtenIndices (aggregate halfSecondRide.dataPoints) = [0, 0, 1] ∧
    (aggregate halfSecondRide.dataPoints).integrated = [100, 100] ∧
    ¬ ∀ k ∈ writtenIndices (aggregate halfSecondRide.dataPoints), (k : Int) < arraySize halfSecondRide := by
  decide!

/-- C27: for every series and every `CP > 0` the maximal-effort routine ends
within the iterations its loops are allowed and yields the accepted windows.
At every sample the loop `while (dt)` starts with `need > 0` and ends; at
every start second the durations examined by the loop `while (t > 120)`
strictly decrease and the loop ends; the accepted windows start at strictly
increasing seconds.  The condition `CP > 0` is the range in which the division
by `CP` of the search is defined. -/
theorem maximal_effort_routine_terminates (points : List RideFilePoint) (WPRIME CP : ℚ)
    (_hCP : 0 < CP) :
    tteWindowsRun points WPRIME CP = some (tteWindows points WPRIME CP) ∧
    (∀ (pre post : List RideFilePoint) (p : RideFilePoint), points = pre ++ p :: post →
      0 < truncToInt (1000 - (aggregate pre).sampleSecs) ∧
        aggregatePointRun (aggregate pre) p = some (aggregatePoint (aggregate pre) p)) ∧
    (∀ i : Nat,
      (tteInnerExamined (aggregate points).integrated WPRIME CP i
          (tteFirst (aggregate points).secs i).toNat
          (tteFirst (aggregate points).secs i)).Pairwise (fun a b => b < a) ∧
        tteInnerRun (aggregate points).integrated WPRIME CP i
            (tteFirst (aggregate points).secs i).toNat (tteFirst (aggregate points).secs i) =
          some (tteInner (aggregate points).integrated WPRIME CP i
            (tteFirst (aggregate points).secs i).toNat (tteFirst (aggregate points).secs i))) ∧
    (tteWindows points WPRIME CP).Pairwise (fun a b => a.1 < b.1) := by
  refine ⟨?_, ?_, ?_, ?_⟩
  · unfold tteWindowsRun tteWindows
    rw [aggregateRun_eq points _ aggInv_init]
    simp only
    exact tteOuterRun_eq _ _ _ _ _ _ (by omega)
  · intro pre post p _
    exact ⟨need_pos_of_inv _ (aggregate_inv pre), aggregatePointRun_eq _ p (aggregate_inv pre)⟩
  · intro i
    exact ⟨tteInnerExamined_decreasing _ _ _ _ _ _, tteInnerRun_eq _ _ _ _ _ _ (by omega)⟩
  · unfold tteWindows
    simp only
    refine (tteOuter_pairwise _ _ _ _ _ _).imp_of_mem ?_
    intro a b ha _ hab
    have := (tteOuter_mem _ _ _ _ _ _ _ ha).2.1
    omega

/-- Witness for C27: 130 seconds at 500 W with `CP = 250` and `W' = 22000`. -/
theorem maximal_effort_routine_terminates_witness :
    (0 : ℚ) < 250 ∧
    tteWindowsRun (constantPower 130 500) 22000 250 =
      some (tteWindows (constantPower 130 500) 22000 250) :=
  ⟨by norm_num, (maximal_effort_routine_terminates (constantPower 130 500) 22000 250
    (by norm_num)).1⟩

end RideItem
